import Mathlib

/-!
# xinfc: NDEF/WSC encoder and I2C NFC device framing

A shallow embedding of `src/src/xinfc-wsc.cpp` (`make_wsc_ndef`,
`apply_config`, `select_encryption_mode`) and `src/include/i2c_nfc_device.hpp`
(`read_ndef`, `write_ndef_at`), with the enumerations and the mode names of
`src/include/wifi.hpp`.

Conventions of the embedding:

* a byte buffer (`unsigned char*`) is a `List Nat`; a store into it keeps the
  low 8 bits of the stored value (`% 256`);
* a `std::string` is the list of its bytes;
* a pointer argument that the code compares with `nullptr` is an `Option`;
* `size_t` / `unsigned int` quantities are `Nat`: no sum the code forms can
  wrap for strings and buffers that fit in memory; the one subtraction that
  can wrap, `size - 1` in `apply_config`, is taken modulo `2^64`;
* a thrown `i2c_error` is `Except.error`.
-/

namespace xinfc

set_option autoImplicit false
set_option maxRecDepth 20000

/-! ## wifi.hpp -/

/-- Length limits of `struct wifi_lenghts`. -/
def wifi_lenghts.ssid_min : Nat := 2
/-- Length limits of `struct wifi_lenghts`. -/
def wifi_lenghts.ssid_max : Nat := 28
/-- Length limits of `struct wifi_lenghts`. -/
def wifi_lenghts.pass_min : Nat := 8
/-- Length limits of `struct wifi_lenghts`. -/
def wifi_lenghts.pass_max : Nat := 63

/-- The enumerators of `enum wifi_crypt`. -/
inductive wifi_crypt where
  | wifi_crypt_none
  | wifi_crypt_wep
  | wifi_crypt_tkip
  | wifi_crypt_aes
  | wifi_crypt_tkip_aes
  deriving DecidableEq

/-- The integer value of a `wifi_crypt` enumerator. -/
def wifi_crypt.val : wifi_crypt → Nat
  | .wifi_crypt_none => 0x01
  | .wifi_crypt_wep => 0x02
  | .wifi_crypt_tkip => 0x04
  | .wifi_crypt_aes => 0x08
  | .wifi_crypt_tkip_aes => 0x04 ||| 0x08

/-- The enumerators of `enum wifi_auth`. -/
inductive wifi_auth where
  | wifi_auth_open
  | wifi_auth_wpa_personal
  | wifi_auth_shared
  | wifi_auth_wpa_enterprise
  | wifi_auth_wpa2_enterprise
  | wifi_auth_wpa2_personal
  | wifi_auth_wpa_wpa2_personal
  deriving DecidableEq

/-- The integer value of a `wifi_auth` enumerator. -/
def wifi_auth.val : wifi_auth → Nat
  | .wifi_auth_open => 0x01
  | .wifi_auth_wpa_personal => 0x02
  | .wifi_auth_shared => 0x04
  | .wifi_auth_wpa_enterprise => 0x08
  | .wifi_auth_wpa2_enterprise => 0x10
  | .wifi_auth_wpa2_personal => 0x20
  | .wifi_auth_wpa_wpa2_personal => 0x02 ||| 0x20

/-! ## xinfc-wsc.cpp: `make_wsc_ndef` -/

/-- The bytes of the literal `"application/vnd.wfa.wsc"` (`ndef_app` without
its terminating NUL: the loop copies `sizeof(ndef_app) - 1` bytes). -/
def ndef_app : List Nat :=
  [0x61, 0x70, 0x70, 0x6c, 0x69, 0x63, 0x61, 0x74, 0x69, 0x6f, 0x6e, 0x2f,
   0x76, 0x6e, 0x64, 0x2e, 0x77, 0x66, 0x61, 0x2e, 0x77, 0x73, 0x63]

/-- The statement `buf[i++] = b;` on the pair (buffer, write index): the store
keeps the low 8 bits of `b`. -/
def put (st : List Nat × Nat) (b : Nat) : List Nat × Nat :=
  (st.1.set st.2 (b % 256), st.2 + 1)

/-- The loop `for (j = 0; j < n; j++) buf[i++] = s[j];` over the bytes `s`. -/
def put_all (st : List Nat × Nat) (s : List Nat) : List Nat × Nat :=
  s.foldl put st

/-- The function `make_wsc_ndef`: the returned length and the buffer after
the call. A return value of 0 is the failure outcome. -/
def make_wsc_ndef (ssid pass : List Nat) (crypt : wifi_crypt) (auth : wifi_auth)
    (buf : List Nat) (max_size : Nat) : Nat × List Nat :=
  if 69 + ssid.length + pass.length > max_size then
    (0, buf)
  else
    let payload_len := 35 + ssid.length + pass.length
    let st : List Nat × Nat := (buf, 0)
    let st := put st 0x03
    let st := put st (30 + payload_len)
    let st := put st 0xd2
    let st := put st 0x17
    let st := put st (4 + payload_len)
    let st := put_all st ndef_app
    let st := put st 0x10
    let st := put st 0x0e
    let st := put st ((payload_len >>> 8) &&& 0xFF)
    let st := put st (payload_len &&& 0xFF)
    let st := put st 0x10
    let st := put st 0x26
    let st := put st 0x00
    let st := put st 0x01
    let st := put st 0x01
    let st := put st 0x10
    let st := put st 0x45
    let st := put st ((ssid.length >>> 8) &&& 0xFF)
    let st := put st (ssid.length &&& 0xFF)
    let st := put_all st ssid
    let st := put st 0x10
    let st := put st 0x03
    let st := put st 0x00
    let st := put st 0x02
    let st := put st ((auth.val >>> 8) &&& 0xFF)
    let st := put st (auth.val &&& 0xFF)
    let st := put st 0x10
    let st := put st 0x0f
    let st := put st 0x00
    let st := put st 0x02
    let st := put st ((crypt.val >>> 8) &&& 0xFF)
    let st := put st (crypt.val &&& 0xFF)
    let st := put st 0x10
    let st := put st 0x27
    let st := put st ((pass.length >>> 8) &&& 0xFF)
    let st := put st (pass.length &&& 0xFF)
    let st := put_all st pass
    let st := put st 0x10
    let st := put st 0x20
    let st := put st 0x00
    let st := put st 0x06
    let st := put st 0xFF
    let st := put st 0xFF
    let st := put st 0xFF
    let st := put st 0xFF
    let st := put st 0xFF
    let st := put st 0xFF
    let st := put st 0xFE
    (st.2, st.1)

/-- The values `make_wsc_ndef` stores, in the order of its stores, before the
truncation to 8 bits. -/
def wsc_stores (ssid pass : List Nat) (crypt : wifi_crypt) (auth : wifi_auth) : List Nat :=
  [0x03, 30 + (35 + ssid.length + pass.length), 0xd2, 0x17,
    4 + (35 + ssid.length + pass.length)] ++ ndef_app ++
  [0x10, 0x0e, ((35 + ssid.length + pass.length) >>> 8) &&& 0xFF,
    (35 + ssid.length + pass.length) &&& 0xFF,
    0x10, 0x26, 0x00, 0x01, 0x01, 0x10, 0x45,
    (ssid.length >>> 8) &&& 0xFF, ssid.length &&& 0xFF] ++ ssid ++
  [0x10, 0x03, 0x00, 0x02, (auth.val >>> 8) &&& 0xFF, auth.val &&& 0xFF,
    0x10, 0x0f, 0x00, 0x02, (crypt.val >>> 8) &&& 0xFF, crypt.val &&& 0xFF,
    0x10, 0x27, (pass.length >>> 8) &&& 0xFF, pass.length &&& 0xFF] ++ pass ++
  [0x10, 0x20, 0x00, 0x06, 0xFF, 0xFF, 0xFF, 0xFF, 0xFF, 0xFF, 0xFE]

/-- The bytes of an ASCII string, as the program receives them in a
`std::string`. -/
def str_bytes (s : String) : List Nat := s.toList.map Char.toNat

/-! ## The message layout, as the specification words it -/

/-- The two bytes of a 16-bit quantity, most significant first. -/
def be16 (n : Nat) : List Nat := [n / 256 % 256, n % 256]

/-- The number denoted by a big-endian byte sequence. -/
def be_val (bs : List Nat) : Nat := bs.foldl (fun acc b => 256 * acc + b) 0

/-- One attribute: 2-byte tag, 2-byte big-endian length of the value, value. -/
def tlv (tag : Nat) (value : List Nat) : List Nat :=
  be16 tag ++ be16 value.length ++ value

/-- The MAC-address value of the message. -/
def wsc_mac : List Nat := [0xFF, 0xFF, 0xFF, 0xFF, 0xFF, 0xFF]

/-- The attribute TLVs nested in the credential, network index through MAC
address. -/
def wsc_attrs (ssid pass : List Nat) (crypt : wifi_crypt) (auth : wifi_auth) : List Nat :=
  tlv 0x1026 [0x01] ++ tlv 0x1045 ssid ++ tlv 0x1003 (be16 auth.val) ++
    tlv 0x100F (be16 crypt.val) ++ tlv 0x1027 pass ++ tlv 0x1020 wsc_mac

/-- The NDEF record: header bytes `0xD2 0x17`, one-byte payload length, the
MIME type, the credential TLV header and the nested attributes. -/
def wsc_record (ssid pass : List Nat) (crypt : wifi_crypt) (auth : wifi_auth) : List Nat :=
  [0xD2, 0x17, (4 + (35 + ssid.length + pass.length)) % 256] ++ ndef_app ++
    be16 0x100E ++ be16 (35 + ssid.length + pass.length) ++ wsc_attrs ssid pass crypt auth

/-- The whole message: byte `0x03`, one-byte record length, the record, and
the closing byte `0xFE`. -/
def wsc_message (ssid pass : List Nat) (crypt : wifi_crypt) (auth : wifi_auth) : List Nat :=
  [0x03, (30 + (35 + ssid.length + pass.length)) % 256] ++ wsc_record ssid pass crypt auth ++ [0xFE]

/-- The bytes `make_wsc_ndef` leaves in the message area: the first `n` bytes
of the buffer, `n` the returned length. -/
def encode_output (ssid pass : List Nat) (crypt : wifi_crypt) (auth : wifi_auth)
    (buf : List Nat) (max_size : Nat) : List Nat :=
  (make_wsc_ndef ssid pass crypt auth buf max_size).2.take
    (make_wsc_ndef ssid pass crypt auth buf max_size).1

/-! ## Re-parsing a message as a TLV stream -/

/-- Split a byte sequence into attributes {2-byte tag, 2-byte big-endian
length, value}; `none` when the bytes are not a whole number of attributes.
The first argument bounds the number of attributes. -/
def parse_attrs : Nat → List Nat → Option (List (Nat × List Nat))
  | _, [] => some []
  | fuel + 1, t1 :: t0 :: l1 :: l0 :: rest =>
    if 256 * l1 + l0 ≤ rest.length then
      (parse_attrs fuel (rest.drop (256 * l1 + l0))).map
        (fun r => (256 * t1 + t0, rest.take (256 * l1 + l0)) :: r)
    else none
  | _, _ => none

/-- Split a byte sequence into attributes; every attribute takes at least 4
bytes, so the length of the input bounds their number. -/
def parse_tlvs (bs : List Nat) : Option (List (Nat × List Nat)) :=
  parse_attrs bs.length bs

/-- Re-parse a message: the `0x03` length-prefixed NDEF block, the MIME
record header with the type `application/vnd.wfa.wsc`, the credential TLV
`0x100E`, and the attributes nested in it. Every length field is checked
against the bytes that follow it. -/
def parse_wsc_ndef (msg : List Nat) : Option (List (Nat × List Nat)) :=
  match msg with
  | t :: n :: rest =>
    if t = 0x03 ∧ n ≤ rest.length then
      match rest.take n with
      | h :: tl :: pl :: r =>
        if h = 0xD2 ∧ tl + pl = r.length ∧ r.take tl = ndef_app then
          match r.drop tl with
          | c1 :: c0 :: l1 :: l0 :: body =>
            if 256 * c1 + c0 = 0x100E ∧ 256 * l1 + l0 = body.length then parse_tlvs body
            else none
          | _ => none
        else none
      | _ => none
    else none
  | _ => none

/-! ## i2c_nfc_device.hpp -/

/-- The exception type `struct i2c_error`. -/
structure i2c_error where
  msg : String
  eno : Int
  ret : Int
  deriving DecidableEq

/-- One message of a transfer (`struct i2c_msg`): `buf` holds the bytes of the
buffer the message points to, `len` bytes long. -/
structure i2c_msg where
  addr : Nat
  flags : Nat
  len : Nat
  buf : List Nat
  deriving DecidableEq

/-- The argument of the `I2C_RDWR` ioctl (`struct i2c_rdwr_ioctl_data`). -/
structure i2c_rdwr_ioctl_data where
  msgs : List i2c_msg
  nmsgs : Nat
  deriving DecidableEq

/-- The flag `I2C_M_RD` of `linux/i2c.h`. -/
def I2C_M_RD : Nat := 0x0001

/-- What one `ioctl(_fd, I2C_RDWR, &rdwr)` call does: the next state of the
bus, the returned value, the value of `errno`, and the bytes delivered into
the buffer of a read message. -/
structure ioctl_result (σ : Type) where
  state : σ
  ret : Int
  errno : Int
  rdata : List Nat

/-- The behaviour of the bus behind the file descriptor. -/
abbrev ioctl_fn (σ : Type) : Type := σ → i2c_rdwr_ioctl_data → ioctl_result σ

/-- The object `i2c_nfc_device`: the member `_address`, the state of the bus
behind `_fd`, and the transfers submitted so far, oldest first. -/
structure i2c_nfc_device (σ : Type) where
  address : Nat
  bus : σ
  log : List i2c_rdwr_ioctl_data

/-- The constant `i2c_nfc_device::max_ndef_buf_size`. -/
def max_ndef_buf_size : Nat := 160

/-- The constant `i2c_nfc_device::base_ndef_addr`. -/
def base_ndef_addr : Nat := 0x10

/-- The call `memset(buf, c, n)` on a buffer of at least `n` bytes. -/
def memset (buf : List Nat) (c n : Nat) : List Nat :=
  List.replicate (min n buf.length) (c % 256) ++ buf.drop n

/-- The buffer of a read message after the transfer: the delivered bytes
replace the leading bytes of the `len`-byte area. -/
def store_read (buf : List Nat) (len : Nat) (rdata : List Nat) : List Nat :=
  ((rdata.take (min len buf.length)).map (· % 256)) ++
    buf.drop (min (min len buf.length) rdata.length)

/-- Submit one transfer: call the ioctl and append the transfer to the log. -/
def submit {σ : Type} (ioctl : ioctl_fn σ) (dev : i2c_nfc_device σ)
    (rdwr : i2c_rdwr_ioctl_data) : ioctl_result σ × i2c_nfc_device σ :=
  let res := ioctl dev.bus rdwr
  (res, { dev with bus := res.state, log := dev.log ++ [rdwr] })

/-- The method `i2c_nfc_device::read_ndef`: the outcome, the device after the
call and the output buffer after the call. -/
def read_ndef {σ : Type} (ioctl : ioctl_fn σ) (dev : i2c_nfc_device σ)
    (out_buf : Option (List Nat)) (size_4B_aligned : Nat) :
    Except i2c_error Unit × i2c_nfc_device σ × Option (List Nat) :=
  if size_4B_aligned = 0 then
    (.ok (), dev, out_buf)
  else
    match out_buf with
    | none => (.error ⟨"invalid ndef buffer", 0, 0⟩, dev, none)
    | some out =>
      if size_4B_aligned % 4 ≠ 0 then
        (.error ⟨"invalid read alignment", 0, 0⟩, dev, some out)
      else
        let size_4B_aligned :=
          if size_4B_aligned > max_ndef_buf_size then max_ndef_buf_size else size_4B_aligned
        let read_nmsgs : Nat := 2
        let ndef_addr_buf : List Nat :=
          [(base_ndef_addr >>> 8) &&& 0xFF, base_ndef_addr &&& 0xFF]
        let out := memset out 0 size_4B_aligned
        let msgs : List i2c_msg :=
          [ { addr := dev.address, flags := 0, len := 2, buf := ndef_addr_buf },
            { addr := dev.address, flags := I2C_M_RD, len := size_4B_aligned,
              buf := out.take size_4B_aligned } ]
        let rdwr : i2c_rdwr_ioctl_data := { msgs := msgs, nmsgs := read_nmsgs }
        let r := submit ioctl dev rdwr
        let out := store_read out size_4B_aligned r.1.rdata
        if r.1.ret ≠ (read_nmsgs : Int) then
          (.error ⟨"failed to read from i2c device", r.1.errno, r.1.ret⟩, r.2, some out)
        else
          (.ok (), r.2, some out)

/-- One iteration of the frame loop of `write_ndef_at`: the 6 bytes written
at `ndef_wbuf + 6*i`, the two address bytes and the 4 data bytes. -/
def write_frame (buf : List Nat) (size ndef_off i : Nat) : List Nat :=
  let curr_buf_off := 4 * i
  let ndef_addr := base_ndef_addr + ndef_off + curr_buf_off
  let len := min (size - curr_buf_off) 4
  [(ndef_addr >>> 8) &&& 0xFF, ndef_addr &&& 0xFF] ++
    (List.range 4).map (fun j => if j < len then buf.getD (curr_buf_off + j) 0 else 0)

/-- The transfer `write_ndef_at` builds: `write_nmsgs` messages of 6 bytes. -/
def write_rdwr (address : Nat) (buf : List Nat) (size ndef_off : Nat) :
    i2c_rdwr_ioctl_data :=
  let write_nmsgs := ((size - 1) / 4) + 1
  { msgs := (List.range write_nmsgs).map (fun i =>
      { addr := address, flags := 0, len := 6, buf := write_frame buf size ndef_off i }),
    nmsgs := write_nmsgs }

/-- The method `i2c_nfc_device::write_ndef_at`: the outcome and the device
after the call. -/
def write_ndef_at {σ : Type} (ioctl : ioctl_fn σ) (dev : i2c_nfc_device σ)
    (buf : Option (List Nat)) (size ndef_off : Nat) :
    Except i2c_error Unit × i2c_nfc_device σ :=
  if size = 0 then
    (.ok (), dev)
  else
    match buf with
    | none => (.error ⟨"invalid ndef buffer", 0, 0⟩, dev)
    | some buf =>
      if size > max_ndef_buf_size then
        (.error ⟨"invalid ndef buffer size", 0, 0⟩, dev)
      else
        let rdwr := write_rdwr dev.address buf size ndef_off
        let r := submit ioctl dev rdwr
        if r.1.ret ≠ (rdwr.nmsgs : Int) then
          (.error ⟨"failed to write to i2c device", r.1.errno, r.1.ret⟩, r.2)
        else
          (.ok (), r.2)

/-- The data byte at payload offset `k` of a `size`-byte write: the payload
byte, or the zero padding past the end. -/
def data_byte (buf : List Nat) (size k : Nat) : Nat :=
  if k < size then buf.getD k 0 else 0

/-- The data bytes (bytes 2..5) of the frames of a transfer, concatenated in
order. -/
def frames_data (rdwr : i2c_rdwr_ioctl_data) : List Nat :=
  (rdwr.msgs.map (fun m => m.buf.drop 2)).flatten

/-! ## xinfc-wsc.cpp: `apply_config` -/

/-- What `apply_config` can throw: an `i2c_error` of the device, or the
string literal of its last statement (`throw "..."`, a `const char*`). -/
inductive thrown where
  | i2c (e : i2c_error)
  | text (m : String)
  deriving DecidableEq

/-- The outcomes of the operating-system calls `apply_config` makes once per
run, apart from the `I2C_RDWR` transfers: the `open` of the bus, the three
configuration ioctls, and the `open` and `write` of the backup file, each
with the value of `errno` it leaves. -/
structure os_env where
  bus_fd : Int
  bus_errno : Int
  timeout_ret : Int
  timeout_errno : Int
  retries_ret : Int
  retries_errno : Int
  address_ret : Int
  address_errno : Int
  backup_fd : Int
  backup_errno : Int
  backup_written : Int
  backup_write_errno : Int

/-- The constant `EEXIST` of `errno.h`. -/
def EEXIST : Int := 17

/-- The end of a run of `apply_config`: the returned code or the exception,
and the device as the run left it (its log holds every transfer submitted). -/
structure run_result (σ : Type) where
  outcome : Except thrown Int
  dev : i2c_nfc_device σ

/-- The constructor `i2c_nfc_device(bus, address)`. -/
def open_device {σ : Type} (os : os_env) (bus : σ) (address : Nat) :
    Except i2c_error (i2c_nfc_device σ) :=
  if os.bus_fd < 0 then
    .error ⟨"failed to open i2c bus", os.bus_errno, os.bus_fd⟩
  else
    .ok { address := address, bus := bus, log := [] }

/-- The method `i2c_nfc_device::set_timeout`. -/
def set_timeout (os : os_env) : Except i2c_error Unit :=
  if os.timeout_ret < 0 then
    .error ⟨"failed to set i2c timeout", os.timeout_errno, os.bus_fd⟩
  else .ok ()

/-- The method `i2c_nfc_device::set_retries`. -/
def set_retries (os : os_env) : Except i2c_error Unit :=
  if os.retries_ret < 0 then
    .error ⟨"failed to set i2c retries", os.retries_errno, os.retries_ret⟩
  else .ok ()

/-- The method `i2c_nfc_device::set_device_address`. -/
def set_device_address (os : os_env) : Except i2c_error Unit :=
  if os.address_ret < 0 then
    .error ⟨"failed to set i2c device address", os.address_errno, os.address_ret⟩
  else .ok ()

/-- A call `device.read_ndef(buf, size)` on a buffer that is not null: the
outcome, the device and the buffer after the call. -/
def read_into {σ : Type} (ioctl : ioctl_fn σ) (dev : i2c_nfc_device σ)
    (buf : List Nat) (size : Nat) : Except i2c_error Unit × i2c_nfc_device σ × List Nat :=
  let r := read_ndef ioctl dev (some buf) size
  (r.1, r.2.1, r.2.2.getD buf)

/-- The inner loop of the Writing phase,
`for (w_retries = 0; w_retries <= max_w_retries; w_retries++)` around
`device.write_ndef_at(ndef_wbuf + i, s, i)`: a successful call leaves the loop,
a failed one rethrows when `w_retries == max_w_retries` and otherwise sleeps
and goes on. The first argument bounds the number of iterations. -/
def write_retries {σ : Type} (ioctl : ioctl_fn σ) (chunk : List Nat) (s i : Nat)
    (max_w_retries : Nat) :
    Nat → Nat → i2c_nfc_device σ → Except i2c_error Unit × i2c_nfc_device σ
  | 0, _, dev => (.ok (), dev)
  | fuel + 1, w_retries, dev =>
    if w_retries ≤ max_w_retries then
      match write_ndef_at ioctl dev (some chunk) s (i % 65536) with
      | (.ok _, dev) => (.ok (), dev)
      | (.error e, dev) =>
        if w_retries = max_w_retries then (.error e, dev)
        else write_retries ioctl chunk s i max_w_retries fuel (w_retries + 1) dev
    else (.ok (), dev)

/-- The chunk loop of the Writing phase,
`for (unsigned int i = 0; i < size; i += max_bytes)`, from offset `i` on. The
first argument bounds the number of iterations. -/
def write_chunks {σ : Type} (ioctl : ioctl_fn σ) (ndef_wbuf : List Nat) (size : Nat) :
    Nat → Nat → i2c_nfc_device σ → Except i2c_error Unit × i2c_nfc_device σ
  | 0, _, dev => (.ok (), dev)
  | fuel + 1, i, dev =>
    if i < size then
      let s := min 4 (size - i)
      match write_retries ioctl (ndef_wbuf.drop i) s i 5 6 0 dev with
      | (.error e, dev) => (.error e, dev)
      | (.ok _, dev) => write_chunks ioctl ndef_wbuf size fuel (i + 4) dev
    else (.ok (), dev)

/-- The loop `for (w_retries = 0; w_retries <= max_w_retries; w_retries++)`
around `device.read_ndef(ndef_rbuf, aligned_size)` of the Verifying phase. -/
def read_retries {σ : Type} (ioctl : ioctl_fn σ) (aligned_size : Nat)
    (max_w_retries : Nat) :
    Nat → Nat → i2c_nfc_device σ → List Nat →
      Except i2c_error Unit × i2c_nfc_device σ × List Nat
  | 0, _, dev, ndef_rbuf => (.ok (), dev, ndef_rbuf)
  | fuel + 1, w_retries, dev, ndef_rbuf =>
    if w_retries ≤ max_w_retries then
      match read_into ioctl dev ndef_rbuf aligned_size with
      | (.ok _, dev, ndef_rbuf) => (.ok (), dev, ndef_rbuf)
      | (.error e, dev, ndef_rbuf) =>
        if w_retries = max_w_retries then (.error e, dev, ndef_rbuf)
        else read_retries ioctl aligned_size max_w_retries fuel (w_retries + 1) dev ndef_rbuf
    else (.ok (), dev, ndef_rbuf)

/-- The initialiser
`const unsigned int aligned_size = (((size - 1) / 4) + 1) * 4;` with `size` a
`size_t` of 64 bits: the subtraction and the product wrap modulo `2^64`, the
conversion to `unsigned int` keeps the low 32 bits. (A `size_t` of 32 bits
gives the same values for every `size` below `2^32`.) The wrapping `size - 1`
is `(2^64 - 1 + size) % 2^64`; the definition is irreducible so that no proof
unfolds the powers of two by accident. -/
@[irreducible]
def aligned_read_size (size : Nat) : Nat :=
  ((((2 ^ 64 - 1 + size) % 2 ^ 64) / 4 + 1) * 4) % 2 ^ 64 % 2 ^ 32

/-- One iteration of the loop `for (retries = 0; retries < max_retries; ...)`:
the Writing phase, the `memset`, the read-back with its retries and the
`std::equal` comparison of the first `size` bytes. The result is `true` when
the comparison succeeds (the `break`), `false` on a mismatch. -/
def write_verify_cycle {σ : Type} (ioctl : ioctl_fn σ) (ndef_wbuf : List Nat) (size : Nat)
    (dev : i2c_nfc_device σ) (ndef_rbuf : List Nat) :
    Except i2c_error Bool × i2c_nfc_device σ × List Nat :=
  match write_chunks ioctl ndef_wbuf size size 0 dev with
  | (.error e, dev) => (.error e, dev, ndef_rbuf)
  | (.ok _, dev) =>
    let ndef_rbuf := memset ndef_rbuf 0 size
    let aligned_size := aligned_read_size size
    match read_retries ioctl aligned_size 20 21 0 dev ndef_rbuf with
    | (.error e, dev, ndef_rbuf) => (.error e, dev, ndef_rbuf)
    | (.ok _, dev, ndef_rbuf) =>
      (.ok (decide (ndef_wbuf.take size = ndef_rbuf.take size)), dev, ndef_rbuf)

/-- The loop `for (retries = 0; retries < max_retries; retries++)`: the value
of `retries` when the loop is left, or the `i2c_error` that left it. -/
def retry_loop {σ : Type} (ioctl : ioctl_fn σ) (ndef_wbuf : List Nat) (size : Nat)
    (max_retries : Nat) :
    Nat → Nat → i2c_nfc_device σ → List Nat →
      Except i2c_error Nat × i2c_nfc_device σ × List Nat
  | 0, retries, dev, ndef_rbuf => (.ok retries, dev, ndef_rbuf)
  | fuel + 1, retries, dev, ndef_rbuf =>
    if retries < max_retries then
      match write_verify_cycle ioctl ndef_wbuf size dev ndef_rbuf with
      | (.error e, dev, ndef_rbuf) => (.error e, dev, ndef_rbuf)
      | (.ok true, dev, ndef_rbuf) => (.ok retries, dev, ndef_rbuf)
      | (.ok false, dev, ndef_rbuf) =>
        retry_loop ioctl ndef_wbuf size max_retries fuel (retries + 1) dev ndef_rbuf
    else (.ok retries, dev, ndef_rbuf)

/-- The last part of `apply_config`, from `const int max_retries = 5;` to
`return 0;`: the retry loop, then the `throw "failed to write new NDEF data"`
when `retries == max_retries`. -/
def apply_config_loop {σ : Type} (ioctl : ioctl_fn σ) (ndef_wbuf : List Nat) (size : Nat)
    (dev : i2c_nfc_device σ) (ndef_rbuf : List Nat) : run_result σ :=
  match retry_loop ioctl ndef_wbuf size 5 5 0 dev ndef_rbuf with
  | (.error e, dev, _) => ⟨.error (.i2c e), dev⟩
  | (.ok retries, dev, _) =>
    if retries = 5 then ⟨.error (.text "failed to write new NDEF data"), dev⟩
    else ⟨.ok 0, dev⟩

/-- The part of `apply_config` after the backup: the call of `make_wsc_ndef`
into `ndef_wbuf` and the write-verify loop on the length it returns. -/
def build_and_write {σ : Type} (ioctl : ioctl_fn σ) (ssid pass : List Nat)
    (crypt : wifi_crypt) (auth : wifi_auth) (device : i2c_nfc_device σ)
    (ndef_rbuf ndef_wbuf : List Nat) : run_result σ :=
  let r := make_wsc_ndef ssid pass crypt auth ndef_wbuf max_ndef_buf_size
  let size := r.1
  let ndef_wbuf := r.2
  apply_config_loop ioctl ndef_wbuf size device ndef_rbuf

/-- The function `apply_config`. The arguments `ndef_rbuf` and `ndef_wbuf` are
the contents of the two 160-byte stack arrays before anything is stored in
them; `bus` is the state of the bus behind the device file. -/
def apply_config {σ : Type} (os : os_env) (ioctl : ioctl_fn σ) (bus : σ) (i2caddr : Int)
    (ssid pass : List Nat) (crypt : wifi_crypt) (auth : wifi_auth)
    (ndef_rbuf ndef_wbuf : List Nat) : run_result σ :=
  let unopened : i2c_nfc_device σ :=
    { address := (i2caddr % 65536).toNat, bus := bus, log := [] }
  match open_device os bus (i2caddr % 65536).toNat with
  | .error e => ⟨.error (.i2c e), unopened⟩
  | .ok device =>
    match set_timeout os with
    | .error e => ⟨.error (.i2c e), device⟩
    | .ok _ =>
      match set_retries os with
      | .error e => ⟨.error (.i2c e), device⟩
      | .ok _ =>
        match set_device_address os with
        | .error e => ⟨.error (.i2c e), device⟩
        | .ok _ =>
          match read_into ioctl device ndef_rbuf max_ndef_buf_size with
          | (.error e, device, _) => ⟨.error (.i2c e), device⟩
          | (.ok _, device, ndef_rbuf) =>
            if os.backup_fd < 0 then
              if os.backup_errno ≠ EEXIST then
                ⟨.ok 11, device⟩
              else
                build_and_write ioctl ssid pass crypt auth device ndef_rbuf ndef_wbuf
            else
              if os.backup_written ≠ 160 then
                ⟨.ok 12, device⟩
              else
                build_and_write ioctl ssid pass crypt auth device ndef_rbuf ndef_wbuf

/-! ## wifi.hpp: the mode names of `struct wifi_str` -/

/-- The mode name `none`. -/
def wifi_str.none : List Nat := str_bytes "none"

/-- The mode name `sae`. -/
def wifi_str.sae : List Nat := str_bytes "sae"

/-- The mode name `sae-mixed`. -/
def wifi_str.sae_mixed : List Nat := str_bytes "sae-mixed"

/-- The mode name `psk2+tkip+ccmp`. -/
def wifi_str.psk2_tkip_ccmp : List Nat := str_bytes "psk2+tkip+ccmp"

/-- The mode name `psk2+tkip+aes`. -/
def wifi_str.psk2_tkip_aes : List Nat := str_bytes "psk2+tkip+aes"

/-- The mode name `psk2+tkip`. -/
def wifi_str.psk2_tkip : List Nat := str_bytes "psk2+tkip"

/-- The mode name `psk2+ccmp`. -/
def wifi_str.psk2_ccmp : List Nat := str_bytes "psk2+ccmp"

/-- The mode name `psk2+aes`. -/
def wifi_str.psk2_aes : List Nat := str_bytes "psk2+aes"

/-- The mode name `psk2`. -/
def wifi_str.psk2 : List Nat := str_bytes "psk2"

/-- The mode name `psk+tkip+ccmp`. -/
def wifi_str.psk_tkip_ccmp : List Nat := str_bytes "psk+tkip+ccmp"

/-- The mode name `psk+tkip+aes`. -/
def wifi_str.psk_tkip_aes : List Nat := str_bytes "psk+tkip+aes"

/-- The mode name `psk+tkip`. -/
def wifi_str.psk_tkip : List Nat := str_bytes "psk+tkip"

/-- The mode name `psk+ccmp`. -/
def wifi_str.psk_ccmp : List Nat := str_bytes "psk+ccmp"

/-- The mode name `psk+aes`. -/
def wifi_str.psk_aes : List Nat := str_bytes "psk+aes"

/-- The mode name `psk`. -/
def wifi_str.psk : List Nat := str_bytes "psk"

/-- The mode name `psk-mixed+tkip+ccmp`. -/
def wifi_str.psk_mixed_tkip_ccmp : List Nat := str_bytes "psk-mixed+tkip+ccmp"

/-- The mode name `psk-mixed+tkip+aes`. -/
def wifi_str.psk_mixed_tkip_aes : List Nat := str_bytes "psk-mixed+tkip+aes"

/-- The mode name `psk-mixed+tkip`. -/
def wifi_str.psk_mixed_tkip : List Nat := str_bytes "psk-mixed+tkip"

/-- The mode name `psk-mixed+ccmp`. -/
def wifi_str.psk_mixed_ccmp : List Nat := str_bytes "psk-mixed+ccmp"

/-- The mode name `psk-mixed+aes`. -/
def wifi_str.psk_mixed_aes : List Nat := str_bytes "psk-mixed+aes"

/-- The mode name `psk-mixed`. -/
def wifi_str.psk_mixed : List Nat := str_bytes "psk-mixed"

/-- The mode name `wep`. -/
def wifi_str.wep : List Nat := str_bytes "wep"

/-- The mode name `wep+open`. -/
def wifi_str.wep_open : List Nat := str_bytes "wep+open"

/-- The mode name `wep+shared`. -/
def wifi_str.wep_shared : List Nat := str_bytes "wep+shared"

/-- The mode name `wpa3`. -/
def wifi_str.wpa3 : List Nat := str_bytes "wpa3"

/-- The mode name `wpa3-mixed`. -/
def wifi_str.wpa3_mixed : List Nat := str_bytes "wpa3-mixed"

/-- The mode name `wpa2+tkip+ccmp`. -/
def wifi_str.wpa2_tkip_ccmp : List Nat := str_bytes "wpa2+tkip+ccmp"

/-- The mode name `wpa2+tkip+aes`. -/
def wifi_str.wpa2_tkip_aes : List Nat := str_bytes "wpa2+tkip+aes"

/-- The mode name `wpa2+ccmp`. -/
def wifi_str.wpa2_ccmp : List Nat := str_bytes "wpa2+ccmp"

/-- The mode name `wpa2+aes`. -/
def wifi_str.wpa2_aes : List Nat := str_bytes "wpa2+aes"

/-- The mode name `wpa2`. -/
def wifi_str.wpa2 : List Nat := str_bytes "wpa2"

/-- The mode name `wpa2+tkip`. -/
def wifi_str.wpa2_tkip : List Nat := str_bytes "wpa2+tkip"

/-- The mode name `wpa+tkip+ccmp`. -/
def wifi_str.wpa_tkip_ccmp : List Nat := str_bytes "wpa+tkip+ccmp"

/-- The mode name `wpa+tkip+aes`. -/
def wifi_str.wpa_tkip_aes : List Nat := str_bytes "wpa+tkip+aes"

/-- The mode name `wpa+ccmp`. -/
def wifi_str.wpa_ccmp : List Nat := str_bytes "wpa+ccmp"

/-- The mode name `wpa+aes`. -/
def wifi_str.wpa_aes : List Nat := str_bytes "wpa+aes"

/-- The mode name `wpa+tkip`. -/
def wifi_str.wpa_tkip : List Nat := str_bytes "wpa+tkip"

/-- The mode name `wpa`. -/
def wifi_str.wpa : List Nat := str_bytes "wpa"

/-- The mode name `wpa-mixed+tkip+ccmp`. -/
def wifi_str.wpa_mixed_tkip_ccmp : List Nat := str_bytes "wpa-mixed+tkip+ccmp"

/-- The mode name `wpa-mixed+tkip+aes`. -/
def wifi_str.wpa_mixed_tkip_aes : List Nat := str_bytes "wpa-mixed+tkip+aes"

/-- The mode name `wpa-mixed+tkip`. -/
def wifi_str.wpa_mixed_tkip : List Nat := str_bytes "wpa-mixed+tkip"

/-- The mode name `wpa-mixed+ccmp`. -/
def wifi_str.wpa_mixed_ccmp : List Nat := str_bytes "wpa-mixed+ccmp"

/-- The mode name `wpa-mixed+aes`. -/
def wifi_str.wpa_mixed_aes : List Nat := str_bytes "wpa-mixed+aes"

/-- The mode name `wpa-mixed`. -/
def wifi_str.wpa_mixed : List Nat := str_bytes "wpa-mixed"

/-- The mode name `owe`. -/
def wifi_str.owe : List Nat := str_bytes "owe"

/-! ## xinfc-wsc.cpp: `select_encryption_mode` -/

/-- The function `select_encryption_mode`: the returned `bool` and the values of
`out_crypt` and `out_auth` after the call (the arguments are their values
before the call, which a `return false` leaves as they were). -/
def select_encryption_mode (mode : List Nat) (out_crypt : wifi_crypt)
    (out_auth : wifi_auth) : Bool × wifi_crypt × wifi_auth :=
  if mode = wifi_str.none then (true, .wifi_crypt_none, .wifi_auth_open)
  else if mode = wifi_str.sae then (false, out_crypt, out_auth)
  else if mode = wifi_str.sae_mixed then (true, .wifi_crypt_aes, .wifi_auth_wpa2_personal)
  else if mode = wifi_str.psk2_tkip_ccmp then (true, .wifi_crypt_tkip_aes, .wifi_auth_wpa2_personal)
  else if mode = wifi_str.psk2_tkip_aes then (true, .wifi_crypt_tkip_aes, .wifi_auth_wpa2_personal)
  else if mode = wifi_str.psk2_tkip then (true, .wifi_crypt_tkip, .wifi_auth_wpa2_personal)
  else if mode = wifi_str.psk2_ccmp then (true, .wifi_crypt_aes, .wifi_auth_wpa2_personal)
  else if mode = wifi_str.psk2_aes then (true, .wifi_crypt_aes, .wifi_auth_wpa2_personal)
  else if mode = wifi_str.psk2 then (true, .wifi_crypt_aes, .wifi_auth_wpa2_personal)
  else if mode = wifi_str.psk_tkip_ccmp then (true, .wifi_crypt_tkip_aes, .wifi_auth_wpa_personal)
  else if mode = wifi_str.psk_tkip_aes then (true, .wifi_crypt_tkip_aes, .wifi_auth_wpa_personal)
  else if mode = wifi_str.psk_tkip then (true, .wifi_crypt_tkip, .wifi_auth_wpa_personal)
  else if mode = wifi_str.psk_ccmp then (true, .wifi_crypt_aes, .wifi_auth_wpa_personal)
  else if mode = wifi_str.psk_aes then (true, .wifi_crypt_aes, .wifi_auth_wpa_personal)
  else if mode = wifi_str.psk then (true, .wifi_crypt_aes, .wifi_auth_wpa_personal)
  else if mode = wifi_str.psk_mixed_tkip_ccmp then (true, .wifi_crypt_tkip_aes, .wifi_auth_wpa_wpa2_personal)
  else if mode = wifi_str.psk_mixed_tkip_aes then (true, .wifi_crypt_tkip_aes, .wifi_auth_wpa_wpa2_personal)
  else if mode = wifi_str.psk_mixed_tkip then (true, .wifi_crypt_tkip, .wifi_auth_wpa_wpa2_personal)
  else if mode = wifi_str.psk_mixed_ccmp then (true, .wifi_crypt_aes, .wifi_auth_wpa_wpa2_personal)
  else if mode = wifi_str.psk_mixed_aes then (true, .wifi_crypt_aes, .wifi_auth_wpa_wpa2_personal)
  else if mode = wifi_str.psk_mixed then (true, .wifi_crypt_aes, .wifi_auth_wpa_wpa2_personal)
  else if mode = wifi_str.wep then (true, .wifi_crypt_wep, .wifi_auth_open)
  else if mode = wifi_str.wep_open then (true, .wifi_crypt_wep, .wifi_auth_open)
  else if mode = wifi_str.wep_shared then (true, .wifi_crypt_wep, .wifi_auth_shared)
  else if mode = wifi_str.wpa3 then (false, out_crypt, out_auth)
  else if mode = wifi_str.wpa3_mixed then (true, .wifi_crypt_aes, .wifi_auth_wpa2_enterprise)
  else if mode = wifi_str.wpa2_tkip_ccmp then (true, .wifi_crypt_tkip_aes, .wifi_auth_wpa2_enterprise)
  else if mode = wifi_str.wpa2_tkip_aes then (true, .wifi_crypt_tkip_aes, .wifi_auth_wpa2_enterprise)
  else if mode = wifi_str.wpa2_ccmp then (true, .wifi_crypt_aes, .wifi_auth_wpa2_enterprise)
  else if mode = wifi_str.wpa2_aes then (true, .wifi_crypt_aes, .wifi_auth_wpa2_enterprise)
  else if mode = wifi_str.wpa2 then (true, .wifi_crypt_aes, .wifi_auth_wpa2_enterprise)
  else if mode = wifi_str.wpa2_tkip then (true, .wifi_crypt_tkip, .wifi_auth_wpa2_enterprise)
  else if mode = wifi_str.wpa_tkip_ccmp then (true, .wifi_crypt_tkip_aes, .wifi_auth_wpa_enterprise)
  else if mode = wifi_str.wpa_tkip_aes then (true, .wifi_crypt_tkip_aes, .wifi_auth_wpa_enterprise)
  else if mode = wifi_str.wpa_ccmp then (true, .wifi_crypt_aes, .wifi_auth_wpa_enterprise)
  else if mode = wifi_str.wpa_aes then (true, .wifi_crypt_aes, .wifi_auth_wpa_enterprise)
  else if mode = wifi_str.wpa_tkip then (true, .wifi_crypt_tkip, .wifi_auth_wpa_enterprise)
  else if mode = wifi_str.wpa then (true, .wifi_crypt_aes, .wifi_auth_wpa_enterprise)
  else if mode = wifi_str.wpa_mixed_tkip_ccmp then (true, .wifi_crypt_tkip_aes, .wifi_auth_wpa2_enterprise)
  else if mode = wifi_str.wpa_mixed_tkip_aes then (true, .wifi_crypt_tkip_aes, .wifi_auth_wpa2_enterprise)
  else if mode = wifi_str.wpa_mixed_tkip then (true, .wifi_crypt_tkip, .wifi_auth_wpa2_enterprise)
  else if mode = wifi_str.wpa_mixed_ccmp then (true, .wifi_crypt_aes, .wifi_auth_wpa2_enterprise)
  else if mode = wifi_str.wpa_mixed_aes then (true, .wifi_crypt_aes, .wifi_auth_wpa2_enterprise)
  else if mode = wifi_str.wpa_mixed then (true, .wifi_crypt_aes, .wifi_auth_wpa2_enterprise)
  else if mode = wifi_str.owe then (false, out_crypt, out_auth)
  else (false, out_crypt, out_auth)

/-! ## xinfc-wsc.cpp: `parse_i2c_address` -/

/-- The loop `for (int i = 0; i < 2; i++)` of `parse_i2c_address`, from the
counter `i` and the accumulated `addr` on: `c` is the character `saddr[2 + i]`
(the three ranges hold for the same bytes whether `char` is signed or not);
the `else` branch returns -2, the statement `addr = (addr << 4) + c` goes on.
The first argument bounds the number of iterations. -/
def parse_i2c_address_digits (saddr : List Nat) : Nat → Nat → Nat → Int
  | 0, _, addr => (addr : Int)
  | fuel + 1, i, addr =>
    if i < 2 then
      let c := saddr.getD (2 + i) 0
      if c ≥ '0'.toNat ∧ c ≤ '9'.toNat then
        parse_i2c_address_digits saddr fuel (i + 1) ((addr <<< 4) + (c - '0'.toNat))
      else if c ≥ 'a'.toNat ∧ c ≤ 'f'.toNat then
        parse_i2c_address_digits saddr fuel (i + 1) ((addr <<< 4) + (c - 'a'.toNat + 10))
      else if c ≥ 'A'.toNat ∧ c ≤ 'F'.toNat then
        parse_i2c_address_digits saddr fuel (i + 1) ((addr <<< 4) + (c - 'A'.toNat + 10))
      else
        -2
    else (addr : Int)

/-- The function `parse_i2c_address`. -/
def parse_i2c_address (saddr : List Nat) : Int :=
  if saddr.length ≠ 4 ∨ saddr.getD 0 0 ≠ '0'.toNat ∨
      (saddr.getD 1 0 ≠ 'x'.toNat ∧ saddr.getD 1 0 ≠ 'X'.toNat) then
    -1
  else
    parse_i2c_address_digits saddr 2 0 0

/-! ## xinfc-wsc.cpp: `print_usage` -/

/-- The mode names `print_usage` prints, one per line and in this order, after
the line "mode must be one of the following:". -/
def print_usage_modes : List (List Nat) :=
  [wifi_str.none, wifi_str.sae_mixed, wifi_str.psk2_tkip_ccmp, wifi_str.psk2_tkip_aes,
   wifi_str.psk2_tkip, wifi_str.psk2_ccmp, wifi_str.psk2_aes, wifi_str.psk2,
   wifi_str.psk_tkip_ccmp, wifi_str.psk_tkip_aes, wifi_str.psk_tkip, wifi_str.psk_ccmp,
   wifi_str.psk_aes, wifi_str.psk, wifi_str.psk_mixed_tkip_ccmp, wifi_str.psk_mixed_tkip_aes,
   wifi_str.psk_mixed_tkip, wifi_str.psk_mixed_ccmp, wifi_str.psk_mixed_aes,
   wifi_str.psk_mixed, wifi_str.wep, wifi_str.wep_open, wifi_str.wep_shared,
   wifi_str.wpa3_mixed, wifi_str.wpa2_tkip_ccmp, wifi_str.wpa2_tkip_aes, wifi_str.wpa2_ccmp,
   wifi_str.wpa2_aes, wifi_str.wpa2, wifi_str.wpa2_tkip, wifi_str.wpa_tkip_ccmp,
   wifi_str.wpa_tkip_aes, wifi_str.wpa_ccmp, wifi_str.wpa_aes, wifi_str.wpa_tkip, wifi_str.wpa,
   wifi_str.wpa_mixed_tkip_ccmp, wifi_str.wpa_mixed_tkip_aes, wifi_str.wpa_mixed_tkip,
   wifi_str.wpa_mixed_ccmp, wifi_str.wpa_mixed_aes, wifi_str.wpa_mixed]

/-! ## xinfc-wsc.cpp: `main` -/

/-- The end of a run of `main`: the exit status of the process, and the run of
`apply_config` when `main` called it (`none` when the process ended before the
call: the bus is opened nowhere else). -/
structure main_result (σ : Type) where
  code : Int
  run : Option (run_result σ)

/-- The function `main`. The list `argv` holds the `argc` strings of the
command line, the program name first; `crypt` and `auth` are the values of the
two uninitialised locals before `select_encryption_mode` is called; the other
arguments are those of `apply_config`. An `exit(c)` ends the run with code `c`;
after `apply_config` the run ends with the value it returned, or with 20 when
it threw. -/
def main {σ : Type} (os : os_env) (ioctl : ioctl_fn σ) (bus : σ) (argv : List (List Nat))
    (crypt : wifi_crypt) (auth : wifi_auth) (ndef_rbuf ndef_wbuf : List Nat) : main_result σ :=
  if argv.length ≠ 6 then
    ⟨1, none⟩
  else
    let i2cbus := argv.getD 1 []
    let i2caddr_s := argv.getD 2 []
    let ssid := argv.getD 3 []
    let pass := argv.getD 4 []
    let mode := argv.getD 5 []
    if i2cbus.length ≠ 1 then
      ⟨1, none⟩
    else
      let i2caddr := parse_i2c_address i2caddr_s
      if i2caddr ≤ 0 then
        ⟨2, none⟩
      else if ssid.length < wifi_lenghts.ssid_min ∨ ssid.length > wifi_lenghts.ssid_max then
        ⟨3, none⟩
      else if pass.length < wifi_lenghts.pass_min ∨ pass.length > wifi_lenghts.pass_max then
        ⟨4, none⟩
      else
        let sel := select_encryption_mode mode crypt auth
        if ¬ sel.1 then
          ⟨5, none⟩
        else
          let r := apply_config os ioctl bus i2caddr ssid pass sel.2.1 sel.2.2 ndef_rbuf ndef_wbuf
          match r.outcome with
          | .ok code => ⟨code, some r⟩
          | .error _ => ⟨20, some r⟩

/-! ## Vocabulary for statements about runs -/

/-- The transfer that writes the chunk at offset `i` of a `size`-byte message:
what `device.write_ndef_at(ndef_wbuf + i, s, i)` submits. -/
def chunk_rdwr (address : Nat) (ndef_wbuf : List Nat) (size i : Nat) : i2c_rdwr_ioctl_data :=
  write_rdwr address (ndef_wbuf.drop i) (min 4 (size - i)) (i % 65536)

/-- The transfer of a read of `len` bytes: the 2-byte write of the address
`0x0010` and the read frame, whose buffer `read_ndef` has zeroed. -/
def read_rdwr (address len : Nat) : i2c_rdwr_ioctl_data :=
  { msgs := [ { addr := address, flags := 0, len := 2, buf := [0x00, 0x10] },
              { addr := address, flags := I2C_M_RD, len := len,
                buf := List.replicate len 0 } ],
    nmsgs := 2 }

/-- The `len` bytes of the read area after a read that delivered `rdata`: the
delivered bytes, then the zeros of the `memset` where nothing was delivered. -/
def read_back (len : Nat) (rdata : List Nat) : List Nat :=
  (rdata.take len).map (· % 256) ++ List.replicate (len - rdata.length) 0

/-- The state of the bus after `j` submissions of the transfer `rdwr`. -/
def bus_after {σ : Type} (ioctl : ioctl_fn σ) (rdwr : i2c_rdwr_ioctl_data) : Nat → σ → σ
  | 0, b => b
  | j + 1, b => bus_after ioctl rdwr j (ioctl b rdwr).state

/-- The outcome of attempt number `j` (counting from 0) of a transfer that is
submitted again and again, starting from the bus state `b`. -/
def attempt {σ : Type} (ioctl : ioctl_fn σ) (rdwr : i2c_rdwr_ioctl_data) (j : Nat) (b : σ) :
    ioctl_result σ :=
  ioctl (bus_after ioctl rdwr j b) rdwr

/-- The device after `j` submissions of the transfer `rdwr`. -/
def dev_after {σ : Type} (ioctl : ioctl_fn σ) (rdwr : i2c_rdwr_ioctl_data) (j : Nat)
    (dev : i2c_nfc_device σ) : i2c_nfc_device σ :=
  { address := dev.address, bus := bus_after ioctl rdwr j dev.bus,
    log := dev.log ++ List.replicate j rdwr }

/-- A transfer that carries no read frame: a write to the tag. -/
def is_write_transfer (t : i2c_rdwr_ioctl_data) : Bool :=
  t.msgs.all (fun m => decide (m.flags ≠ I2C_M_RD))

/-- The write transfers of a log. -/
def write_transfers (log : List i2c_rdwr_ioctl_data) : List i2c_rdwr_ioctl_data :=
  log.filter is_write_transfer

/-- The device `apply_config` works on once the bus is open. -/
def opened_device {σ : Type} (bus : σ) (i2caddr : Int) : i2c_nfc_device σ :=
  { address := (i2caddr % 65536).toNat, bus := bus, log := [] }

/-- The setup of `apply_config` succeeds: the `open` of the bus and the three
configuration ioctls. -/
def setup_ok (os : os_env) : Prop :=
  0 ≤ os.bus_fd ∧ 0 ≤ os.timeout_ret ∧ 0 ≤ os.retries_ret ∧ 0 ≤ os.address_ret

/-- The backup file was written completely or already existed. -/
def backup_file_ok (os : os_env) : Prop :=
  (os.backup_fd < 0 ∧ os.backup_errno = EEXIST) ∨ (0 ≤ os.backup_fd ∧ os.backup_written = 160)

/-- The backup is secured: the setup succeeded, the read of the 160-byte NDEF
area succeeded, and the backup file was written completely or already
existed. -/
def backup_secured {σ : Type} (os : os_env) (ioctl : ioctl_fn σ) (bus : σ) (i2caddr : Int) :
    Prop :=
  setup_ok os ∧
    (ioctl bus (read_rdwr (i2caddr % 65536).toNat 160)).ret = 2 ∧ backup_file_ok os

/-- A run ends with a failure: an exception or a return code other than 0. -/
def run_failed {σ : Type} (r : run_result σ) : Prop := r.outcome ≠ .ok 0

instance (os : os_env) : Decidable (setup_ok os) := by unfold setup_ok; infer_instance

instance (os : os_env) : Decidable (backup_file_ok os) := by
  unfold backup_file_ok; infer_instance

instance {σ : Type} (os : os_env) (ioctl : ioctl_fn σ) (bus : σ) (i2caddr : Int) :
    Decidable (backup_secured os ioctl bus i2caddr) := by
  unfold backup_secured; infer_instance

/-- The device after the transfers `ts` have been submitted in order. -/
def run_transfers {σ : Type} (ioctl : ioctl_fn σ) (ts : List i2c_rdwr_ioctl_data)
    (dev : i2c_nfc_device σ) : i2c_nfc_device σ :=
  ts.foldl (fun d t => (submit ioctl d t).2) dev

/-- The write transfers of one Writing phase in which no attempt fails: the
chunks at offsets 0, 4, 8, ... of the message, ceil(size/4) of them. -/
def chunk_transfers (address : Nat) (ndef_wbuf : List Nat) (size : Nat) :
    List i2c_rdwr_ioctl_data :=
  (List.range ((size + 3) / 4)).map (fun c => chunk_rdwr address ndef_wbuf size (4 * c))

/-- The transfers of one write-verify cycle in which no attempt fails: the
chunk writes, then the read-back of align_up(size, 4) bytes. -/
def cycle_transfers (address : Nat) (ndef_wbuf : List Nat) (size : Nat) :
    List i2c_rdwr_ioctl_data :=
  chunk_transfers address ndef_wbuf size ++ [read_rdwr address (4 * ((size + 3) / 4))]

/-- The write transfers of a Writing phase in which the chunks number `c`,
`c + 1`, ... are attempted `js[0]`, `js[1]`, ... times: each attempt of a
chunk submits the same transfer. -/
def chunk_attempts (address : Nat) (ndef_wbuf : List Nat) (size : Nat) :
    Nat → List Nat → List i2c_rdwr_ioctl_data
  | _, [] => []
  | c, j :: js =>
    List.replicate j (chunk_rdwr address ndef_wbuf size (4 * c))
      ++ chunk_attempts address ndef_wbuf size (c + 1) js

/-- The transfers of one write-verify cycle in which the chunks 0, 1, ... are
attempted `p.1[0]`, `p.1[1]`, ... times and the read-back of align_up(size, 4)
bytes is attempted `p.2` times. -/
def cycle_attempts (address : Nat) (ndef_wbuf : List Nat) (size : Nat) (p : List Nat × Nat) :
    List i2c_rdwr_ioctl_data :=
  chunk_attempts address ndef_wbuf size 0 p.1
    ++ List.replicate p.2 (read_rdwr address (4 * ((size + 3) / 4)))

/-- The attempts of one cycle stay within the retry budgets: no more chunks
than the message has, at most 6 write attempts per chunk, at most 21 read
attempts. -/
def within_budget (size : Nat) (p : List Nat × Nat) : Prop :=
  p.1.length ≤ (size + 3) / 4 ∧ (∀ j ∈ p.1, j ≤ 6) ∧ p.2 ≤ 21

/-- The ideal tag, a byte memory: a write frame of 6 bytes stores its 4 data
bytes at the 16-bit address its first two bytes give; any other frame stores
nothing. -/
def tag_store (mem : Nat → Nat) (m : i2c_msg) : Nat → Nat :=
  if m.flags = 0 ∧ m.buf.length = 6 then
    fun a =>
      if be_val (m.buf.take 2) ≤ a ∧ a < be_val (m.buf.take 2) + 4 then
        m.buf.getD (2 + (a - be_val (m.buf.take 2))) 0
      else mem a
  else mem

/-- The ideal tag: the bytes a transfer reads. A read frame that follows a
2-byte address frame returns the memory from that address on. -/
def tag_fetch (mem : Nat → Nat) (msgs : List i2c_msg) : List Nat :=
  match msgs with
  | [w, r] =>
    if w.flags = 0 ∧ w.buf.length = 2 ∧ r.flags = I2C_M_RD then
      (List.range r.len).map (fun k => mem (be_val w.buf + k))
    else []
  | _ => []

/-- The ideal tag as a bus: the state is the memory; no transfer fails. -/
def tag_ioctl : ioctl_fn (Nat → Nat) :=
  fun mem rdwr =>
    { state := rdwr.msgs.foldl tag_store mem, ret := rdwr.nmsgs, errno := 0,
      rdata := tag_fetch mem rdwr.msgs }

/-- The bytes of a memory at the addresses `a`, `a + 1`, ..., `a + len - 1`. -/
def mem_bytes (mem : Nat → Nat) (a len : Nat) : List Nat :=
  (List.range len).map (fun k => mem (a + k))

/-- The hexadecimal digits in lower case, in the order of their values. -/
def hex_digits_lower : List Nat := str_bytes "0123456789abcdef"

/-- The hexadecimal digits in upper case, in the order of their values. -/
def hex_digits_upper : List Nat := str_bytes "0123456789ABCDEF"

/-- The character `c` is a hexadecimal digit, in either case. -/
def is_hex_digit (c : Nat) : Prop := c ∈ hex_digits_lower ∨ c ∈ hex_digits_upper

/-- The value of the hexadecimal digit `c`: its position among the digits. -/
def hex_value (c : Nat) : Nat :=
  if c ∈ hex_digits_lower then hex_digits_lower.indexOf c else hex_digits_upper.indexOf c

instance (c : Nat) : Decidable (is_hex_digit c) := by unfold is_hex_digit; infer_instance

/-- The string is a literal `0xHH`: 4 characters, `0`, then `x` or `X`, then
two hexadecimal digits. -/
def is_address_literal (saddr : List Nat) : Prop :=
  ∃ x h l, saddr = ['0'.toNat, x, h, l] ∧ (x = 'x'.toNat ∨ x = 'X'.toNat) ∧
    is_hex_digit h ∧ is_hex_digit l

/-! ## Concrete objects for the examples -/

/-- The SSID of the worked scenario, `"MyNet"`. -/
def ssid_MyNet : List Nat := str_bytes "MyNet"

/-- The passphrase of the worked scenario, `"password1"`. -/
def pass_password1 : List Nat := str_bytes "password1"

/-- A 160-byte buffer, as `apply_config` declares it. -/
def buf160 : List Nat := List.replicate 160 0

/-- An SSID of 65536 bytes, too long for a 2-byte length field. -/
def ssid_65536 : List Nat := List.replicate 65536 0x41

/-- A buffer large enough for a message carrying `ssid_65536`. -/
def buf_large : List Nat := List.replicate 65614 0

/-- The layout with the MAC-address TLV as its last item: byte `0x03`, a
one-byte length `n1`, bytes `0xD2 0x17`, a one-byte length `n4`, the MIME type,
the credential tag `0x10 0x0E` with its 2-byte length `c`, and the six
attribute TLVs, the last one carrying the value `mac`. -/
def wsc_layout (n1 n4 : Nat) (c mac ssid pass : List Nat) (crypt : wifi_crypt)
    (auth : wifi_auth) : List Nat :=
  [0x03, n1, 0xD2, 0x17, n4] ++ ndef_app ++ be16 0x100E ++ c ++
    tlv 0x1026 [0x01] ++ tlv 0x1045 ssid ++ tlv 0x1003 (be16 auth.val) ++
    tlv 0x100F (be16 crypt.val) ++ tlv 0x1027 pass ++ tlv 0x1020 mac

/-- A bus on which every transfer completes all its messages and a read
delivers the given bytes. -/
def ideal_ioctl (data : List Nat) : ioctl_fn Unit :=
  fun _ rdwr => { state := (), ret := rdwr.nmsgs, errno := 0, rdata := data }

/-- A device at address `0x57` that has submitted no transfer. -/
def fresh_device : i2c_nfc_device Unit := { address := 0x57, bus := (), log := [] }

/-- An environment in which every operating-system call succeeds: the bus
opens as descriptor 3, the backup file is created as descriptor 4 and all
160 bytes are written to it. -/
def os_ok : os_env :=
  { bus_fd := 3, bus_errno := 0, timeout_ret := 0, timeout_errno := 0,
    retries_ret := 0, retries_errno := 0, address_ret := 0, address_errno := 0,
    backup_fd := 4, backup_errno := 0, backup_written := 160, backup_write_errno := 0 }

/-- A bus on which every read transfer completes (delivering nothing) and
every write transfer fails with return value -1 and `errno` 5. -/
def failing_writes : ioctl_fn Unit :=
  fun _ rdwr =>
    if is_write_transfer rdwr then { state := (), ret := -1, errno := 5, rdata := [] }
    else { state := (), ret := rdwr.nmsgs, errno := 0, rdata := [] }

/-- A bus whose state counts the transfers submitted: the first `k` fail with
return value -1 and `errno` 5, the later ones complete and a read delivers
`data`. -/
def flaky_ioctl (k : Nat) (data : List Nat) : ioctl_fn Nat :=
  fun n rdwr =>
    if n < k then { state := n + 1, ret := -1, errno := 5, rdata := [] }
    else { state := n + 1, ret := rdwr.nmsgs, errno := 0, rdata := data }

/-- An SSID of 29 bytes, one more than `wifi_lenghts::ssid_max`. -/
def ssid_29 : List Nat := List.replicate 29 0x41

/-- A passphrase of 63 bytes. -/
def pass_63 : List Nat := List.replicate 63 0x42

/-- The message for "MyNet" / "password1" / open / none in a 160-byte
buffer. -/
def wbuf_MyNet : List Nat :=
  (make_wsc_ndef ssid_MyNet pass_password1 wifi_crypt.wifi_crypt_none
    wifi_auth.wifi_auth_open buf160 160).2

/-- A device at address `0x57` on a bus whose state counts from 0. -/
def counting_device : i2c_nfc_device Nat := { address := 0x57, bus := 0, log := [] }

/-- A bus whose state counts the read transfers submitted: every write
transfer completes; the first `k` read transfers fail with return value -1
and `errno` 5, the later ones complete and deliver `data`. -/
def flaky_reads (k : Nat) (data : List Nat) : ioctl_fn Nat :=
  fun n rdwr =>
    if is_write_transfer rdwr then { state := n, ret := rdwr.nmsgs, errno := 0, rdata := [] }
    else if n < k then { state := n + 1, ret := -1, errno := 5, rdata := [] }
    else { state := n + 1, ret := rdwr.nmsgs, errno := 0, rdata := data }

/-- A 4-byte message in a 160-byte buffer. -/
def wbuf_4 : List Nat := [0x03, 0x01, 0x02, 0xFE] ++ List.replicate 156 0

/-- A tag whose memory holds `0xAA` everywhere. -/
def mem_aa : Nat → Nat := fun _ => 0xAA

/-! ## Lemmas on buffer stores -/

theorem put_all_snd (s : List Nat) (buf : List Nat) (i : Nat) :
    (put_all (buf, i) s).2 = i + s.length := by
  induction s generalizing buf i with
  | nil => simp [put_all]
  | cons b s ih =>
    have h := ih (buf.set i (b % 256)) (i + 1)
    simp only [put_all, List.foldl_cons, put] at h ⊢
    rw [h]; simp; omega

theorem put_all_fst (s : List Nat) (buf : List Nat) (i : Nat)
    (h : i + s.length ≤ buf.length) :
    (put_all (buf, i) s).1
      = buf.take i ++ s.map (· % 256) ++ buf.drop (i + s.length) := by
  induction s generalizing buf i with
  | nil => simp [put_all]
  | cons b s ih =>
    have hlen : (buf.set i (b % 256)).length = buf.length := by simp
    have h2 : i + 1 + s.length ≤ (buf.set i (b % 256)).length := by
      rw [hlen]; simp at h; omega
    have h3 := ih (buf.set i (b % 256)) (i + 1) h2
    simp only [put_all, List.foldl_cons, put] at h3 ⊢
    rw [h3]
    have hi : i < buf.length := by simp at h; omega
    rw [List.set_eq_take_append_cons_drop, if_pos hi]
    have e1 : List.take (i + 1) (List.take i buf ++ b % 256 :: List.drop (i + 1) buf)
        = List.take i buf ++ [b % 256] := by
      rw [List.take_append_eq_append_take]
      simp [List.length_take, Nat.min_eq_left (Nat.le_of_lt hi)]
    have e2 : List.drop (i + 1 + s.length) (List.take i buf ++ b % 256 :: List.drop (i + 1) buf)
        = List.drop (i + (s.length + 1)) buf := by
      rw [List.drop_append_eq_append_drop]
      simp [List.length_take, Nat.min_eq_left (Nat.le_of_lt hi)]
      have e : i + 1 + s.length - i = s.length + 1 := by omega
      rw [e]; simp [List.drop_drop]
      have e3 : List.drop (i + 1 + s.length) (List.take i buf) = [] := by
        apply List.drop_eq_nil_of_le; simp; omega
      rw [e3, List.nil_append]
      congr 1; omega
    rw [e1, e2]; simp

theorem make_wsc_ndef_eq_stores (ssid pass : List Nat) (crypt : wifi_crypt)
    (auth : wifi_auth) (buf : List Nat) (max_size : Nat) :
    make_wsc_ndef ssid pass crypt auth buf max_size =
      if 69 + ssid.length + pass.length > max_size then (0, buf)
      else ((put_all (buf, 0) (wsc_stores ssid pass crypt auth)).2,
            (put_all (buf, 0) (wsc_stores ssid pass crypt auth)).1) := by
  unfold make_wsc_ndef
  split
  · rfl
  · simp only [wsc_stores, put_all, List.foldl_append, List.foldl_cons, List.foldl_nil]

theorem wsc_stores_length (ssid pass : List Nat) (crypt : wifi_crypt) (auth : wifi_auth) :
    (wsc_stores ssid pass crypt auth).length = 68 + ssid.length + pass.length := by
  simp [wsc_stores, ndef_app]; omega

theorem map_mod_bytes (s : List Nat) (h : ∀ b ∈ s, b < 256) : s.map (· % 256) = s := by
  induction s with
  | nil => rfl
  | cons a s ih =>
    simp only [List.map_cons]
    rw [ih (fun b hb => h b (List.mem_cons_of_mem _ hb)),
      Nat.mod_eq_of_lt (h a (List.mem_cons_self _ _))]

theorem shr8_and (n : Nat) : ((n >>> 8) &&& 0xFF) % 256 = n / 256 % 256 := by
  have h : (0xFF : Nat) = 2 ^ 8 - 1 := by norm_num
  rw [h, Nat.and_pow_two_sub_one_eq_mod, Nat.shiftRight_eq_div_pow]
  norm_num

theorem and_ff (n : Nat) : (n &&& 0xFF) % 256 = n % 256 := by
  have h : (0xFF : Nat) = 2 ^ 8 - 1 := by norm_num
  rw [h, Nat.and_pow_two_sub_one_eq_mod]
  norm_num

theorem wsc_stores_mod (ssid pass : List Nat) (crypt : wifi_crypt) (auth : wifi_auth) :
    (wsc_stores ssid pass crypt auth).map (· % 256)
      = wsc_message (ssid.map (· % 256)) (pass.map (· % 256)) crypt auth := by
  simp only [wsc_stores, wsc_message, wsc_record, wsc_attrs, tlv, be16, wsc_mac,
    List.map_append, List.map_cons, List.map_nil, List.length_map, shr8_and, and_ff]
  have ha : ndef_app.map (· % 256) = ndef_app := by decide
  rw [ha]
  simp [Nat.shiftRight_eq_div_pow]

/-- The returned length of a call that passes the capacity check. -/
theorem make_wsc_ndef_fst (ssid pass : List Nat) (crypt : wifi_crypt) (auth : wifi_auth)
    (buf : List Nat) (max_size : Nat) (hfit : 69 + ssid.length + pass.length ≤ max_size) :
    (make_wsc_ndef ssid pass crypt auth buf max_size).1 = 68 + ssid.length + pass.length := by
  rw [make_wsc_ndef_eq_stores, if_neg (by omega)]
  simp only [put_all_snd, wsc_stores_length]
  omega

/-- A call that fails the capacity check returns 0 and the buffer as it was. -/
theorem make_wsc_ndef_fail (ssid pass : List Nat) (crypt : wifi_crypt) (auth : wifi_auth)
    (buf : List Nat) (max_size : Nat) (h : 69 + ssid.length + pass.length > max_size) :
    make_wsc_ndef ssid pass crypt auth buf max_size = (0, buf) := by
  rw [make_wsc_ndef_eq_stores, if_pos h]

/-- A call that returns a non-zero length has passed the capacity check. -/
theorem fits_of_ne_zero (ssid pass : List Nat) (crypt : wifi_crypt) (auth : wifi_auth)
    (buf : List Nat) (max_size : Nat)
    (h : (make_wsc_ndef ssid pass crypt auth buf max_size).1 ≠ 0) :
    69 + ssid.length + pass.length ≤ max_size := by
  by_contra hc
  exact h (by rw [make_wsc_ndef_fail _ _ _ _ _ _ (by omega)])

/-- On success the buffer holds the message followed by its untouched tail. -/
theorem make_wsc_ndef_ok (ssid pass : List Nat) (crypt : wifi_crypt) (auth : wifi_auth)
    (buf : List Nat) (max_size : Nat)
    (hfit : 69 + ssid.length + pass.length ≤ max_size) (hcap : max_size ≤ buf.length) :
    make_wsc_ndef ssid pass crypt auth buf max_size =
      (68 + ssid.length + pass.length,
       wsc_message (ssid.map (· % 256)) (pass.map (· % 256)) crypt auth
         ++ buf.drop (68 + ssid.length + pass.length)) := by
  rw [make_wsc_ndef_eq_stores, if_neg (by omega)]
  have hl := wsc_stores_length ssid pass crypt auth
  rw [put_all_snd, put_all_fst _ _ _ (by rw [hl]; omega), hl, wsc_stores_mod]
  simp

theorem wsc_attrs_length (ssid pass : List Nat) (crypt : wifi_crypt) (auth : wifi_auth) :
    (wsc_attrs ssid pass crypt auth).length = 35 + ssid.length + pass.length := by
  simp [wsc_attrs, tlv, be16, wsc_mac]; omega

theorem wsc_record_length (ssid pass : List Nat) (crypt : wifi_crypt) (auth : wifi_auth) :
    (wsc_record ssid pass crypt auth).length = 65 + ssid.length + pass.length := by
  simp [wsc_record, wsc_attrs_length, ndef_app, be16]; omega

theorem wsc_message_length (ssid pass : List Nat) (crypt : wifi_crypt) (auth : wifi_auth) :
    (wsc_message ssid pass crypt auth).length = 68 + ssid.length + pass.length := by
  simp [wsc_message, wsc_record_length]; omega

/-- On success the message area holds exactly the message. -/
theorem encode_output_eq (ssid pass : List Nat) (crypt : wifi_crypt) (auth : wifi_auth)
    (buf : List Nat) (max_size : Nat)
    (hfit : 69 + ssid.length + pass.length ≤ max_size) (hcap : max_size ≤ buf.length) :
    encode_output ssid pass crypt auth buf max_size
      = wsc_message (ssid.map (· % 256)) (pass.map (· % 256)) crypt auth := by
  unfold encode_output
  rw [make_wsc_ndef_ok _ _ _ _ _ _ hfit hcap]
  have hl := wsc_message_length (ssid.map (· % 256)) (pass.map (· % 256)) crypt auth
  simp only [List.length_map] at hl
  simp only
  rw [← hl, List.take_left]

/-- On success, for byte strings, the message area holds exactly the message. -/
theorem encode_output_bytes (ssid pass : List Nat) (crypt : wifi_crypt) (auth : wifi_auth)
    (buf : List Nat) (max_size : Nat)
    (hfit : 69 + ssid.length + pass.length ≤ max_size) (hcap : max_size ≤ buf.length)
    (hs : ∀ b ∈ ssid, b < 256) (hp : ∀ b ∈ pass, b < 256) :
    encode_output ssid pass crypt auth buf max_size = wsc_message ssid pass crypt auth := by
  rw [encode_output_eq _ _ _ _ _ _ hfit hcap, map_mod_bytes ssid hs, map_mod_bytes pass hp]

/-! ## Lemmas on re-parsing -/

theorem be16_value (n : Nat) (h : n < 65536) : 256 * (n / 256 % 256) + n % 256 = n := by
  omega

theorem be_val_be16 (n : Nat) : be_val (be16 n) = n % 65536 := by
  simp only [be_val, be16, List.foldl_cons, List.foldl_nil]
  omega

theorem parse_attrs_tlv (fuel tag : Nat) (value rest : List Nat) (hf : 0 < fuel)
    (ht : tag < 65536) (hv : value.length < 65536) :
    parse_attrs fuel (tlv tag value ++ rest)
      = (parse_attrs (fuel - 1) rest).map (fun r => (tag, value) :: r) := by
  obtain ⟨f, rfl⟩ : ∃ f, fuel = f + 1 := ⟨fuel - 1, by omega⟩
  have e : tlv tag value ++ rest
      = (tag / 256 % 256) :: (tag % 256) :: (value.length / 256 % 256)
          :: (value.length % 256) :: (value ++ rest) := by
    simp [tlv, be16]
  rw [e]
  simp only [parse_attrs, be16_value tag ht, be16_value value.length hv]
  simp

theorem parse_attrs_nil (fuel : Nat) : parse_attrs fuel [] = some [] := by
  cases fuel <;> rfl

theorem parse_tlvs_wsc_attrs (ssid pass : List Nat) (crypt : wifi_crypt) (auth : wifi_auth)
    (hs : ssid.length < 65536) (hp : pass.length < 65536) :
    parse_tlvs (wsc_attrs ssid pass crypt auth)
      = some [(0x1026, [0x01]), (0x1045, ssid), (0x1003, be16 auth.val),
              (0x100F, be16 crypt.val), (0x1027, pass), (0x1020, wsc_mac)] := by
  unfold parse_tlvs
  rw [wsc_attrs_length]
  unfold wsc_attrs
  simp only [List.append_assoc]
  rw [parse_attrs_tlv _ _ _ _ (by omega) (by norm_num) (by simp),
    parse_attrs_tlv _ _ _ _ (by omega) (by norm_num) hs,
    parse_attrs_tlv _ _ _ _ (by omega) (by norm_num) (by simp [be16]),
    parse_attrs_tlv _ _ _ _ (by omega) (by norm_num) (by simp [be16]),
    parse_attrs_tlv _ _ _ _ (by omega) (by norm_num) hp]
  have h := parse_attrs_tlv (35 + ssid.length + pass.length - 1 - 1 - 1 - 1 - 1) 0x1020
    wsc_mac [] (by omega) (by norm_num) (by simp [wsc_mac])
  rw [List.append_nil] at h
  rw [h, parse_attrs_nil]
  rfl

theorem parse_wsc_message (ssid pass : List Nat) (crypt : wifi_crypt) (auth : wifi_auth)
    (hlen : ssid.length + pass.length ≤ 190) :
    parse_wsc_ndef (wsc_message ssid pass crypt auth)
      = some [(0x1026, [0x01]), (0x1045, ssid), (0x1003, be16 auth.val),
              (0x100F, be16 crypt.val), (0x1027, pass), (0x1020, wsc_mac)] := by
  have hr := wsc_record_length ssid pass crypt auth
  have ha := wsc_attrs_length ssid pass crypt auth
  have h1 : (30 + (35 + ssid.length + pass.length)) % 256 = (wsc_record ssid pass crypt auth).length := by
    rw [hr]; omega
  have h4 : (4 + (35 + ssid.length + pass.length)) % 256 = 39 + ssid.length + pass.length := by
    omega
  simp only [wsc_message, List.cons_append, List.nil_append, parse_wsc_ndef, h1,
    List.length_append, Nat.le_add_right, and_self, if_true, List.take_left]
  simp only [wsc_record, h4, List.cons_append, List.nil_append, List.append_assoc]
  have hn : ndef_app.length = 0x17 := by decide
  have e1 : 0x17 + (39 + ssid.length + pass.length)
      = (ndef_app ++ (be16 0x100E ++ (be16 (35 + ssid.length + pass.length)
          ++ wsc_attrs ssid pass crypt auth))).length := by
    simp [ha, be16, hn]; omega
  rw [if_pos ⟨trivial, e1, by rw [← hn, List.take_left]⟩]
  rw [← hn, List.drop_left]
  simp only [be16, List.cons_append, List.nil_append]
  rw [if_pos ⟨by norm_num, by rw [ha]; omega⟩]
  exact parse_tlvs_wsc_attrs ssid pass crypt auth (by omega) (by omega)

theorem ssid_65536_length : ssid_65536.length = 65536 := by
  rw [ssid_65536, List.length_replicate]

/-- Bytes 39..40 of the message are the length field of the network-name TLV. -/
theorem wsc_message_name_length (ssid pass : List Nat) (crypt : wifi_crypt) (auth : wifi_auth) :
    ((wsc_message ssid pass crypt auth).drop 39).take 2 = be16 ssid.length := by
  simp [wsc_message, wsc_record, wsc_attrs, tlv, be16, ndef_app]

/-! ## Lemmas on the frames of `write_ndef_at` -/

theorem shr8_and_ff (n : Nat) : (n >>> 8) &&& 0xFF = n / 256 % 256 := by
  have h : (0xFF : Nat) = 2 ^ 8 - 1 := by norm_num
  rw [h, Nat.and_pow_two_sub_one_eq_mod, Nat.shiftRight_eq_div_pow]

theorem and_ff_mod (n : Nat) : n &&& 0xFF = n % 256 := by
  have h : (0xFF : Nat) = 2 ^ 8 - 1 := by norm_num
  rw [h, Nat.and_pow_two_sub_one_eq_mod]

theorem write_frame_eq (buf : List Nat) (size ndef_off i : Nat) :
    write_frame buf size ndef_off i
      = be16 (base_ndef_addr + ndef_off + 4 * i)
        ++ [data_byte buf size (4 * i), data_byte buf size (4 * i + 1),
            data_byte buf size (4 * i + 2), data_byte buf size (4 * i + 3)] := by
  have hr : List.range 4 = [0, 1, 2, 3] := by decide
  have h0 : (0 < min (size - 4 * i) 4) = (4 * i < size) := propext (by omega)
  have h1 : (1 < min (size - 4 * i) 4) = (4 * i + 1 < size) := propext (by omega)
  have h2 : (2 < min (size - 4 * i) 4) = (4 * i + 2 < size) := propext (by omega)
  have h3 : (3 < min (size - 4 * i) 4) = (4 * i + 3 < size) := propext (by omega)
  simp only [write_frame, hr, List.map_cons, List.map_nil, h0, h1, h2, h3, shr8_and_ff,
    and_ff_mod, be16, data_byte, Nat.add_zero, Nat.shiftRight_eq_div_pow]

theorem flatten_quads (g : Nat → Nat) (n : Nat) :
    ((List.range n).map (fun i => [g (4 * i), g (4 * i + 1), g (4 * i + 2), g (4 * i + 3)])).flatten
      = (List.range (4 * n)).map g := by
  induction n with
  | zero => rfl
  | succ n ih =>
    have e : 4 * (n + 1) = 4 * n + 1 + 1 + 1 + 1 := by omega
    rw [List.range_succ, List.map_append, List.flatten_append, ih, e]
    simp only [List.range_succ, List.map_append, List.map_cons, List.map_nil,
      List.flatten_cons, List.flatten_nil, List.append_assoc, List.cons_append,
      List.nil_append, List.append_nil]

theorem frames_data_eq (address : Nat) (buf : List Nat) (size ndef_off : Nat) :
    frames_data (write_rdwr address buf size ndef_off)
      = (List.range (4 * ((size - 1) / 4 + 1))).map (data_byte buf size) := by
  rw [← flatten_quads]
  simp only [frames_data, write_rdwr, List.map_map]
  congr 1
  apply List.map_congr_left
  intro i _
  simp [write_frame_eq, be16]

theorem write_ndef_at_log {σ : Type} (ioctl : ioctl_fn σ) (dev : i2c_nfc_device σ)
    (buf : List Nat) (size ndef_off : Nat) (h1 : 1 ≤ size) (h2 : size ≤ 160) :
    (write_ndef_at ioctl dev (some buf) size ndef_off).2.log
      = dev.log ++ [write_rdwr dev.address buf size ndef_off] := by
  have hz : size ≠ 0 := by omega
  have hm : ¬ size > max_ndef_buf_size := by simp [max_ndef_buf_size]; omega
  simp only [write_ndef_at, hz, hm, if_false]
  split <;> rfl

/-! ## The encoder: claims C1 to C6 -/

/-- C1: round trip of `make_wsc_ndef`. For every SSID of 2..28 bytes, every
passphrase of 8..63 bytes and every `wifi_auth` / `wifi_crypt` value, encoding
into a 160-byte buffer and re-parsing the output as a TLV stream succeeds and
recovers the SSID bytes under tag 0x1045, the passphrase bytes under tag
0x1027, the auth value under tag 0x1003 and the cipher value under tag
0x100F. -/
theorem make_wsc_ndef_roundtrip (ssid pass : List Nat) (crypt : wifi_crypt)
    (auth : wifi_auth) (buf : List Nat)
    (hs : wifi_lenghts.ssid_min ≤ ssid.length ∧ ssid.length ≤ wifi_lenghts.ssid_max)
    (hp : wifi_lenghts.pass_min ≤ pass.length ∧ pass.length ≤ wifi_lenghts.pass_max)
    (hsb : ∀ b ∈ ssid, b < 256) (hpb : ∀ b ∈ pass, b < 256) (hbuf : buf.length = 160) :
    ∃ attrs, parse_wsc_ndef (encode_output ssid pass crypt auth buf 160) = some attrs ∧
      attrs.lookup 0x1045 = some ssid ∧ attrs.lookup 0x1027 = some pass ∧
      (attrs.lookup 0x1003).map be_val = some auth.val ∧
      (attrs.lookup 0x100F).map be_val = some crypt.val := by
  simp only [wifi_lenghts.ssid_min, wifi_lenghts.ssid_max, wifi_lenghts.pass_min,
    wifi_lenghts.pass_max] at hs hp
  rw [encode_output_bytes _ _ _ _ _ _ (by omega) (by omega) hsb hpb,
    parse_wsc_message _ _ _ _ (by omega)]
  refine ⟨_, rfl, ?_, ?_, ?_, ?_⟩
  · simp [List.lookup]
  · simp [List.lookup]
  · have h : auth.val % 65536 = auth.val := by cases auth <;> rfl
    simp [List.lookup, be_val_be16, h]
  · have h : crypt.val % 65536 = crypt.val := by cases crypt <;> rfl
    simp [List.lookup, be_val_be16, h]

/-- Witness of C1: the round trip at SSID "MyNet", passphrase "password1",
auth open, cipher none. -/
theorem make_wsc_ndef_roundtrip_witness :
    ∃ attrs, parse_wsc_ndef (encode_output ssid_MyNet pass_password1
        wifi_crypt.wifi_crypt_none wifi_auth.wifi_auth_open buf160 160) = some attrs ∧
      attrs.lookup 0x1045 = some ssid_MyNet ∧ attrs.lookup 0x1027 = some pass_password1 ∧
      (attrs.lookup 0x1003).map be_val = some wifi_auth.wifi_auth_open.val ∧
      (attrs.lookup 0x100F).map be_val = some wifi_crypt.wifi_crypt_none.val :=
  make_wsc_ndef_roundtrip ssid_MyNet pass_password1 _ _ buf160
    (by decide) (by decide) (by decide) (by decide) (by decide)

/-- C2, as stated, fails: encoding "MyNet" / "password1" / open / none into
a 160-byte buffer succeeds and returns 82, not 30 + 35 + 5 + 9 = 79. -/
theorem make_wsc_ndef_length_not_79 :
    (make_wsc_ndef ssid_MyNet pass_password1 wifi_crypt.wifi_crypt_none
        wifi_auth.wifi_auth_open buf160 160).1 ≠ 0 ∧
    (make_wsc_ndef ssid_MyNet pass_password1 wifi_crypt.wifi_crypt_none
        wifi_auth.wifi_auth_open buf160 160).1
      ≠ 30 + 35 + ssid_MyNet.length + pass_password1.length := by
  decide

/-- C2, amended: whenever `make_wsc_ndef` succeeds, the returned length is
33 + 35 + ssid.length + pass.length = 68 + ssid.length + pass.length; encoding
"MyNet" / "password1" / open / none yields a message of 82 bytes whose first
byte is 0x03. -/
theorem make_wsc_ndef_length (ssid pass : List Nat) (crypt : wifi_crypt)
    (auth : wifi_auth) (buf : List Nat) (max_size : Nat)
    (hok : (make_wsc_ndef ssid pass crypt auth buf max_size).1 ≠ 0) :
    (make_wsc_ndef ssid pass crypt auth buf max_size).1
        = 33 + 35 + ssid.length + pass.length ∧
      (encode_output ssid_MyNet pass_password1 wifi_crypt.wifi_crypt_none
        wifi_auth.wifi_auth_open buf160 160).length = 82 ∧
      (encode_output ssid_MyNet pass_password1 wifi_crypt.wifi_crypt_none
        wifi_auth.wifi_auth_open buf160 160).head? = some 0x03 := by
  refine ⟨?_, by decide, by decide⟩
  rw [make_wsc_ndef_fst _ _ _ _ _ _ (fits_of_ne_zero _ _ _ _ _ _ hok)]

/-- Witness of the amended C2 at a 28-byte SSID and a 63-byte passphrase in
a 160-byte buffer: the returned length is 159. -/
theorem make_wsc_ndef_length_witness :
    (make_wsc_ndef (List.replicate 28 0x41) (List.replicate 63 0x42)
        wifi_crypt.wifi_crypt_aes wifi_auth.wifi_auth_wpa2_personal buf160 160).1 = 159 :=
  (make_wsc_ndef_length (List.replicate 28 0x41) (List.replicate 63 0x42)
    wifi_crypt.wifi_crypt_aes wifi_auth.wifi_auth_wpa2_personal buf160 160 (by decide)).1

/-- C3: the length fields of the encoder have no fencepost error. For every
input on which `make_wsc_ndef` succeeds with a capacity of at most 160, the
output is byte 0x03, the byte at index 1, the NDEF record and a closing byte,
and (a) the byte at index 1 is the number of bytes of the record (record
header byte through the last byte of the MAC-address TLV value); (b) the byte
at index 4 is the number of bytes from the credential tag through the last
byte of the MAC-address TLV value; (c) the big-endian value of the bytes at
indices 30..31 is the size of the attribute TLVs nested in the credential,
35 + ssid.length + pass.length. -/
theorem make_wsc_ndef_length_fields (ssid pass : List Nat) (crypt : wifi_crypt)
    (auth : wifi_auth) (buf : List Nat) (max_size : Nat)
    (hok : (make_wsc_ndef ssid pass crypt auth buf max_size).1 ≠ 0)
    (hcap : max_size ≤ 160) (hbuf : max_size ≤ buf.length)
    (hsb : ∀ b ∈ ssid, b < 256) (hpb : ∀ b ∈ pass, b < 256) :
    encode_output ssid pass crypt auth buf max_size
        = [0x03, (encode_output ssid pass crypt auth buf max_size).getD 1 0]
            ++ wsc_record ssid pass crypt auth ++ [0xFE] ∧
      (encode_output ssid pass crypt auth buf max_size).getD 1 0
        = (wsc_record ssid pass crypt auth).length ∧
      wsc_record ssid pass crypt auth
        = [0xD2, 0x17, (encode_output ssid pass crypt auth buf max_size).getD 4 0]
            ++ ndef_app
            ++ ([0x10, 0x0E, (encode_output ssid pass crypt auth buf max_size).getD 30 0,
                  (encode_output ssid pass crypt auth buf max_size).getD 31 0]
                ++ wsc_attrs ssid pass crypt auth) ∧
      (encode_output ssid pass crypt auth buf max_size).getD 4 0
        = ([0x10, 0x0E, (encode_output ssid pass crypt auth buf max_size).getD 30 0,
              (encode_output ssid pass crypt auth buf max_size).getD 31 0]
            ++ wsc_attrs ssid pass crypt auth).length ∧
      256 * (encode_output ssid pass crypt auth buf max_size).getD 30 0
          + (encode_output ssid pass crypt auth buf max_size).getD 31 0
        = (wsc_attrs ssid pass crypt auth).length ∧
      (wsc_attrs ssid pass crypt auth).length = 35 + ssid.length + pass.length := by
  have hfit := fits_of_ne_zero _ _ _ _ _ _ hok
  rw [encode_output_bytes _ _ _ _ _ _ hfit hbuf hsb hpb]
  have hr := wsc_record_length ssid pass crypt auth
  have ha := wsc_attrs_length ssid pass crypt auth
  have e1 : (wsc_message ssid pass crypt auth).getD 1 0
      = (30 + (35 + ssid.length + pass.length)) % 256 := by
    simp [wsc_message]
  have e4 : (wsc_message ssid pass crypt auth).getD 4 0
      = (4 + (35 + ssid.length + pass.length)) % 256 := by
    simp [wsc_message, wsc_record]
  have e30 : (wsc_message ssid pass crypt auth).getD 30 0
      = (35 + ssid.length + pass.length) / 256 % 256 := by
    simp [wsc_message, wsc_record, ndef_app, be16]
  have e31 : (wsc_message ssid pass crypt auth).getD 31 0
      = (35 + ssid.length + pass.length) % 256 := by
    simp [wsc_message, wsc_record, ndef_app, be16]
  rw [e1, e4, e30, e31]
  refine ⟨by simp [wsc_message], by rw [hr]; omega, by simp [wsc_record, be16], ?_, ?_, ha⟩
  · simp only [List.length_append, List.length_cons, List.length_nil, ha]; omega
  · rw [ha]; omega

/-- Witness of C3 at SSID "MyNet", passphrase "password1": the byte at index 1
is 79, the byte at index 4 is 53, and the bytes at indices 30..31 are 0 and
49. -/
theorem make_wsc_ndef_length_fields_witness :
    (encode_output ssid_MyNet pass_password1 wifi_crypt.wifi_crypt_none
        wifi_auth.wifi_auth_open buf160 160).getD 1 0
      = (wsc_record ssid_MyNet pass_password1 wifi_crypt.wifi_crypt_none
          wifi_auth.wifi_auth_open).length ∧
    256 * (encode_output ssid_MyNet pass_password1 wifi_crypt.wifi_crypt_none
          wifi_auth.wifi_auth_open buf160 160).getD 30 0
        + (encode_output ssid_MyNet pass_password1 wifi_crypt.wifi_crypt_none
          wifi_auth.wifi_auth_open buf160 160).getD 31 0
      = (wsc_attrs ssid_MyNet pass_password1 wifi_crypt.wifi_crypt_none
          wifi_auth.wifi_auth_open).length :=
  have h := make_wsc_ndef_length_fields ssid_MyNet pass_password1
    wifi_crypt.wifi_crypt_none wifi_auth.wifi_auth_open buf160 160
    (by decide) (by decide) (by decide) (by decide) (by decide)
  ⟨h.2.1, h.2.2.2.2.1⟩

/-- C4, as stated, fails. (1) At "MyNet" / "password1" / open / none the call
succeeds, and the output is not the claimed sequence ending with the
MAC-address TLV, whatever the two one-byte lengths, the 2-byte credential
length and the 6-byte MAC value are: one more byte follows. (2) At an SSID of
65536 bytes the call succeeds, and the 2-byte length of the network-name TLV
(bytes 39..40 of the output) is 0, not the byte count of its value. -/
theorem make_wsc_ndef_layout_fails :
    ((make_wsc_ndef ssid_MyNet pass_password1 wifi_crypt.wifi_crypt_none
          wifi_auth.wifi_auth_open buf160 160).1 ≠ 0 ∧
      ¬ ∃ n1 n4 c mac, c.length = 2 ∧ mac.length = 6 ∧
          encode_output ssid_MyNet pass_password1 wifi_crypt.wifi_crypt_none
              wifi_auth.wifi_auth_open buf160 160
            = wsc_layout n1 n4 c mac ssid_MyNet pass_password1
                wifi_crypt.wifi_crypt_none wifi_auth.wifi_auth_open) ∧
    ((make_wsc_ndef ssid_65536 pass_password1 wifi_crypt.wifi_crypt_none
          wifi_auth.wifi_auth_open buf_large 65614).1 ≠ 0 ∧
      be_val (((encode_output ssid_65536 pass_password1 wifi_crypt.wifi_crypt_none
          wifi_auth.wifi_auth_open buf_large 65614).drop 39).take 2) = 0 ∧
      ssid_65536.length = 65536) := by
  refine ⟨⟨by decide, ?_⟩, ?_, ?_, ?_⟩
  · rintro ⟨n1, n4, c, mac, hc, hm, h⟩
    have hl := congrArg List.length h
    have h82 : (encode_output ssid_MyNet pass_password1 wifi_crypt.wifi_crypt_none
        wifi_auth.wifi_auth_open buf160 160).length = 82 := by decide
    rw [h82] at hl
    simp [wsc_layout, tlv, be16, ndef_app, hc, hm, ssid_MyNet, pass_password1,
      str_bytes] at hl
  · rw [make_wsc_ndef_fst _ _ _ _ _ _ (by rw [ssid_65536_length]; decide)]
    omega
  · rw [encode_output_bytes _ _ _ _ _ _ (by rw [ssid_65536_length]; decide)
      (by rw [buf_large, List.length_replicate])
      (by intro b hb; rw [ssid_65536, List.mem_replicate] at hb; omega) (by decide),
      wsc_message_name_length, be_val_be16, ssid_65536_length]
  · exact ssid_65536_length

/-- C4, amended: for every input on which `make_wsc_ndef` succeeds with an
SSID and a passphrase shorter than 65536 bytes, the output is, in order, byte
0x03, a one-byte length, bytes 0xD2 0x17, a one-byte length, the 23 bytes of
"application/vnd.wfa.wsc", the credential TLV header (tag 0x10 0x0E, 2-byte
big-endian length), the attribute TLVs network index (0x1026, value 0x01),
network name (0x1045, the SSID), auth type (0x1003, 2 bytes big-endian),
encryption type (0x100F, 2 bytes big-endian), network key (0x1027, the
passphrase), MAC address (0x1020, length 6), each with a 2-byte big-endian
length equal to its value's byte count, and then one final byte 0xFE. -/
theorem make_wsc_ndef_layout (ssid pass : List Nat) (crypt : wifi_crypt)
    (auth : wifi_auth) (buf : List Nat) (max_size : Nat)
    (hok : (make_wsc_ndef ssid pass crypt auth buf max_size).1 ≠ 0)
    (hbuf : max_size ≤ buf.length)
    (hsb : ∀ b ∈ ssid, b < 256) (hpb : ∀ b ∈ pass, b < 256)
    (hsl : ssid.length < 65536) (hpl : pass.length < 65536) :
    encode_output ssid pass crypt auth buf max_size
        = wsc_layout ((30 + (35 + ssid.length + pass.length)) % 256)
            ((4 + (35 + ssid.length + pass.length)) % 256)
            (be16 (35 + ssid.length + pass.length)) wsc_mac ssid pass crypt auth
          ++ [0xFE] ∧
      wsc_mac.length = 6 ∧ ndef_app.length = 23 ∧
      be_val (be16 ssid.length) = ssid.length ∧
      be_val (be16 pass.length) = pass.length ∧
      be_val (be16 auth.val) = auth.val ∧ be_val (be16 crypt.val) = crypt.val := by
  have hfit := fits_of_ne_zero _ _ _ _ _ _ hok
  rw [encode_output_bytes _ _ _ _ _ _ hfit hbuf hsb hpb]
  refine ⟨by simp [wsc_message, wsc_record, wsc_attrs, wsc_layout], rfl, rfl, ?_, ?_, ?_, ?_⟩
  · rw [be_val_be16]; omega
  · rw [be_val_be16]; omega
  · cases auth <;> rfl
  · cases crypt <;> rfl

/-- Witness of the amended C4 at "MyNet" / "password1" / open / none. -/
theorem make_wsc_ndef_layout_witness :
    encode_output ssid_MyNet pass_password1 wifi_crypt.wifi_crypt_none
        wifi_auth.wifi_auth_open buf160 160
      = wsc_layout 79 53 [0, 49] wsc_mac ssid_MyNet pass_password1
          wifi_crypt.wifi_crypt_none wifi_auth.wifi_auth_open ++ [0xFE] :=
  (make_wsc_ndef_layout ssid_MyNet pass_password1 wifi_crypt.wifi_crypt_none
    wifi_auth.wifi_auth_open buf160 160 (by decide) (by decide) (by decide) (by decide)
    (by decide) (by decide)).1

/-- C5, as stated, fails: at "MyNet" / "password1" / open / none the call
succeeds, the last 10 bytes of the message are not the MAC-address TLV with
the value FF:FF:FF:FF:FF:FE, and the 6 bytes that follow the MAC-address TLV
header (bytes 71..74 of the message) are FF:FF:FF:FF:FF:FF. -/
theorem make_wsc_ndef_mac_not_fe :
    (make_wsc_ndef ssid_MyNet pass_password1 wifi_crypt.wifi_crypt_none
        wifi_auth.wifi_auth_open buf160 160).1 ≠ 0 ∧
    (encode_output ssid_MyNet pass_password1 wifi_crypt.wifi_crypt_none
        wifi_auth.wifi_auth_open buf160 160).drop
      ((encode_output ssid_MyNet pass_password1 wifi_crypt.wifi_crypt_none
        wifi_auth.wifi_auth_open buf160 160).length - 10)
      ≠ tlv 0x1020 [0xFF, 0xFF, 0xFF, 0xFF, 0xFF, 0xFE] ∧
    ((encode_output ssid_MyNet pass_password1 wifi_crypt.wifi_crypt_none
        wifi_auth.wifi_auth_open buf160 160).drop 71).take 4 = [0x10, 0x20, 0x00, 0x06] ∧
    ((encode_output ssid_MyNet pass_password1 wifi_crypt.wifi_crypt_none
        wifi_auth.wifi_auth_open buf160 160).drop 75).take 6
      = [0xFF, 0xFF, 0xFF, 0xFF, 0xFF, 0xFF] ∧
    ((encode_output ssid_MyNet pass_password1 wifi_crypt.wifi_crypt_none
        wifi_auth.wifi_auth_open buf160 160).drop 75).take 6
      ≠ [0xFF, 0xFF, 0xFF, 0xFF, 0xFF, 0xFE] := by
  decide

/-- C5, amended: for every input on which `make_wsc_ndef` succeeds, the
message ends with the MAC-address TLV (tag 0x1020, length 0x0006) whose 6-byte
value is FF:FF:FF:FF:FF:FF, followed by one final byte 0xFE, independent of the
credential. -/
theorem make_wsc_ndef_mac (ssid pass : List Nat) (crypt : wifi_crypt)
    (auth : wifi_auth) (buf : List Nat) (max_size : Nat)
    (hok : (make_wsc_ndef ssid pass crypt auth buf max_size).1 ≠ 0)
    (hbuf : max_size ≤ buf.length) :
    (encode_output ssid pass crypt auth buf max_size).drop
        ((encode_output ssid pass crypt auth buf max_size).length - 11)
      = [0x10, 0x20, 0x00, 0x06, 0xFF, 0xFF, 0xFF, 0xFF, 0xFF, 0xFF, 0xFE] := by
  have hfit := fits_of_ne_zero _ _ _ _ _ _ hok
  rw [encode_output_eq _ _ _ _ _ _ hfit hbuf]
  have e : wsc_message (ssid.map (· % 256)) (pass.map (· % 256)) crypt auth
      = (wsc_message (ssid.map (· % 256)) (pass.map (· % 256)) crypt auth).take
          (57 + ssid.length + pass.length)
        ++ [0x10, 0x20, 0x00, 0x06, 0xFF, 0xFF, 0xFF, 0xFF, 0xFF, 0xFF, 0xFE] := by
    have e2 : wsc_message (ssid.map (· % 256)) (pass.map (· % 256)) crypt auth
        = ([0x03, (30 + (35 + ssid.length + pass.length)) % 256, 0xD2, 0x17,
              (4 + (35 + ssid.length + pass.length)) % 256] ++ ndef_app ++ be16 0x100E
            ++ be16 (35 + ssid.length + pass.length) ++ tlv 0x1026 [0x01]
            ++ tlv 0x1045 (ssid.map (· % 256)) ++ tlv 0x1003 (be16 auth.val)
            ++ tlv 0x100F (be16 crypt.val) ++ tlv 0x1027 (pass.map (· % 256)))
          ++ [0x10, 0x20, 0x00, 0x06, 0xFF, 0xFF, 0xFF, 0xFF, 0xFF, 0xFF, 0xFE] := by
      simp [wsc_message, wsc_record, wsc_attrs, tlv, be16, wsc_mac]
    have e3 : ([0x03, (30 + (35 + ssid.length + pass.length)) % 256, 0xD2, 0x17,
              (4 + (35 + ssid.length + pass.length)) % 256] ++ ndef_app ++ be16 0x100E
            ++ be16 (35 + ssid.length + pass.length) ++ tlv 0x1026 [0x01]
            ++ tlv 0x1045 (ssid.map (· % 256)) ++ tlv 0x1003 (be16 auth.val)
            ++ tlv 0x100F (be16 crypt.val) ++ tlv 0x1027 (pass.map (· % 256))).length
        = 57 + ssid.length + pass.length := by
      simp [tlv, be16, ndef_app]; omega
    rw [e2, ← e3, List.take_left]
  have hl := wsc_message_length (ssid.map (· % 256)) (pass.map (· % 256)) crypt auth
  simp only [List.length_map] at hl
  rw [hl, e]
  have ht : ((wsc_message (ssid.map (· % 256)) (pass.map (· % 256)) crypt auth).take
      (57 + ssid.length + pass.length)).length = 68 + ssid.length + pass.length - 11 := by
    rw [List.length_take, hl]; omega
  rw [← ht, List.drop_left]

/-- Witness of the amended C5 at "MyNet" / "password1" / open / none. -/
theorem make_wsc_ndef_mac_witness :
    (encode_output ssid_MyNet pass_password1 wifi_crypt.wifi_crypt_none
        wifi_auth.wifi_auth_open buf160 160).drop
        ((encode_output ssid_MyNet pass_password1 wifi_crypt.wifi_crypt_none
          wifi_auth.wifi_auth_open buf160 160).length - 11)
      = [0x10, 0x20, 0x00, 0x06, 0xFF, 0xFF, 0xFF, 0xFF, 0xFF, 0xFF, 0xFE] :=
  make_wsc_ndef_mac ssid_MyNet pass_password1 wifi_crypt.wifi_crypt_none
    wifi_auth.wifi_auth_open buf160 160 (by decide) (by decide)

/-- C6: failure condition of the encoder. For every SSID, passphrase and
capacity `max_size`, `make_wsc_ndef` returns 0 if and only if
69 + ssid.length + pass.length > max_size; when it returns 0 the destination
buffer is as it was before the call, and otherwise the returned length is
non-zero. -/
theorem make_wsc_ndef_failure (ssid pass : List Nat) (crypt : wifi_crypt)
    (auth : wifi_auth) (buf : List Nat) (max_size : Nat) :
    ((make_wsc_ndef ssid pass crypt auth buf max_size).1 = 0
        ↔ 69 + ssid.length + pass.length > max_size) ∧
      ((make_wsc_ndef ssid pass crypt auth buf max_size).1 = 0
        → (make_wsc_ndef ssid pass crypt auth buf max_size).2 = buf) ∧
      (¬ 69 + ssid.length + pass.length > max_size
        → (make_wsc_ndef ssid pass crypt auth buf max_size).1 ≠ 0) := by
  by_cases h : 69 + ssid.length + pass.length > max_size
  · rw [make_wsc_ndef_fail _ _ _ _ _ _ h]
    exact ⟨⟨fun _ => h, fun _ => rfl⟩, fun _ => rfl, fun hn => absurd h hn⟩
  · have hf := make_wsc_ndef_fst ssid pass crypt auth buf max_size (by omega)
    refine ⟨⟨fun h0 => ?_, fun hh => absurd hh h⟩, fun h0 => ?_, fun _ => ?_⟩
    · rw [hf] at h0; omega
    · rw [hf] at h0; omega
    · rw [hf]; omega

/-- A misaligned request on a non-null buffer is rejected before anything else
happens. -/
theorem read_ndef_unaligned {σ : Type} (ioctl : ioctl_fn σ) (dev : i2c_nfc_device σ)
    (out_buf : List Nat) (size : Nat) (h : size % 4 ≠ 0) :
    read_ndef ioctl dev (some out_buf) size
      = (.error ⟨"invalid read alignment", 0, 0⟩, dev, some out_buf) := by
  have hz : size ≠ 0 := by intro h0; rw [h0] at h; exact h rfl
  simp [read_ndef, hz, h]

/-! ## The device: claims C7 to C10 -/

/-- C7: frame count and addressing of `write_ndef_at`. For every payload
length L with 1 <= L <= 160 and every offset `ndef_off`, `write_ndef_at`
submits one transfer of exactly ceil(L/4) = (L + 3) / 4 write frames, each
exactly 6 bytes long, and the first two bytes of frame number `index` are the
big-endian 16-bit value of base + 4*index, where base = 0x10 + ndef_off: the
low 16 bits of that sum, most significant byte first. -/
theorem write_ndef_at_frames {σ : Type} (ioctl : ioctl_fn σ) (dev : i2c_nfc_device σ)
    (buf : List Nat) (L ndef_off : Nat) (hL : 1 ≤ L ∧ L ≤ 160) :
    ∃ rdwr, (write_ndef_at ioctl dev (some buf) L ndef_off).2.log = dev.log ++ [rdwr] ∧
      rdwr.nmsgs = (L + 3) / 4 ∧ rdwr.msgs.length = (L + 3) / 4 ∧
      (∀ m ∈ rdwr.msgs, m.flags = 0 ∧ m.len = 6 ∧ m.buf.length = 6) ∧
      ∀ index, index < (L + 3) / 4 →
        (rdwr.msgs.map (fun m => m.buf.take 2))[index]?
            = some (be16 (0x10 + ndef_off + 4 * index)) ∧
          (rdwr.msgs.map (fun m => be_val (m.buf.take 2)))[index]?
            = some ((0x10 + ndef_off + 4 * index) % 65536) := by
  refine ⟨write_rdwr dev.address buf L ndef_off,
    write_ndef_at_log ioctl dev buf L ndef_off hL.1 hL.2, ?_, ?_, ?_, ?_⟩
  · simp only [write_rdwr]; omega
  · simp only [write_rdwr, List.length_map, List.length_range]; omega
  · intro m hm
    simp only [write_rdwr, List.mem_map, List.mem_range] at hm
    obtain ⟨i, _, rfl⟩ := hm
    simp [write_frame_eq, be16]
  · intro index hi
    have hlt : index < (L - 1) / 4 + 1 := by omega
    simp only [write_rdwr, List.map_map, List.getElem?_map, List.getElem?_range hlt,
      Option.map_some', Function.comp_apply, write_frame_eq, base_ndef_addr]
    have e : List.take 2 (be16 (16 + ndef_off + 4 * index)
        ++ [data_byte buf L (4 * index), data_byte buf L (4 * index + 1),
            data_byte buf L (4 * index + 2), data_byte buf L (4 * index + 3)])
        = be16 (16 + ndef_off + 4 * index) := by
      simp [be16]
    rw [e, be_val_be16]
    exact ⟨rfl, rfl⟩

/-- Witness of C7: a 5-byte payload at offset 3 gives two frames, addressed
0x0013 and 0x0017. -/
theorem write_ndef_at_frames_witness :
    ∃ rdwr, (write_ndef_at (ideal_ioctl []) fresh_device (some [1, 2, 3, 4, 5]) 5 3).2.log
        = fresh_device.log ++ [rdwr] ∧
      rdwr.nmsgs = (5 + 3) / 4 ∧ rdwr.msgs.length = (5 + 3) / 4 ∧
      (∀ m ∈ rdwr.msgs, m.flags = 0 ∧ m.len = 6 ∧ m.buf.length = 6) ∧
      ∀ index, index < (5 + 3) / 4 →
        (rdwr.msgs.map (fun m => m.buf.take 2))[index]?
            = some (be16 (0x10 + 3 + 4 * index)) ∧
          (rdwr.msgs.map (fun m => be_val (m.buf.take 2)))[index]?
            = some ((0x10 + 3 + 4 * index) % 65536) :=
  write_ndef_at_frames (ideal_ioctl []) fresh_device [1, 2, 3, 4, 5] 5 3 (by decide)

/-- C8: payload reconstruction of `write_ndef_at`. For every payload of
length L with 1 <= L <= 160, the 4 data bytes (bytes 2..5) of the frames,
concatenated in order, are 4*ceil(L/4) bytes whose first L bytes are the
payload and whose remaining bytes are all zero. -/
theorem write_ndef_at_payload {σ : Type} (ioctl : ioctl_fn σ) (dev : i2c_nfc_device σ)
    (buf : List Nat) (L ndef_off : Nat) (hL : 1 ≤ L ∧ L ≤ 160) (hbuf : buf.length = L) :
    ∃ rdwr, (write_ndef_at ioctl dev (some buf) L ndef_off).2.log = dev.log ++ [rdwr] ∧
      (frames_data rdwr).length = 4 * ((L + 3) / 4) ∧
      (frames_data rdwr).take L = buf ∧
      (frames_data rdwr).drop L = List.replicate (4 * ((L + 3) / 4) - L) 0 := by
  refine ⟨write_rdwr dev.address buf L ndef_off,
    write_ndef_at_log ioctl dev buf L ndef_off hL.1 hL.2, ?_, ?_, ?_⟩
  · rw [frames_data_eq, List.length_map, List.length_range]; omega
  · rw [frames_data_eq]
    apply List.ext_getElem
    · rw [List.length_take, List.length_map, List.length_range]; omega
    · intro k h1 h2
      rw [List.getElem_take, List.getElem_map, List.getElem_range]
      have hk : k < L := by omega
      simp only [data_byte, hk, if_true]
      rw [List.getD_eq_getElem _ _ h2]
  · rw [frames_data_eq]
    apply List.ext_getElem
    · rw [List.length_drop, List.length_map, List.length_range, List.length_replicate]; omega
    · intro k h1 h2
      rw [List.getElem_drop, List.getElem_map, List.getElem_range, List.getElem_replicate]
      have hk : ¬ L + k < L := by omega
      simp only [data_byte, hk, if_false]

/-- Witness of C8: a 5-byte payload gives 8 data bytes, the payload followed
by 3 zero bytes. -/
theorem write_ndef_at_payload_witness :
    ∃ rdwr, (write_ndef_at (ideal_ioctl []) fresh_device (some [1, 2, 3, 4, 5]) 5 3).2.log
        = fresh_device.log ++ [rdwr] ∧
      (frames_data rdwr).length = 4 * ((5 + 3) / 4) ∧
      (frames_data rdwr).take 5 = [1, 2, 3, 4, 5] ∧
      (frames_data rdwr).drop 5 = List.replicate (4 * ((5 + 3) / 4) - 5) 0 :=
  write_ndef_at_payload (ideal_ioctl []) fresh_device [1, 2, 3, 4, 5] 5 3 (by decide) rfl

/-- C9: alignment check of `read_ndef`. For every requested size that is not a
multiple of 4 and every output buffer, `read_ndef` fails with the error
"invalid read alignment"; the device is as before the call (no transfer was
submitted) and the output buffer is unmodified. -/
theorem read_ndef_alignment {σ : Type} (ioctl : ioctl_fn σ) (dev : i2c_nfc_device σ)
    (out_buf : List Nat) (size : Nat) (h : size % 4 ≠ 0) :
    read_ndef ioctl dev (some out_buf) size
      = (.error ⟨"invalid read alignment", 0, 0⟩, dev, some out_buf) :=
  read_ndef_unaligned ioctl dev out_buf size h

/-- Witness of C9: a read of size 5. -/
theorem read_ndef_alignment_witness :
    read_ndef (ideal_ioctl [1, 2, 3, 4, 5]) fresh_device (some buf160) 5
      = (.error ⟨"invalid read alignment", 0, 0⟩, fresh_device, some buf160) :=
  read_ndef_alignment (ideal_ioctl [1, 2, 3, 4, 5]) fresh_device buf160 5 (by decide)

/-- C10, as stated, fails: a read of size 161 into a 160-byte buffer is not
clamped to 160; it fails with "invalid read alignment" and no transfer is
submitted, so no read frame of length 160 exists. -/
theorem read_ndef_161_not_clamped :
    (read_ndef (ideal_ioctl []) fresh_device (some buf160) 161).1
        = .error ⟨"invalid read alignment", 0, 0⟩ ∧
      (read_ndef (ideal_ioctl []) fresh_device (some buf160) 161).2.1.log = [] ∧
      ¬ ∃ rdwr ∈ (read_ndef (ideal_ioctl []) fresh_device (some buf160) 161).2.1.log,
          ∃ m ∈ rdwr.msgs, m.len = 160 := by
  have h := read_ndef_unaligned (ideal_ioctl []) fresh_device buf160 161 (by decide)
  rw [h]
  refine ⟨rfl, rfl, ?_⟩
  simp [fresh_device]

/-- C10, amended: for every requested size greater than 160 that is a multiple
of 4, `read_ndef` caps the read to exactly 160 bytes: it submits one transfer
of two frames, the 2-byte write of the address 0x0010 and a read frame of
length 160; in particular a request of size 164 is clamped to 160. A request
of size 161 is rejected by the alignment check. -/
theorem read_ndef_cap {σ : Type} (ioctl : ioctl_fn σ) (dev : i2c_nfc_device σ)
    (out_buf : List Nat) (size : Nat) (hgt : size > 160) (h4 : size % 4 = 0) :
    ∃ rd, (read_ndef ioctl dev (some out_buf) size).2.1.log
        = dev.log ++ [{ msgs := [{ addr := dev.address, flags := 0, len := 2,
                                    buf := [0x00, 0x10] }, rd],
                        nmsgs := 2 }] ∧
      rd.addr = dev.address ∧ rd.flags = I2C_M_RD ∧ rd.len = 160 := by
  have hz : size ≠ 0 := by omega
  have hm : size > max_ndef_buf_size := by simp only [max_ndef_buf_size]; omega
  have h4n : ¬ size % 4 ≠ 0 := by omega
  refine ⟨{ addr := dev.address, flags := I2C_M_RD, len := 160,
            buf := (memset out_buf 0 160).take 160 }, ?_, rfl, rfl, rfl⟩
  simp only [read_ndef, hz, h4n, hm, if_false, if_true]
  have ha : (16 : Nat) &&& 255 = 16 := by decide
  split <;> simp [submit, max_ndef_buf_size, base_ndef_addr, ha]

/-- Witness of the amended C10: a request of size 164 is clamped to 160. -/
theorem read_ndef_cap_witness :
    ∃ rd, (read_ndef (ideal_ioctl []) fresh_device (some buf160) 164).2.1.log
        = fresh_device.log ++ [{ msgs := [{ addr := fresh_device.address, flags := 0,
                                             len := 2, buf := [0x00, 0x10] }, rd],
                                  nmsgs := 2 }] ∧
      rd.addr = fresh_device.address ∧ rd.flags = I2C_M_RD ∧ rd.len = 160 :=
  read_ndef_cap (ideal_ioctl []) fresh_device buf160 164 (by decide) (by decide)


/-! ## Lemmas on single transfers of a run -/

theorem dev_after_zero {σ : Type} (ioctl : ioctl_fn σ) (rdwr : i2c_rdwr_ioctl_data)
    (dev : i2c_nfc_device σ) : dev_after ioctl rdwr 0 dev = dev := by
  cases dev; simp [dev_after, bus_after]

theorem dev_after_succ {σ : Type} (ioctl : ioctl_fn σ) (rdwr : i2c_rdwr_ioctl_data) (j : Nat)
    (dev : i2c_nfc_device σ) :
    dev_after ioctl rdwr j (submit ioctl dev rdwr).2 = dev_after ioctl rdwr (j + 1) dev := by
  simp [dev_after, submit, bus_after, List.replicate_succ]

theorem submit_eq {σ : Type} (ioctl : ioctl_fn σ) (rdwr : i2c_rdwr_ioctl_data)
    (dev : i2c_nfc_device σ) :
    submit ioctl dev rdwr = (attempt ioctl rdwr 0 dev.bus, dev_after ioctl rdwr 1 dev) := by
  simp [submit, attempt, dev_after, bus_after]

theorem attempt_succ {σ : Type} (ioctl : ioctl_fn σ) (rdwr : i2c_rdwr_ioctl_data) (j : Nat)
    (dev : i2c_nfc_device σ) :
    attempt ioctl rdwr j (dev_after ioctl rdwr 1 dev).bus = attempt ioctl rdwr (j + 1) dev.bus := by
  simp [attempt, dev_after, bus_after]

theorem dev_after_add {σ : Type} (ioctl : ioctl_fn σ) (rdwr : i2c_rdwr_ioctl_data) (j : Nat)
    (dev : i2c_nfc_device σ) :
    dev_after ioctl rdwr j (dev_after ioctl rdwr 1 dev) = dev_after ioctl rdwr (j + 1) dev := by
  simp [dev_after, bus_after, List.replicate_succ]

/-- A chunk write of 1 to 4 bytes is one transfer of one frame; it fails when
the ioctl does not return 1. -/
theorem write_ndef_at_chunk {σ : Type} (ioctl : ioctl_fn σ) (dev : i2c_nfc_device σ)
    (chunk : List Nat) (s off : Nat) (h1 : 1 ≤ s) (h4 : s ≤ 4) :
    write_ndef_at ioctl dev (some chunk) s off
      = (if (attempt ioctl (write_rdwr dev.address chunk s off) 0 dev.bus).ret ≠ 1 then
          .error ⟨"failed to write to i2c device",
            (attempt ioctl (write_rdwr dev.address chunk s off) 0 dev.bus).errno,
            (attempt ioctl (write_rdwr dev.address chunk s off) 0 dev.bus).ret⟩
         else .ok (),
         dev_after ioctl (write_rdwr dev.address chunk s off) 1 dev) := by
  have hz : s ≠ 0 := by omega
  have hm : ¬ s > max_ndef_buf_size := by simp only [max_ndef_buf_size]; omega
  have hn : (write_rdwr dev.address chunk s off).nmsgs = 1 := by
    simp only [write_rdwr]; omega
  simp only [write_ndef_at, hz, hm, if_false, submit_eq, hn]
  split <;> simp_all

theorem memset_length (buf : List Nat) (c n : Nat) : (memset buf c n).length = buf.length := by
  simp only [memset, List.length_append, List.length_replicate, List.length_drop]; omega

theorem memset_eq (buf : List Nat) (n : Nat) (h : n ≤ buf.length) :
    memset buf 0 n = List.replicate n 0 ++ buf.drop n := by
  simp [memset, Nat.min_eq_left h]

theorem read_back_length (len : Nat) (rdata : List Nat) : (read_back len rdata).length = len := by
  simp only [read_back, List.length_append, List.length_map, List.length_take,
    List.length_replicate]; omega

theorem store_read_memset (buf : List Nat) (len : Nat) (rdata : List Nat)
    (h : len ≤ buf.length) :
    store_read (memset buf 0 len) len rdata = read_back len rdata ++ buf.drop len := by
  have hl := memset_length buf 0 len
  unfold store_read
  rw [hl, Nat.min_eq_left h, memset_eq buf len h, List.drop_append_eq_append_drop,
    List.drop_replicate, List.length_replicate]
  have e : min len rdata.length - len = 0 := by omega
  have e2 : len - min len rdata.length = len - rdata.length := by omega
  rw [e, e2, List.drop_zero]
  simp only [read_back, List.append_assoc]

/-- A read of an aligned size of at most 160 bytes is one transfer; it fails
when the ioctl does not return 2, and it leaves in the read area what the
transfer delivered. -/
theorem read_into_eq {σ : Type} (ioctl : ioctl_fn σ) (dev : i2c_nfc_device σ)
    (buf : List Nat) (a : Nat) (h0 : a ≠ 0) (h4 : a % 4 = 0) (hm : a ≤ 160)
    (hb : a ≤ buf.length) :
    read_into ioctl dev buf a
      = (if (attempt ioctl (read_rdwr dev.address a) 0 dev.bus).ret ≠ 2 then
          .error ⟨"failed to read from i2c device",
            (attempt ioctl (read_rdwr dev.address a) 0 dev.bus).errno,
            (attempt ioctl (read_rdwr dev.address a) 0 dev.bus).ret⟩
         else .ok (),
         dev_after ioctl (read_rdwr dev.address a) 1 dev,
         read_back a (attempt ioctl (read_rdwr dev.address a) 0 dev.bus).rdata
           ++ buf.drop a) := by
  have h4n : ¬ a % 4 ≠ 0 := by omega
  have hmx : ¬ a > max_ndef_buf_size := by simp only [max_ndef_buf_size]; omega
  have ha : (16 : Nat) &&& 255 = 16 := by decide
  have hs : (16 : Nat) >>> 8 &&& 255 = 0 := by decide
  have ht : (memset buf 0 a).take a = List.replicate a 0 := by
    rw [memset_eq buf a hb, List.take_left' (List.length_replicate _ _)]
  simp only [read_into, read_ndef, h0, h4n, hmx, if_false, base_ndef_addr, ha, hs, ht,
    store_read_memset buf a _ hb, submit_eq, read_rdwr]
  split <;> simp_all


/-! ## Lemmas on the retry loops -/

theorem write_retries_ok {σ : Type} (ioctl : ioctl_fn σ) (chunk : List Nat) (s i max : Nat)
    (h1 : 1 ≤ s) (h4 : s ≤ 4) (k : Nat) :
    ∀ (fuel w : Nat) (dev : i2c_nfc_device σ), w + k ≤ max → k + 1 ≤ fuel →
      (∀ j, j < k →
        (attempt ioctl (write_rdwr dev.address chunk s (i % 65536)) j dev.bus).ret ≠ 1) →
      (attempt ioctl (write_rdwr dev.address chunk s (i % 65536)) k dev.bus).ret = 1 →
      write_retries ioctl chunk s i max fuel w dev
        = (.ok (), dev_after ioctl (write_rdwr dev.address chunk s (i % 65536)) (k + 1) dev) := by
  induction k with
  | zero =>
    intro fuel w dev hw hf _ hok
    obtain ⟨f, rfl⟩ : ∃ f, fuel = f + 1 := ⟨fuel - 1, by omega⟩
    have hwm : w ≤ max := by omega
    simp only [write_retries, hwm, if_true, write_ndef_at_chunk ioctl dev chunk s _ h1 h4, hok,
      ne_eq, not_true_eq_false, if_false]
  | succ k ih =>
    intro fuel w dev hw hf hfail hok
    obtain ⟨f, rfl⟩ : ∃ f, fuel = f + 1 := ⟨fuel - 1, by omega⟩
    have hwm : w ≤ max := by omega
    have hne : w ≠ max := by omega
    have h0 := hfail 0 (by omega)
    simp only [write_retries, hwm, if_true, write_ndef_at_chunk ioctl dev chunk s _ h1 h4, h0,
      ne_eq, not_false_eq_true, hne, if_false]
    have hi := ih f (w + 1) (dev_after ioctl (write_rdwr dev.address chunk s (i % 65536)) 1 dev)
      (by omega) (by omega)
      (by
        intro j hj
        have := hfail (j + 1) (by omega)
        simpa [attempt_succ] using this)
      (by simpa [attempt_succ] using hok)
    rw [hi]
    show (Except.ok (), dev_after ioctl (write_rdwr dev.address chunk s (i % 65536)) (k + 1)
      (dev_after ioctl (write_rdwr dev.address chunk s (i % 65536)) 1 dev)) = _
    rw [dev_after_add]

theorem write_retries_fail {σ : Type} (ioctl : ioctl_fn σ) (chunk : List Nat) (s i max : Nat)
    (h1 : 1 ≤ s) (h4 : s ≤ 4) (m : Nat) :
    ∀ (fuel w : Nat) (dev : i2c_nfc_device σ), w + m = max → m + 1 ≤ fuel →
      (∀ j, j ≤ m →
        (attempt ioctl (write_rdwr dev.address chunk s (i % 65536)) j dev.bus).ret ≠ 1) →
      write_retries ioctl chunk s i max fuel w dev
        = (.error ⟨"failed to write to i2c device",
              (attempt ioctl (write_rdwr dev.address chunk s (i % 65536)) m dev.bus).errno,
              (attempt ioctl (write_rdwr dev.address chunk s (i % 65536)) m dev.bus).ret⟩,
            dev_after ioctl (write_rdwr dev.address chunk s (i % 65536)) (m + 1) dev) := by
  induction m with
  | zero =>
    intro fuel w dev hw hf hfail
    obtain ⟨f, rfl⟩ : ∃ f, fuel = f + 1 := ⟨fuel - 1, by omega⟩
    have hwm : w ≤ max := by omega
    have hwe : w = max := by omega
    have h0 := hfail 0 (by omega)
    simp only [write_retries, hwm, if_true, write_ndef_at_chunk ioctl dev chunk s _ h1 h4, h0,
      ne_eq, not_false_eq_true, hwe]
    simp
  | succ m ih =>
    intro fuel w dev hw hf hfail
    obtain ⟨f, rfl⟩ : ∃ f, fuel = f + 1 := ⟨fuel - 1, by omega⟩
    have hwm : w ≤ max := by omega
    have hne : w ≠ max := by omega
    have h0 := hfail 0 (by omega)
    simp only [write_retries, hwm, if_true, write_ndef_at_chunk ioctl dev chunk s _ h1 h4, h0,
      ne_eq, not_false_eq_true, hne, if_false]
    have hi := ih f (w + 1) (dev_after ioctl (write_rdwr dev.address chunk s (i % 65536)) 1 dev)
      (by omega) (by omega)
      (by
        intro j hj
        have := hfail (j + 1) (by omega)
        simpa [attempt_succ] using this)
    rw [hi]
    show (Except.error (i2c_error.mk "failed to write to i2c device"
        (attempt ioctl (write_rdwr dev.address chunk s (i % 65536)) m
          (dev_after ioctl (write_rdwr dev.address chunk s (i % 65536)) 1 dev).bus).errno
        (attempt ioctl (write_rdwr dev.address chunk s (i % 65536)) m
          (dev_after ioctl (write_rdwr dev.address chunk s (i % 65536)) 1 dev).bus).ret),
      dev_after ioctl (write_rdwr dev.address chunk s (i % 65536)) (m + 1)
        (dev_after ioctl (write_rdwr dev.address chunk s (i % 65536)) 1 dev)) = _
    rw [dev_after_add, attempt_succ]


theorem read_retries_ok {σ : Type} (ioctl : ioctl_fn σ) (a max : Nat)
    (h0 : a ≠ 0) (h4 : a % 4 = 0) (hm : a ≤ 160) (k : Nat) :
    ∀ (fuel w : Nat) (dev : i2c_nfc_device σ) (rbuf : List Nat), a ≤ rbuf.length →
      w + k ≤ max → k + 1 ≤ fuel →
      (∀ j, j < k → (attempt ioctl (read_rdwr dev.address a) j dev.bus).ret ≠ 2) →
      (attempt ioctl (read_rdwr dev.address a) k dev.bus).ret = 2 →
      read_retries ioctl a max fuel w dev rbuf
        = (.ok (), dev_after ioctl (read_rdwr dev.address a) (k + 1) dev,
            read_back a (attempt ioctl (read_rdwr dev.address a) k dev.bus).rdata
              ++ rbuf.drop a) := by
  induction k with
  | zero =>
    intro fuel w dev rbuf hb hw hf _ hok
    obtain ⟨f, rfl⟩ : ∃ f, fuel = f + 1 := ⟨fuel - 1, by omega⟩
    have hwm : w ≤ max := by omega
    simp only [read_retries, hwm, if_true, read_into_eq ioctl dev rbuf a h0 h4 hm hb, hok,
      ne_eq, not_true_eq_false, if_false]
  | succ k ih =>
    intro fuel w dev rbuf hb hw hf hfail hok
    obtain ⟨f, rfl⟩ : ∃ f, fuel = f + 1 := ⟨fuel - 1, by omega⟩
    have hwm : w ≤ max := by omega
    have hne : w ≠ max := by omega
    have hf0 := hfail 0 (by omega)
    simp only [read_retries, hwm, if_true, read_into_eq ioctl dev rbuf a h0 h4 hm hb, hf0,
      ne_eq, not_false_eq_true, hne, if_false]
    have hlen : a ≤ (read_back a (attempt ioctl (read_rdwr dev.address a) 0 dev.bus).rdata
        ++ rbuf.drop a).length := by
      rw [List.length_append, read_back_length]; omega
    have hi := ih f (w + 1) (dev_after ioctl (read_rdwr dev.address a) 1 dev) _ hlen
      (by omega) (by omega)
      (by
        intro j hj
        have := hfail (j + 1) (by omega)
        simpa [attempt_succ] using this)
      (by simpa [attempt_succ] using hok)
    rw [hi]
    show (Except.ok (), dev_after ioctl (read_rdwr dev.address a) (k + 1)
        (dev_after ioctl (read_rdwr dev.address a) 1 dev),
      read_back a (attempt ioctl (read_rdwr dev.address a) k
          (dev_after ioctl (read_rdwr dev.address a) 1 dev).bus).rdata
        ++ List.drop a (read_back a (attempt ioctl (read_rdwr dev.address a) 0 dev.bus).rdata
          ++ rbuf.drop a)) = _
    rw [dev_after_add, attempt_succ, List.drop_left' (read_back_length _ _)]

theorem read_retries_fail {σ : Type} (ioctl : ioctl_fn σ) (a max : Nat)
    (h0 : a ≠ 0) (h4 : a % 4 = 0) (hm : a ≤ 160) (m : Nat) :
    ∀ (fuel w : Nat) (dev : i2c_nfc_device σ) (rbuf : List Nat), a ≤ rbuf.length →
      w + m = max → m + 1 ≤ fuel →
      (∀ j, j ≤ m → (attempt ioctl (read_rdwr dev.address a) j dev.bus).ret ≠ 2) →
      read_retries ioctl a max fuel w dev rbuf
        = (.error ⟨"failed to read from i2c device",
              (attempt ioctl (read_rdwr dev.address a) m dev.bus).errno,
              (attempt ioctl (read_rdwr dev.address a) m dev.bus).ret⟩,
            dev_after ioctl (read_rdwr dev.address a) (m + 1) dev,
            read_back a (attempt ioctl (read_rdwr dev.address a) m dev.bus).rdata
              ++ rbuf.drop a) := by
  induction m with
  | zero =>
    intro fuel w dev rbuf hb hw hf hfail
    obtain ⟨f, rfl⟩ : ∃ f, fuel = f + 1 := ⟨fuel - 1, by omega⟩
    have hwm : w ≤ max := by omega
    have hwe : w = max := by omega
    have hf0 := hfail 0 (by omega)
    simp only [read_retries, hwm, if_true, read_into_eq ioctl dev rbuf a h0 h4 hm hb, hf0,
      ne_eq, not_false_eq_true, hwe]
    simp
  | succ m ih =>
    intro fuel w dev rbuf hb hw hf hfail
    obtain ⟨f, rfl⟩ : ∃ f, fuel = f + 1 := ⟨fuel - 1, by omega⟩
    have hwm : w ≤ max := by omega
    have hne : w ≠ max := by omega
    have hf0 := hfail 0 (by omega)
    simp only [read_retries, hwm, if_true, read_into_eq ioctl dev rbuf a h0 h4 hm hb, hf0,
      ne_eq, not_false_eq_true, hne, if_false]
    have hlen : a ≤ (read_back a (attempt ioctl (read_rdwr dev.address a) 0 dev.bus).rdata
        ++ rbuf.drop a).length := by
      rw [List.length_append, read_back_length]; omega
    have hi := ih f (w + 1) (dev_after ioctl (read_rdwr dev.address a) 1 dev) _ hlen
      (by omega) (by omega)
      (by
        intro j hj
        have := hfail (j + 1) (by omega)
        simpa [attempt_succ] using this)
    rw [hi]
    show (Except.error (i2c_error.mk "failed to read from i2c device"
          (attempt ioctl (read_rdwr dev.address a) m
            (dev_after ioctl (read_rdwr dev.address a) 1 dev).bus).errno
          (attempt ioctl (read_rdwr dev.address a) m
            (dev_after ioctl (read_rdwr dev.address a) 1 dev).bus).ret),
        dev_after ioctl (read_rdwr dev.address a) (m + 1)
          (dev_after ioctl (read_rdwr dev.address a) 1 dev),
        read_back a (attempt ioctl (read_rdwr dev.address a) m
            (dev_after ioctl (read_rdwr dev.address a) 1 dev).bus).rdata
          ++ List.drop a (read_back a (attempt ioctl (read_rdwr dev.address a) 0 dev.bus).rdata
            ++ rbuf.drop a)) = _
    rw [dev_after_add, attempt_succ, List.drop_left' (read_back_length _ _)]

theorem aligned_read_size_eq (n : Nat) (h1 : 1 ≤ n) (h2 : n ≤ 160) :
    aligned_read_size n = 4 * ((n + 3) / 4) := by
  unfold aligned_read_size
  norm_num
  omega

theorem aligned_read_size_zero : aligned_read_size 0 = 0 := by
  unfold aligned_read_size
  norm_num


/-! ## The shape of the log of a run -/

theorem dev_after_log {σ : Type} (ioctl : ioctl_fn σ) (rdwr : i2c_rdwr_ioctl_data) (j : Nat)
    (dev : i2c_nfc_device σ) :
    (dev_after ioctl rdwr j dev).log = dev.log ++ List.replicate j rdwr := rfl

theorem dev_after_address {σ : Type} (ioctl : ioctl_fn σ) (rdwr : i2c_rdwr_ioctl_data) (j : Nat)
    (dev : i2c_nfc_device σ) : (dev_after ioctl rdwr j dev).address = dev.address := rfl

theorem write_rdwr_is_write (address : Nat) (buf : List Nat) (size off : Nat) :
    is_write_transfer (write_rdwr address buf size off) = true := by
  simp [is_write_transfer, write_rdwr, I2C_M_RD]

theorem read_rdwr_not_write (address len : Nat) :
    is_write_transfer (read_rdwr address len) = false := by
  simp [is_write_transfer, read_rdwr, I2C_M_RD]

/-- The write retry loop submits the same transfer some number of times, at
most once per iteration, and nothing else. -/
theorem write_retries_shape {σ : Type} (ioctl : ioctl_fn σ) (chunk : List Nat) (s i max : Nat)
    (h1 : 1 ≤ s) (h4 : s ≤ 4) :
    ∀ (fuel w : Nat) (dev : i2c_nfc_device σ), ∃ j, j ≤ fuel ∧
      (write_retries ioctl chunk s i max fuel w dev).2
        = dev_after ioctl (write_rdwr dev.address chunk s (i % 65536)) j dev := by
  intro fuel
  induction fuel with
  | zero => intro w dev; exact ⟨0, le_refl _, by simp [write_retries, dev_after_zero]⟩
  | succ f ih =>
    intro w dev
    by_cases hw : w ≤ max
    · simp only [write_retries, hw, if_true, write_ndef_at_chunk ioctl dev chunk s _ h1 h4]
      by_cases hr : (attempt ioctl (write_rdwr dev.address chunk s (i % 65536)) 0 dev.bus).ret = 1
      · exact ⟨1, by omega, by simp [hr]⟩
      · by_cases hwm : w = max
        · exact ⟨1, by omega, by simp [hr, hwm]⟩
        · obtain ⟨j, hj, hd⟩ := ih (w + 1)
            (dev_after ioctl (write_rdwr dev.address chunk s (i % 65536)) 1 dev)
          refine ⟨j + 1, by omega, ?_⟩
          simp only [hr, ne_eq, not_false_eq_true, if_true, hwm, if_false]
          rw [hd]
          exact dev_after_add ioctl _ j dev
    · exact ⟨0, by omega, by simp [write_retries, hw, dev_after_zero]⟩

/-- The chunk loop appends write transfers to the log, at most 6 per
iteration, and nothing else. -/
theorem write_chunks_shape {σ : Type} (ioctl : ioctl_fn σ) (wbuf : List Nat) (size : Nat) :
    ∀ (fuel i : Nat) (dev : i2c_nfc_device σ), ∃ ws,
      (write_chunks ioctl wbuf size fuel i dev).2.log = dev.log ++ ws ∧
      (write_chunks ioctl wbuf size fuel i dev).2.address = dev.address ∧
      (∀ t ∈ ws, is_write_transfer t = true) ∧ ws.length ≤ 6 * fuel := by
  intro fuel
  induction fuel with
  | zero => intro i dev; exact ⟨[], by simp [write_chunks]⟩
  | succ f ih =>
    intro i dev
    by_cases hi : i < size
    · obtain ⟨j, hj, hd⟩ := write_retries_shape ioctl (wbuf.drop i) (min 4 (size - i)) i 5
        (by omega) (by omega) 6 0 dev
      rcases hres : write_retries ioctl (wbuf.drop i) (min 4 (size - i)) i 5 6 0 dev with ⟨r, d⟩
      rw [hres] at hd
      simp only at hd
      subst hd
      cases r with
      | error e =>
        refine ⟨List.replicate j (write_rdwr dev.address (wbuf.drop i) (min 4 (size - i))
          (i % 65536)), ?_, ?_, ?_, ?_⟩
        · simp only [write_chunks, hi, if_true, hres, dev_after_log]
        · simp only [write_chunks, hi, if_true, hres, dev_after_address]
        · intro t ht
          rw [(List.mem_replicate.mp ht).2]
          exact write_rdwr_is_write _ _ _ _
        · rw [List.length_replicate]; omega
      | ok u =>
        obtain ⟨ws, h1, h2, h3, h4⟩ := ih (i + 4)
          (dev_after ioctl (write_rdwr dev.address (wbuf.drop i) (min 4 (size - i))
            (i % 65536)) j dev)
        refine ⟨List.replicate j (write_rdwr dev.address (wbuf.drop i) (min 4 (size - i))
          (i % 65536)) ++ ws, ?_, ?_, ?_, ?_⟩
        · simp only [write_chunks, hi, if_true, hres, h1, dev_after_log, List.append_assoc]
        · simp only [write_chunks, hi, if_true, hres, h2, dev_after_address]
        · intro t ht
          rcases List.mem_append.mp ht with ht | ht
          · rw [(List.mem_replicate.mp ht).2]
            exact write_rdwr_is_write _ _ _ _
          · exact h3 t ht
        · rw [List.length_append, List.length_replicate]; omega
    · exact ⟨[], by simp [write_chunks, hi]⟩

/-- The read retry loop submits the same read transfer some number of times,
at least once when it is entered, and leaves the buffer past the read area as
it was. -/
theorem read_retries_shape {σ : Type} (ioctl : ioctl_fn σ) (a max : Nat)
    (h0 : a ≠ 0) (h4 : a % 4 = 0) (hm : a ≤ 160) :
    ∀ (fuel w : Nat) (dev : i2c_nfc_device σ) (rbuf : List Nat), a ≤ rbuf.length →
      ∃ j, j ≤ fuel ∧
        (read_retries ioctl a max fuel w dev rbuf).2.1
          = dev_after ioctl (read_rdwr dev.address a) j dev ∧
        (read_retries ioctl a max fuel w dev rbuf).2.2.length = rbuf.length ∧
        (0 < fuel → w ≤ max → 1 ≤ j) := by
  intro fuel
  induction fuel with
  | zero =>
    intro w dev rbuf _
    exact ⟨0, le_refl _, by simp [read_retries, dev_after_zero], by simp [read_retries],
      fun h => absurd h (by omega)⟩
  | succ f ih =>
    intro w dev rbuf hb
    have hlen : (read_back a (attempt ioctl (read_rdwr dev.address a) 0 dev.bus).rdata
        ++ rbuf.drop a).length = rbuf.length := by
      rw [List.length_append, read_back_length, List.length_drop]; omega
    by_cases hw : w ≤ max
    · simp only [read_retries, hw, if_true, read_into_eq ioctl dev rbuf a h0 h4 hm hb]
      by_cases hr : (attempt ioctl (read_rdwr dev.address a) 0 dev.bus).ret = 2
      · exact ⟨1, by omega, by simp [hr], by simp [hr, hlen], fun _ _ => le_refl _⟩
      · by_cases hwm : w = max
        · exact ⟨1, by omega, by simp [hr, hwm], by simp [hr, hwm, hlen], fun _ _ => le_refl _⟩
        · obtain ⟨j, hj, hd, hl, _⟩ := ih (w + 1)
            (dev_after ioctl (read_rdwr dev.address a) 1 dev)
            (read_back a (attempt ioctl (read_rdwr dev.address a) 0 dev.bus).rdata
              ++ rbuf.drop a) (by rw [hlen]; exact hb)
          refine ⟨j + 1, by omega, ?_, ?_, fun _ _ => by omega⟩
          · simp only [hr, ne_eq, not_false_eq_true, if_true, hwm, if_false]
            rw [hd]
            exact dev_after_add ioctl _ j dev
          · simp only [hr, ne_eq, not_false_eq_true, if_true, hwm, if_false]
            rw [hl, hlen]
    · exact ⟨0, by omega, by simp [read_retries, hw, dev_after_zero],
        by simp [read_retries, hw], fun _ h => absurd h hw⟩


theorem aligned_read_size_facts (n : Nat) (h1 : 1 ≤ n) (h2 : n ≤ 160) :
    aligned_read_size n ≠ 0 ∧ aligned_read_size n % 4 = 0 ∧ aligned_read_size n ≤ 160 ∧
      n ≤ aligned_read_size n := by
  rw [aligned_read_size_eq n h1 h2]; omega

/-- The transfers of one write-verify cycle: write transfers, then the read
transfer of the aligned size some number of times, at least once when the
cycle comes to its comparison; the verdict compares the first `n` bytes. -/
theorem write_verify_cycle_shape {σ : Type} (ioctl : ioctl_fn σ) (wbuf rbuf : List Nat)
    (n : Nat) (dev : i2c_nfc_device σ) (h1 : 1 ≤ n) (h2 : n ≤ 160) (hr : 160 ≤ rbuf.length) :
    ∃ ws j,
      (write_verify_cycle ioctl wbuf n dev rbuf).2.1.log
        = dev.log ++ ws ++ List.replicate j (read_rdwr dev.address (aligned_read_size n)) ∧
      (write_verify_cycle ioctl wbuf n dev rbuf).2.1.address = dev.address ∧
      (∀ t ∈ ws, is_write_transfer t = true) ∧
      (write_verify_cycle ioctl wbuf n dev rbuf).2.2.length = rbuf.length ∧
      (∀ b, (write_verify_cycle ioctl wbuf n dev rbuf).1 = .ok b →
        1 ≤ j ∧ (b = true ↔
          wbuf.take n = (write_verify_cycle ioctl wbuf n dev rbuf).2.2.take n)) := by
  obtain ⟨ha0, ha4, ham, _⟩ := aligned_read_size_facts n h1 h2
  obtain ⟨ws, hw1, hw2, hw3, _⟩ := write_chunks_shape ioctl wbuf n n 0 dev
  rcases hres : write_chunks ioctl wbuf n n 0 dev with ⟨r, d⟩
  rw [hres] at hw1 hw2
  simp only at hw1 hw2
  cases r with
  | error e =>
    refine ⟨ws, 0, ?_, ?_, hw3, ?_, ?_⟩
    · simp only [write_verify_cycle, hres, hw1, List.replicate_zero, List.append_nil]
    · simp only [write_verify_cycle, hres, hw2]
    · simp only [write_verify_cycle, hres]
    · intro b hb
      simp [write_verify_cycle, hres] at hb
  | ok u =>
    have hml : aligned_read_size n ≤ (memset rbuf 0 n).length := by
      rw [memset_length]; omega
    obtain ⟨j, _, hd, hl, hj⟩ := read_retries_shape ioctl (aligned_read_size n) 20 ha0 ha4 ham
      21 0 d (memset rbuf 0 n) hml
    rcases hrr : read_retries ioctl (aligned_read_size n) 20 21 0 d (memset rbuf 0 n)
      with ⟨r2, d2, rb2⟩
    rw [hrr] at hd hl
    simp only at hd hl
    subst hd
    rw [memset_length] at hl
    refine ⟨ws, j, ?_, ?_, hw3, ?_, ?_⟩
    · cases r2 <;> simp only [write_verify_cycle, hres, hrr, dev_after_log, hw1, hw2]
    · cases r2 <;> simp only [write_verify_cycle, hres, hrr, dev_after_address, hw2]
    · cases r2 <;> simp only [write_verify_cycle, hres, hrr, hl]
    · intro b hb
      cases r2 with
      | error e => simp [write_verify_cycle, hres, hrr] at hb
      | ok u2 =>
        refine ⟨hj (by omega) (by omega), ?_⟩
        simp only [write_verify_cycle, hres, hrr, Except.ok.injEq] at hb ⊢
        rw [← hb]
        simp


/-- The retry loop only appends transfers to the log. -/
theorem retry_loop_shape {σ : Type} (ioctl : ioctl_fn σ) (wbuf : List Nat) (n : Nat)
    (h1 : 1 ≤ n) (h2 : n ≤ 160) :
    ∀ (fuel retries : Nat) (dev : i2c_nfc_device σ) (rbuf : List Nat), 160 ≤ rbuf.length →
      ∃ ts, (retry_loop ioctl wbuf n 5 fuel retries dev rbuf).2.1.log = dev.log ++ ts ∧
        (retry_loop ioctl wbuf n 5 fuel retries dev rbuf).2.1.address = dev.address := by
  intro fuel
  induction fuel with
  | zero => intro retries dev rbuf _; exact ⟨[], by simp [retry_loop]⟩
  | succ f ih =>
    intro retries dev rbuf hr
    by_cases hlt : retries < 5
    · obtain ⟨ws, j, hlog, haddr, _, hlen, _⟩ :=
        write_verify_cycle_shape ioctl wbuf rbuf n dev h1 h2 hr
      rcases hc : write_verify_cycle ioctl wbuf n dev rbuf with ⟨r, d, rb⟩
      rw [hc] at hlog haddr hlen
      simp only at hlog haddr hlen
      cases r with
      | error e =>
        refine ⟨ws ++ List.replicate j (read_rdwr dev.address (aligned_read_size n)), ?_, ?_⟩
        · simp only [retry_loop, hlt, if_true, hc, hlog, List.append_assoc]
        · simp only [retry_loop, hlt, if_true, hc, haddr]
      | ok b =>
        cases b with
        | true =>
          refine ⟨ws ++ List.replicate j (read_rdwr dev.address (aligned_read_size n)), ?_, ?_⟩
          · simp only [retry_loop, hlt, if_true, hc, hlog, List.append_assoc]
          · simp only [retry_loop, hlt, if_true, hc, haddr]
        | false =>
          obtain ⟨ts, h3, h4⟩ := ih (retries + 1) d rb (by rw [hlen]; exact hr)
          refine ⟨ws ++ List.replicate j (read_rdwr dev.address (aligned_read_size n)) ++ ts,
            ?_, ?_⟩
          · simp only [retry_loop, hlt, if_true, hc, h3, hlog, List.append_assoc]
          · simp only [retry_loop, hlt, if_true, hc, h4, haddr]
    · exact ⟨[], by simp [retry_loop, hlt]⟩

/-- A message of length 0 is "verified" at once: no chunk is written, the
read-back of 0 bytes is a no-op and the comparison of 0 bytes succeeds. -/
theorem apply_config_loop_zero {σ : Type} (ioctl : ioctl_fn σ) (wbuf rbuf : List Nat)
    (dev : i2c_nfc_device σ) :
    apply_config_loop ioctl wbuf 0 dev rbuf = ⟨.ok 0, dev⟩ := by
  have hm : memset rbuf 0 0 = rbuf := by simp [memset]
  have hc : write_verify_cycle ioctl wbuf 0 dev rbuf = (.ok true, dev, rbuf) := by
    simp [write_verify_cycle, write_chunks, hm, aligned_read_size_zero, read_retries,
      read_into, read_ndef]
  simp [apply_config_loop, retry_loop, hc]

/-- The write-verify part of a run only appends transfers to the log. -/
theorem apply_config_loop_log {σ : Type} (ioctl : ioctl_fn σ) (wbuf rbuf : List Nat) (n : Nat)
    (dev : i2c_nfc_device σ) (h2 : n ≤ 160) (hr : 160 ≤ rbuf.length) :
    ∃ ts, (apply_config_loop ioctl wbuf n dev rbuf).dev.log = dev.log ++ ts := by
  by_cases h1 : 1 ≤ n
  · obtain ⟨ts, hts, _⟩ := retry_loop_shape ioctl wbuf n h1 h2 5 0 dev rbuf hr
    rcases hl : retry_loop ioctl wbuf n 5 5 0 dev rbuf with ⟨r, d, rb⟩
    rw [hl] at hts
    simp only at hts
    refine ⟨ts, ?_⟩
    cases r with
    | error e => simp only [apply_config_loop, hl, hts]
    | ok k =>
      simp only [apply_config_loop, hl]
      split <;> exact hts
  · have h0 : n = 0 := by omega
    subst h0
    exact ⟨[], by simp [apply_config_loop_zero]⟩

theorem make_wsc_ndef_fst_le (ssid pass : List Nat) (crypt : wifi_crypt) (auth : wifi_auth)
    (buf : List Nat) (max_size : Nat) :
    (make_wsc_ndef ssid pass crypt auth buf max_size).1 ≤ max_size := by
  by_cases h : 69 + ssid.length + pass.length > max_size
  · rw [make_wsc_ndef_fail _ _ _ _ _ _ h]; exact Nat.zero_le _
  · rw [make_wsc_ndef_fst _ _ _ _ _ _ (by omega)]; omega

theorem build_and_write_log {σ : Type} (ioctl : ioctl_fn σ) (ssid pass : List Nat)
    (crypt : wifi_crypt) (auth : wifi_auth) (dev : i2c_nfc_device σ) (rbuf wbuf : List Nat)
    (hr : 160 ≤ rbuf.length) :
    ∃ ts, (build_and_write ioctl ssid pass crypt auth dev rbuf wbuf).dev.log = dev.log ++ ts :=
  apply_config_loop_log ioctl _ rbuf _ dev
    (make_wsc_ndef_fst_le ssid pass crypt auth wbuf 160) hr

/-- What `apply_config` does up to the backup, when the setup succeeds: the
read of the 160-byte NDEF area, then the two checks on the backup file. -/
theorem apply_config_setup_ok {σ : Type} (os : os_env) (ioctl : ioctl_fn σ) (bus : σ)
    (i2caddr : Int) (ssid pass : List Nat) (crypt : wifi_crypt) (auth : wifi_auth)
    (rbuf wbuf : List Nat) (hs : setup_ok os) (hr : 160 ≤ rbuf.length) :
    apply_config os ioctl bus i2caddr ssid pass crypt auth rbuf wbuf
      = if (ioctl bus (read_rdwr (i2caddr % 65536).toNat 160)).ret ≠ 2 then
          ⟨.error (.i2c ⟨"failed to read from i2c device",
              (ioctl bus (read_rdwr (i2caddr % 65536).toNat 160)).errno,
              (ioctl bus (read_rdwr (i2caddr % 65536).toNat 160)).ret⟩),
            dev_after ioctl (read_rdwr (i2caddr % 65536).toNat 160) 1
              (opened_device bus i2caddr)⟩
        else if os.backup_fd < 0 then
          if os.backup_errno ≠ EEXIST then
            ⟨.ok 11, dev_after ioctl (read_rdwr (i2caddr % 65536).toNat 160) 1
              (opened_device bus i2caddr)⟩
          else
            build_and_write ioctl ssid pass crypt auth
              (dev_after ioctl (read_rdwr (i2caddr % 65536).toNat 160) 1
                (opened_device bus i2caddr))
              (read_back 160 (ioctl bus (read_rdwr (i2caddr % 65536).toNat 160)).rdata
                ++ rbuf.drop 160) wbuf
        else if os.backup_written ≠ 160 then
          ⟨.ok 12, dev_after ioctl (read_rdwr (i2caddr % 65536).toNat 160) 1
            (opened_device bus i2caddr)⟩
        else
          build_and_write ioctl ssid pass crypt auth
            (dev_after ioctl (read_rdwr (i2caddr % 65536).toNat 160) 1
              (opened_device bus i2caddr))
            (read_back 160 (ioctl bus (read_rdwr (i2caddr % 65536).toNat 160)).rdata
              ++ rbuf.drop 160) wbuf := by
  obtain ⟨h1, h2, h3, h4⟩ := hs
  have e := read_into_eq ioctl (opened_device bus i2caddr) rbuf 160 (by decide) (by decide)
    (le_refl _) hr
  simp only [opened_device, attempt, bus_after] at e
  by_cases hret : (ioctl bus (read_rdwr (i2caddr % 65536).toNat 160)).ret = 2
  · simp only [hret, ne_eq, not_true_eq_false, if_false] at e
    simp only [apply_config, open_device, set_timeout, set_retries, set_device_address,
      not_lt.mpr h1, not_lt.mpr h2, not_lt.mpr h3, not_lt.mpr h4, if_false, max_ndef_buf_size, e,
      opened_device, hret, ne_eq, not_true_eq_false]
  · simp only [hret, ne_eq, not_false_eq_true, if_true] at e
    simp only [apply_config, open_device, set_timeout, set_retries, set_device_address,
      not_lt.mpr h1, not_lt.mpr h2, not_lt.mpr h3, not_lt.mpr h4, if_false, max_ndef_buf_size, e,
      opened_device, hret, ne_eq, not_false_eq_true, if_true]

/-- When the setup fails, the run ends with the exception of the failed step
and no transfer has been submitted. -/
theorem apply_config_setup_failed {σ : Type} (os : os_env) (ioctl : ioctl_fn σ) (bus : σ)
    (i2caddr : Int) (ssid pass : List Nat) (crypt : wifi_crypt) (auth : wifi_auth)
    (rbuf wbuf : List Nat) (hs : ¬ setup_ok os) :
    (∃ e, (apply_config os ioctl bus i2caddr ssid pass crypt auth rbuf wbuf).outcome
        = .error (.i2c e)) ∧
      (apply_config os ioctl bus i2caddr ssid pass crypt auth rbuf wbuf).dev.log = [] := by
  unfold setup_ok at hs
  by_cases h1 : os.bus_fd < 0
  · simp only [apply_config, open_device, h1, if_true]
    exact ⟨⟨_, rfl⟩, trivial⟩
  · by_cases h2 : os.timeout_ret < 0
    · simp only [apply_config, open_device, set_timeout, h1, h2, if_true, if_false]
      exact ⟨⟨_, rfl⟩, trivial⟩
    · by_cases h3 : os.retries_ret < 0
      · simp only [apply_config, open_device, set_timeout, set_retries, h1, h2, h3, if_true,
          if_false]
        exact ⟨⟨_, rfl⟩, trivial⟩
      · by_cases h4 : os.address_ret < 0
        · simp only [apply_config, open_device, set_timeout, set_retries, set_device_address,
            h1, h2, h3, h4, if_true, if_false]
          exact ⟨⟨_, rfl⟩, trivial⟩
        · exact absurd ⟨not_lt.mp h1, not_lt.mp h2, not_lt.mp h3, not_lt.mp h4⟩ hs

/-- When the encoder returns 0 after a successful setup, backup read and
backup, `apply_config` returns 0 and has submitted the backup read only. -/
theorem apply_config_encoder_zero {σ : Type} (os : os_env) (ioctl : ioctl_fn σ) (bus : σ)
    (i2caddr : Int) (ssid pass : List Nat) (crypt : wifi_crypt) (auth : wifi_auth)
    (rbuf wbuf : List Nat) (hsec : backup_secured os ioctl bus i2caddr)
    (hr : 160 ≤ rbuf.length)
    (hz : (make_wsc_ndef ssid pass crypt auth wbuf 160).1 = 0) :
    apply_config os ioctl bus i2caddr ssid pass crypt auth rbuf wbuf
      = ⟨.ok 0, dev_after ioctl (read_rdwr (i2caddr % 65536).toNat 160) 1
          (opened_device bus i2caddr)⟩ := by
  obtain ⟨hs, hret, hfile⟩ := hsec
  rw [apply_config_setup_ok os ioctl bus i2caddr ssid pass crypt auth rbuf wbuf hs hr]
  have hb : ∀ d rb, build_and_write ioctl ssid pass crypt auth d rb wbuf
      = (⟨.ok 0, d⟩ : run_result σ) := by
    intro d rb
    simp only [build_and_write, max_ndef_buf_size, hz, apply_config_loop_zero]
  simp only [hret, ne_eq, not_true_eq_false, if_false, hb]
  rcases hfile with ⟨h1, h2⟩ | ⟨h1, h2⟩
  · simp [h1, h2]
  · simp [not_lt.mpr h1, h2]

/-! ## The run: claims C16, C17, C19, C20 -/

/-- C16, as stated, fails: called with an SSID of 29 bytes and a passphrase of
63 bytes on an ideal bus, with every operating-system call succeeding, the
encoder returns 0 inside `apply_config`, and `apply_config` does not end with
a failure: it returns the success code 0, the backup read being its only
transfer. -/
theorem apply_config_encoder_failure_not_fatal :
    (make_wsc_ndef ssid_29 pass_63 wifi_crypt.wifi_crypt_aes
        wifi_auth.wifi_auth_wpa2_personal buf160 160).1 = 0 ∧
      (apply_config os_ok (ideal_ioctl []) () 0x57 ssid_29 pass_63
        wifi_crypt.wifi_crypt_aes wifi_auth.wifi_auth_wpa2_personal buf160 buf160).outcome
        = .ok 0 ∧
      (apply_config os_ok (ideal_ioctl []) () 0x57 ssid_29 pass_63
        wifi_crypt.wifi_crypt_aes wifi_auth.wifi_auth_wpa2_personal buf160 buf160).dev.log
        = [read_rdwr 0x57 160] := by
  have hz : (make_wsc_ndef ssid_29 pass_63 wifi_crypt.wifi_crypt_aes
      wifi_auth.wifi_auth_wpa2_personal buf160 160).1 = 0 := by decide
  rw [apply_config_encoder_zero os_ok (ideal_ioctl []) () 0x57 ssid_29 pass_63
    wifi_crypt.wifi_crypt_aes wifi_auth.wifi_auth_wpa2_personal buf160 buf160
    (by decide) (by decide) hz]
  exact ⟨hz, rfl, rfl⟩

/-- C17: no mutation before the backup is secured. In every run of
`apply_config`: if the setup or the read of the 160-byte NDEF area fails, or
the backup file cannot be created for a reason other than "already exists",
or the backup write is short, the run ends with a failure and its log holds
no write transfer; and whenever the log holds a write transfer, the backup is
secured and the first transfer of the log is the read of the 160-byte area. -/
theorem apply_config_backup_first {σ : Type} (os : os_env) (ioctl : ioctl_fn σ) (bus : σ)
    (i2caddr : Int) (ssid pass : List Nat) (crypt : wifi_crypt) (auth : wifi_auth)
    (rbuf wbuf : List Nat) (hr : rbuf.length = 160) :
    (¬ backup_secured os ioctl bus i2caddr →
        run_failed (apply_config os ioctl bus i2caddr ssid pass crypt auth rbuf wbuf) ∧
        write_transfers
          (apply_config os ioctl bus i2caddr ssid pass crypt auth rbuf wbuf).dev.log = []) ∧
      (write_transfers
          (apply_config os ioctl bus i2caddr ssid pass crypt auth rbuf wbuf).dev.log ≠ [] →
        backup_secured os ioctl bus i2caddr ∧
        ∃ rest, (apply_config os ioctl bus i2caddr ssid pass crypt auth rbuf wbuf).dev.log
          = read_rdwr (i2caddr % 65536).toNat 160 :: rest) := by
  have hlog1 : write_transfers (dev_after ioctl (read_rdwr (i2caddr % 65536).toNat 160) 1
      (opened_device bus i2caddr)).log = [] := by
    simp [write_transfers, dev_after_log, opened_device, read_rdwr_not_write]
  have hA : ¬ backup_secured os ioctl bus i2caddr →
      run_failed (apply_config os ioctl bus i2caddr ssid pass crypt auth rbuf wbuf) ∧
      write_transfers
        (apply_config os ioctl bus i2caddr ssid pass crypt auth rbuf wbuf).dev.log = [] := by
    intro hns
    by_cases hs : setup_ok os
    · rw [apply_config_setup_ok os ioctl bus i2caddr ssid pass crypt auth rbuf wbuf hs
        (by omega)]
      by_cases hret : (ioctl bus (read_rdwr (i2caddr % 65536).toNat 160)).ret = 2
      · have hfile : ¬ backup_file_ok os := fun hf => hns ⟨hs, hret, hf⟩
        unfold backup_file_ok at hfile
        simp only [hret, ne_eq, not_true_eq_false, if_false]
        by_cases hfd : os.backup_fd < 0
        · have he : os.backup_errno ≠ EEXIST := fun he => hfile (Or.inl ⟨hfd, he⟩)
          simp only [hfd, if_true, he, ne_eq, not_false_eq_true]
          exact ⟨by simp [run_failed], hlog1⟩
        · have hw : os.backup_written ≠ 160 :=
            fun hw => hfile (Or.inr ⟨not_lt.mp hfd, hw⟩)
          simp only [hfd, if_false, hw, ne_eq, not_false_eq_true, if_true]
          exact ⟨by simp [run_failed], hlog1⟩
      · simp only [hret, ne_eq, not_false_eq_true, if_true]
        exact ⟨by simp [run_failed], hlog1⟩
    · obtain ⟨⟨e, he⟩, hl⟩ :=
        apply_config_setup_failed os ioctl bus i2caddr ssid pass crypt auth rbuf wbuf hs
      exact ⟨by simp [run_failed, he], by simp [hl, write_transfers]⟩
  refine ⟨hA, fun hw => ?_⟩
  have hsec : backup_secured os ioctl bus i2caddr := by
    by_contra hns
    exact hw (hA hns).2
  refine ⟨hsec, ?_⟩
  obtain ⟨hs, hret, hfile⟩ := hsec
  rw [apply_config_setup_ok os ioctl bus i2caddr ssid pass crypt auth rbuf wbuf hs (by omega)]
  have hlen : 160 ≤ (read_back 160 (ioctl bus (read_rdwr (i2caddr % 65536).toNat 160)).rdata
      ++ rbuf.drop 160).length := by
    rw [List.length_append, read_back_length]; omega
  obtain ⟨ts, hts⟩ := build_and_write_log ioctl ssid pass crypt auth
    (dev_after ioctl (read_rdwr (i2caddr % 65536).toNat 160) 1 (opened_device bus i2caddr))
    _ wbuf hlen
  simp only [hret, ne_eq, not_true_eq_false, if_false]
  rcases hfile with ⟨h1, h2⟩ | ⟨h1, h2⟩
  · simp only [h1, if_true, h2, not_true_eq_false, if_false, hts]
    exact ⟨ts, by simp [dev_after_log, opened_device]⟩
  · simp only [not_lt.mpr h1, if_false, h2, not_true_eq_false, hts]
    exact ⟨ts, by simp [dev_after_log, opened_device]⟩

/-- Witness of C17: with a backup file that cannot be created (`errno` 13) the
run returns 11 and its log holds no write transfer; on an ideal bus with a
backup written completely, the log holds write transfers and starts with the
read of the 160-byte area. -/
theorem apply_config_backup_first_witness :
    (¬ backup_secured { os_ok with backup_fd := -1, backup_errno := 13 } (ideal_ioctl []) ()
          0x57 →
        run_failed (apply_config { os_ok with backup_fd := -1, backup_errno := 13 }
          (ideal_ioctl []) () 0x57 ssid_MyNet pass_password1 wifi_crypt.wifi_crypt_none
          wifi_auth.wifi_auth_open buf160 buf160) ∧
        write_transfers (apply_config { os_ok with backup_fd := -1, backup_errno := 13 }
          (ideal_ioctl []) () 0x57 ssid_MyNet pass_password1 wifi_crypt.wifi_crypt_none
          wifi_auth.wifi_auth_open buf160 buf160).dev.log = []) ∧
      (write_transfers (apply_config { os_ok with backup_fd := -1, backup_errno := 13 }
          (ideal_ioctl []) () 0x57 ssid_MyNet pass_password1 wifi_crypt.wifi_crypt_none
          wifi_auth.wifi_auth_open buf160 buf160).dev.log ≠ [] →
        backup_secured { os_ok with backup_fd := -1, backup_errno := 13 } (ideal_ioctl []) ()
          0x57 ∧
        ∃ rest, (apply_config { os_ok with backup_fd := -1, backup_errno := 13 }
          (ideal_ioctl []) () 0x57 ssid_MyNet pass_password1 wifi_crypt.wifi_crypt_none
          wifi_auth.wifi_auth_open buf160 buf160).dev.log = read_rdwr 0x57 160 :: rest) :=
  apply_config_backup_first { os_ok with backup_fd := -1, backup_errno := 13 }
    (ideal_ioctl []) () 0x57 ssid_MyNet pass_password1 wifi_crypt.wifi_crypt_none
    wifi_auth.wifi_auth_open buf160 buf160 (by decide)

/-- C19: a zero-length read is a no-op. `read_ndef` called with size 0
succeeds, submits no transfer (the device is as before the call) and returns
the output buffer, null or not, as it was. -/
theorem read_ndef_zero {σ : Type} (ioctl : ioctl_fn σ) (dev : i2c_nfc_device σ)
    (out_buf : Option (List Nat)) :
    read_ndef ioctl dev out_buf 0 = (.ok (), dev, out_buf) := by
  simp [read_ndef]

/-- C20, as stated, fails: "sae-mixed" and "wpa3-mixed" are accepted and
announced as WPA2, with the pairs (aes, wpa2_personal) and (aes,
wpa2_enterprise). -/
theorem select_encryption_mode_mixed_accepted :
    select_encryption_mode (str_bytes "sae-mixed") wifi_crypt.wifi_crypt_none
        wifi_auth.wifi_auth_open
      = (true, wifi_crypt.wifi_crypt_aes, wifi_auth.wifi_auth_wpa2_personal) ∧
    select_encryption_mode (str_bytes "wpa3-mixed") wifi_crypt.wifi_crypt_none
        wifi_auth.wifi_auth_open
      = (true, wifi_crypt.wifi_crypt_aes, wifi_auth.wifi_auth_wpa2_enterprise) := by
  decide

/-- C20, amended: for the mode names "sae", "wpa3" and "owe",
`select_encryption_mode` returns false and leaves `out_crypt` and `out_auth`
as they were (no pair of another mode is produced); the mixed modes
"sae-mixed" and "wpa3-mixed" are accepted and announced as WPA2, with the
pairs (aes, wpa2_personal) and (aes, wpa2_enterprise). -/
theorem select_encryption_mode_wpa3 (out_crypt : wifi_crypt) (out_auth : wifi_auth) :
    select_encryption_mode (str_bytes "sae") out_crypt out_auth
        = (false, out_crypt, out_auth) ∧
      select_encryption_mode (str_bytes "wpa3") out_crypt out_auth
        = (false, out_crypt, out_auth) ∧
      select_encryption_mode (str_bytes "owe") out_crypt out_auth
        = (false, out_crypt, out_auth) ∧
      select_encryption_mode (str_bytes "sae-mixed") out_crypt out_auth
        = (true, wifi_crypt.wifi_crypt_aes, wifi_auth.wifi_auth_wpa2_personal) ∧
      select_encryption_mode (str_bytes "wpa3-mixed") out_crypt out_auth
        = (true, wifi_crypt.wifi_crypt_aes, wifi_auth.wifi_auth_wpa2_enterprise) := by
  cases out_crypt <;> cases out_auth <;> decide


/-! ## Unfolding the loops of a run one step -/

theorem write_chunks_next {σ : Type} (ioctl : ioctl_fn σ) (wbuf : List Nat) (size fuel i : Nat)
    (dev d : i2c_nfc_device σ) (hi : i < size)
    (h : write_retries ioctl (wbuf.drop i) (min 4 (size - i)) i 5 6 0 dev = (.ok (), d)) :
    write_chunks ioctl wbuf size (fuel + 1) i dev = write_chunks ioctl wbuf size fuel (i + 4) d := by
  simp only [write_chunks, hi, if_true, h]

theorem write_chunks_abort {σ : Type} (ioctl : ioctl_fn σ) (wbuf : List Nat) (size fuel i : Nat)
    (dev d : i2c_nfc_device σ) (e : i2c_error) (hi : i < size)
    (h : write_retries ioctl (wbuf.drop i) (min 4 (size - i)) i 5 6 0 dev = (.error e, d)) :
    write_chunks ioctl wbuf size (fuel + 1) i dev = (.error e, d) := by
  simp only [write_chunks, hi, if_true, h]

theorem cycle_of_write_error {σ : Type} (ioctl : ioctl_fn σ) (wbuf rbuf : List Nat) (n : Nat)
    (dev d : i2c_nfc_device σ) (e : i2c_error)
    (h : write_chunks ioctl wbuf n n 0 dev = (.error e, d)) :
    write_verify_cycle ioctl wbuf n dev rbuf = (.error e, d, rbuf) := by
  simp only [write_verify_cycle, h]

theorem cycle_of_read_error {σ : Type} (ioctl : ioctl_fn σ) (wbuf rbuf rb2 : List Nat) (n : Nat)
    (dev d d2 : i2c_nfc_device σ) (e : i2c_error)
    (h : write_chunks ioctl wbuf n n 0 dev = (.ok (), d))
    (h2 : read_retries ioctl (aligned_read_size n) 20 21 0 d (memset rbuf 0 n)
      = (.error e, d2, rb2)) :
    write_verify_cycle ioctl wbuf n dev rbuf = (.error e, d2, rb2) := by
  simp only [write_verify_cycle, h, h2]

theorem cycle_of_read_ok {σ : Type} (ioctl : ioctl_fn σ) (wbuf rbuf rb2 : List Nat) (n : Nat)
    (dev d d2 : i2c_nfc_device σ)
    (h : write_chunks ioctl wbuf n n 0 dev = (.ok (), d))
    (h2 : read_retries ioctl (aligned_read_size n) 20 21 0 d (memset rbuf 0 n)
      = (.ok (), d2, rb2)) :
    write_verify_cycle ioctl wbuf n dev rbuf
      = (.ok (decide (wbuf.take n = rb2.take n)), d2, rb2) := by
  simp only [write_verify_cycle, h, h2]

theorem loop_of_cycle_error {σ : Type} (ioctl : ioctl_fn σ) (wbuf rbuf rb : List Nat)
    (n F retries : Nat) (dev d : i2c_nfc_device σ) (e : i2c_error) (hr : retries < 5)
    (h : write_verify_cycle ioctl wbuf n dev rbuf = (.error e, d, rb)) :
    retry_loop ioctl wbuf n 5 (F + 1) retries dev rbuf = (.error e, d, rb) := by
  simp only [retry_loop, hr, if_true, h]

theorem loop_of_cycle_match {σ : Type} (ioctl : ioctl_fn σ) (wbuf rbuf rb : List Nat)
    (n F retries : Nat) (dev d : i2c_nfc_device σ) (hr : retries < 5)
    (h : write_verify_cycle ioctl wbuf n dev rbuf = (.ok true, d, rb)) :
    retry_loop ioctl wbuf n 5 (F + 1) retries dev rbuf = (.ok retries, d, rb) := by
  simp only [retry_loop, hr, if_true, h]

theorem loop_of_cycle_mismatch {σ : Type} (ioctl : ioctl_fn σ) (wbuf rbuf rb : List Nat)
    (n F retries : Nat) (dev d : i2c_nfc_device σ) (hr : retries < 5)
    (h : write_verify_cycle ioctl wbuf n dev rbuf = (.ok false, d, rb)) :
    retry_loop ioctl wbuf n 5 (F + 1) retries dev rbuf
      = retry_loop ioctl wbuf n 5 F (retries + 1) d rb := by
  simp only [retry_loop, hr, if_true, h]

theorem apply_config_loop_of_error {σ : Type} (ioctl : ioctl_fn σ) (wbuf rbuf rb : List Nat)
    (n : Nat) (dev d : i2c_nfc_device σ) (e : i2c_error)
    (h : retry_loop ioctl wbuf n 5 5 0 dev rbuf = (.error e, d, rb)) :
    apply_config_loop ioctl wbuf n dev rbuf = ⟨.error (.i2c e), d⟩ := by
  simp only [apply_config_loop, h]

theorem chunk_size_bounds (size i : Nat) (hi : i < size) :
    1 ≤ min 4 (size - i) ∧ min 4 (size - i) ≤ 4 := by omega

/-- Six failed attempts of a chunk end the chunk loop with the error of the
last attempt. -/
theorem write_chunks_exhausted {σ : Type} (ioctl : ioctl_fn σ) (wbuf : List Nat)
    (size fuel i : Nat) (dev : i2c_nfc_device σ) (hi : i < size)
    (hfail : ∀ j, j ≤ 5 →
      (attempt ioctl (chunk_rdwr dev.address wbuf size i) j dev.bus).ret ≠ 1) :
    write_chunks ioctl wbuf size (fuel + 1) i dev
      = (.error ⟨"failed to write to i2c device",
            (attempt ioctl (chunk_rdwr dev.address wbuf size i) 5 dev.bus).errno,
            (attempt ioctl (chunk_rdwr dev.address wbuf size i) 5 dev.bus).ret⟩,
          dev_after ioctl (chunk_rdwr dev.address wbuf size i) 6 dev) := by
  obtain ⟨h1, h4⟩ := chunk_size_bounds size i hi
  exact write_chunks_abort ioctl wbuf size fuel i dev _ _ hi
    (write_retries_fail ioctl (wbuf.drop i) (min 4 (size - i)) i 5 h1 h4 5 6 0 dev (by omega)
      (by omega) hfail)

/-! ## The write-verify loop: claims C13, C14, C15 -/

/-- C13: per-chunk write retry budget. At the chunk at offset `i` of a cycle,
if the transport fails the first `k` write attempts of the chunk, `k <= 5`,
and the next attempt succeeds, the retry loop of the chunk ends without an
exception after `k + 1` submissions of one and the same transfer, and the
chunk loop goes on with the chunk at offset `i + 4`. -/
theorem chunk_write_retry_budget {σ : Type} (ioctl : ioctl_fn σ) (wbuf : List Nat)
    (size fuel i k : Nat) (dev : i2c_nfc_device σ) (hi : i < size) (hk : k ≤ 5)
    (hfail : ∀ j, j < k →
      (attempt ioctl (chunk_rdwr dev.address wbuf size i) j dev.bus).ret ≠ 1)
    (hok : (attempt ioctl (chunk_rdwr dev.address wbuf size i) k dev.bus).ret = 1) :
    write_retries ioctl (wbuf.drop i) (min 4 (size - i)) i 5 6 0 dev
        = (.ok (), dev_after ioctl (chunk_rdwr dev.address wbuf size i) (k + 1) dev) ∧
      (dev_after ioctl (chunk_rdwr dev.address wbuf size i) (k + 1) dev).log
        = dev.log ++ List.replicate (k + 1) (chunk_rdwr dev.address wbuf size i) ∧
      write_chunks ioctl wbuf size (fuel + 1) i dev
        = write_chunks ioctl wbuf size fuel (i + 4)
            (dev_after ioctl (chunk_rdwr dev.address wbuf size i) (k + 1) dev) := by
  obtain ⟨h1, h4⟩ := chunk_size_bounds size i hi
  have hw := write_retries_ok ioctl (wbuf.drop i) (min 4 (size - i)) i 5 h1 h4 k 6 0 dev
    (by omega) (by omega) hfail hok
  exact ⟨hw, rfl, write_chunks_next ioctl wbuf size fuel i dev _ hi hw⟩

/-- Witness of C13, the scenario k = 4: the first 4 write attempts of the
first chunk of the "MyNet" message fail, the 5th succeeds. -/
theorem chunk_write_retry_budget_witness :
    write_retries (flaky_ioctl 4 []) (wbuf_MyNet.drop 0) (min 4 (82 - 0)) 0 5 6 0
        counting_device
        = (.ok (), dev_after (flaky_ioctl 4 [])
            (chunk_rdwr counting_device.address wbuf_MyNet 82 0) (4 + 1) counting_device) ∧
      (dev_after (flaky_ioctl 4 []) (chunk_rdwr counting_device.address wbuf_MyNet 82 0)
          (4 + 1) counting_device).log
        = counting_device.log
            ++ List.replicate (4 + 1) (chunk_rdwr counting_device.address wbuf_MyNet 82 0) ∧
      write_chunks (flaky_ioctl 4 []) wbuf_MyNet 82 (81 + 1) 0 counting_device
        = write_chunks (flaky_ioctl 4 []) wbuf_MyNet 82 81 (0 + 4)
            (dev_after (flaky_ioctl 4 [])
              (chunk_rdwr counting_device.address wbuf_MyNet 82 0) (4 + 1) counting_device) :=
  chunk_write_retry_budget (flaky_ioctl 4 []) wbuf_MyNet 82 81 0 4 counting_device
    (by decide) (by decide) (by decide) (by decide)

/-- C14: no chunk is silently skipped. Let the run have come to cycle number
`retries` in the state `dev0`, `rbuf`, and this cycle to the chunk at offset
`i` in the state `dev`. If all six write attempts of this chunk fail (the
initial one and the 5 retries), `apply_config` ends with the `i2c_error` of
the last attempt, and its log is the log as it was before this chunk followed
by the six attempts: no write frame of a later chunk is submitted. -/
theorem chunk_write_exhaustion {σ : Type} (ioctl : ioctl_fn σ) (wbuf rbuf r0 : List Nat)
    (size fuel F i retries : Nat) (dev dev0 d0 : i2c_nfc_device σ)
    (hi : i < size) (hr : retries < 5)
    (hfail : ∀ j, j ≤ 5 →
      (attempt ioctl (chunk_rdwr dev.address wbuf size i) j dev.bus).ret ≠ 1)
    (hcycle : retry_loop ioctl wbuf size 5 5 0 d0 r0
      = retry_loop ioctl wbuf size 5 (F + 1) retries dev0 rbuf)
    (hchunk : write_chunks ioctl wbuf size size 0 dev0
      = write_chunks ioctl wbuf size (fuel + 1) i dev) :
    apply_config_loop ioctl wbuf size d0 r0
        = ⟨.error (.i2c ⟨"failed to write to i2c device",
              (attempt ioctl (chunk_rdwr dev.address wbuf size i) 5 dev.bus).errno,
              (attempt ioctl (chunk_rdwr dev.address wbuf size i) 5 dev.bus).ret⟩),
            dev_after ioctl (chunk_rdwr dev.address wbuf size i) 6 dev⟩ ∧
      (dev_after ioctl (chunk_rdwr dev.address wbuf size i) 6 dev).log
        = dev.log ++ List.replicate 6 (chunk_rdwr dev.address wbuf size i) := by
  refine ⟨?_, rfl⟩
  have h1 := write_chunks_exhausted ioctl wbuf size fuel i dev hi hfail
  rw [← hchunk] at h1
  have h2 := cycle_of_write_error ioctl wbuf rbuf size dev0 _ _ h1
  have h3 := loop_of_cycle_error ioctl wbuf rbuf rbuf size F retries dev0 _ _ hr h2
  rw [← hcycle] at h3
  exact apply_config_loop_of_error ioctl wbuf r0 rbuf size d0 _ _ h3

/-- Witness of C14: on a bus where every write transfer fails, the first
chunk of the "MyNet" message is attempted six times and the run ends. -/
theorem chunk_write_exhaustion_witness :
    apply_config_loop failing_writes wbuf_MyNet 82 fresh_device buf160
      = ⟨.error (.i2c ⟨"failed to write to i2c device",
            (attempt failing_writes (chunk_rdwr fresh_device.address wbuf_MyNet 82 0) 5
              fresh_device.bus).errno,
            (attempt failing_writes (chunk_rdwr fresh_device.address wbuf_MyNet 82 0) 5
              fresh_device.bus).ret⟩),
          dev_after failing_writes (chunk_rdwr fresh_device.address wbuf_MyNet 82 0) 6
            fresh_device⟩ :=
  (chunk_write_exhaustion failing_writes wbuf_MyNet buf160 buf160 82 81 4 0 0 fresh_device
    fresh_device fresh_device (by decide) (by decide) (by decide) rfl rfl).1


/-- C15, as stated, fails: on a bus where every write transfer fails,
`apply_config` for "MyNet" / "password1" ends with the transport error after
the backup read and the six attempts of the first chunk of the first
whole-message attempt; no second whole-message attempt is started. -/
theorem apply_config_no_retry_after_exhaustion :
    (apply_config os_ok failing_writes () 0x57 ssid_MyNet pass_password1
        wifi_crypt.wifi_crypt_none wifi_auth.wifi_auth_open buf160 buf160).outcome
      = .error (.i2c ⟨"failed to write to i2c device", 5, -1⟩) ∧
    (apply_config os_ok failing_writes () 0x57 ssid_MyNet pass_password1
        wifi_crypt.wifi_crypt_none wifi_auth.wifi_auth_open buf160 buf160).dev.log
      = read_rdwr 0x57 160 :: List.replicate 6 (chunk_rdwr 0x57 wbuf_MyNet 82 0) := by
  rw [apply_config_setup_ok os_ok failing_writes () 0x57 ssid_MyNet pass_password1
    wifi_crypt.wifi_crypt_none wifi_auth.wifi_auth_open buf160 buf160 (by decide) (by decide)]
  have hb : ∀ d rb, build_and_write failing_writes ssid_MyNet pass_password1
      wifi_crypt.wifi_crypt_none wifi_auth.wifi_auth_open d rb buf160
      = apply_config_loop failing_writes wbuf_MyNet 82 d rb := by
    intro d rb
    have h82 : (make_wsc_ndef ssid_MyNet pass_password1 wifi_crypt.wifi_crypt_none
        wifi_auth.wifi_auth_open buf160 160).1 = 82 := by decide
    simp only [build_and_write, max_ndef_buf_size, h82, wbuf_MyNet]
  have hx := write_chunks_exhausted failing_writes wbuf_MyNet 82 81 0
    (dev_after failing_writes (read_rdwr 0x57 160) 1 (opened_device () 0x57)) (by decide)
    (by decide)
  have hl := apply_config_loop_of_error failing_writes wbuf_MyNet
    (read_back 160 (failing_writes () (read_rdwr 0x57 160)).rdata ++ buf160.drop 160) _ 82 _ _ _
    (loop_of_cycle_error failing_writes wbuf_MyNet _ _ 82 4 0 _ _ _ (by decide)
      (cycle_of_write_error failing_writes wbuf_MyNet _ 82 _ _ _ hx))
  have ha : ((0x57 : Int) % 65536).toNat = 0x57 := by decide
  simp only [ha, hb]
  have hr : (failing_writes () (read_rdwr 0x57 160)).ret = 2 := by decide
  have hf : ¬ os_ok.backup_fd < 0 := by decide
  have hw : os_ok.backup_written = 160 := by decide
  simp only [hr, hf, hw, ne_eq, not_true_eq_false, if_false, hl]
  exact ⟨rfl, rfl⟩

/-- C15, amended: when the per-chunk write retries or the read-back retries
of a write-verify cycle are exhausted, i.e. the cycle ends with the transport
error, `apply_config` performs no whole-sequence retry: it ends at once with
that error and submits nothing more. The next whole-message attempt is
started (from the first chunk) only after a read-back mismatch. -/
theorem io_exhaustion_ends_run {σ : Type} (ioctl : ioctl_fn σ) (wbuf rbuf r0 : List Nat)
    (n F retries : Nat) (dev0 d0 : i2c_nfc_device σ) (hr : retries < 5)
    (hcycle : retry_loop ioctl wbuf n 5 5 0 d0 r0
      = retry_loop ioctl wbuf n 5 (F + 1) retries dev0 rbuf) :
    (∀ e d rb, write_verify_cycle ioctl wbuf n dev0 rbuf = (.error e, d, rb) →
        apply_config_loop ioctl wbuf n d0 r0 = ⟨.error (.i2c e), d⟩) ∧
      (∀ d rb, write_verify_cycle ioctl wbuf n dev0 rbuf = (.ok false, d, rb) →
        retry_loop ioctl wbuf n 5 (F + 1) retries dev0 rbuf
          = retry_loop ioctl wbuf n 5 F (retries + 1) d rb) := by
  refine ⟨fun e d rb h => ?_, fun d rb h => ?_⟩
  · have h3 := loop_of_cycle_error ioctl wbuf rbuf rb n F retries dev0 d e hr h
    rw [← hcycle] at h3
    exact apply_config_loop_of_error ioctl wbuf r0 rb n d0 d e h3
  · exact loop_of_cycle_mismatch ioctl wbuf rbuf rb n F retries dev0 d hr h

/-- Witness of the amended C15 at the first cycle of a run on a bus where
every write transfer fails. -/
theorem io_exhaustion_ends_run_witness :
    (∀ e d rb, write_verify_cycle failing_writes wbuf_MyNet 82 fresh_device buf160
          = (.error e, d, rb) →
        apply_config_loop failing_writes wbuf_MyNet 82 fresh_device buf160
          = ⟨.error (.i2c e), d⟩) ∧
      (∀ d rb, write_verify_cycle failing_writes wbuf_MyNet 82 fresh_device buf160
          = (.ok false, d, rb) →
        retry_loop failing_writes wbuf_MyNet 82 5 (4 + 1) 0 fresh_device buf160
          = retry_loop failing_writes wbuf_MyNet 82 5 4 (0 + 1) d rb) :=
  io_exhaustion_ends_run failing_writes wbuf_MyNet buf160 buf160 82 4 0 fresh_device
    fresh_device (by decide) rfl


/-! ## The Verifying phase: claims C11, C18 -/

theorem memset_drop (buf : List Nat) (n a : Nat) (hn : n ≤ a) (ha : n ≤ buf.length) :
    (memset buf 0 n).drop a = buf.drop a := by
  rw [memset_eq buf n ha, List.drop_append_eq_append_drop, List.length_replicate,
    List.drop_replicate, List.drop_drop]
  have e1 : n - a = 0 := by omega
  have e2 : n + (a - n) = a := by omega
  rw [e1, e2]
  rfl

theorem take_read_back (a n : Nat) (rdata rest : List Nat) (hn : n ≤ a) :
    (read_back a rdata ++ rest).take n = (read_back a rdata).take n := by
  rw [List.take_append_of_le_length (by rw [read_back_length]; exact hn)]

/-- C18: read-back retry budget. Let the run have come to cycle number
`retries` in the state `dev0`, `rbuf`, and let the Writing phase of this cycle
have succeeded, leaving the device `dev`. If the first `k` read attempts
fail, `k <= 20`, and the next one succeeds, the cycle comes to its comparison
after `k + 1` submissions of the read transfer and compares the message with
what that last read delivered. If all 21 read attempts fail, `apply_config`
ends with the `i2c_error` of the last attempt. -/
theorem read_back_retry_budget {σ : Type} (ioctl : ioctl_fn σ) (wbuf rbuf r0 : List Nat)
    (n F retries : Nat) (dev dev0 d0 : i2c_nfc_device σ)
    (hn : 1 ≤ n ∧ n ≤ 160) (hb : rbuf.length = 160) (hr : retries < 5)
    (hcycle : retry_loop ioctl wbuf n 5 5 0 d0 r0
      = retry_loop ioctl wbuf n 5 (F + 1) retries dev0 rbuf)
    (hwritten : write_chunks ioctl wbuf n n 0 dev0 = (.ok (), dev)) :
    (∀ k, k ≤ 20 →
        (∀ j, j < k →
          (attempt ioctl (read_rdwr dev.address (4 * ((n + 3) / 4))) j dev.bus).ret ≠ 2) →
        (attempt ioctl (read_rdwr dev.address (4 * ((n + 3) / 4))) k dev.bus).ret = 2 →
        write_verify_cycle ioctl wbuf n dev0 rbuf
          = (.ok (decide (wbuf.take n = (read_back (4 * ((n + 3) / 4))
                (attempt ioctl (read_rdwr dev.address (4 * ((n + 3) / 4))) k
                  dev.bus).rdata).take n)),
              dev_after ioctl (read_rdwr dev.address (4 * ((n + 3) / 4))) (k + 1) dev,
              read_back (4 * ((n + 3) / 4))
                  (attempt ioctl (read_rdwr dev.address (4 * ((n + 3) / 4))) k dev.bus).rdata
                ++ rbuf.drop (4 * ((n + 3) / 4)))) ∧
      ((∀ j, j ≤ 20 →
          (attempt ioctl (read_rdwr dev.address (4 * ((n + 3) / 4))) j dev.bus).ret ≠ 2) →
        apply_config_loop ioctl wbuf n d0 r0
          = ⟨.error (.i2c ⟨"failed to read from i2c device",
                (attempt ioctl (read_rdwr dev.address (4 * ((n + 3) / 4))) 20 dev.bus).errno,
                (attempt ioctl (read_rdwr dev.address (4 * ((n + 3) / 4))) 20 dev.bus).ret⟩),
              dev_after ioctl (read_rdwr dev.address (4 * ((n + 3) / 4))) 21 dev⟩) := by
  obtain ⟨ha0, ha4, ham, hna⟩ := aligned_read_size_facts n hn.1 hn.2
  have hml : aligned_read_size n ≤ (memset rbuf 0 n).length := by
    rw [memset_length]; omega
  have hdrop := memset_drop rbuf n (aligned_read_size n) hna (by omega)
  have hae := aligned_read_size_eq n hn.1 hn.2
  refine ⟨fun k hk hfail hok => ?_, fun hfail => ?_⟩
  · rw [← hae] at hfail hok ⊢
    have h2 := read_retries_ok ioctl (aligned_read_size n) 20 ha0 ha4 ham k 21 0 dev
      (memset rbuf 0 n) hml (by omega) (by omega) hfail hok
    rw [hdrop] at h2
    rw [cycle_of_read_ok ioctl wbuf rbuf _ n dev0 dev _ hwritten h2, take_read_back _ _ _ _ hna]
  · rw [← hae] at hfail ⊢
    have h2 := read_retries_fail ioctl (aligned_read_size n) 20 ha0 ha4 ham 20 21 0 dev
      (memset rbuf 0 n) hml (by omega) (by omega) hfail
    have h3 := loop_of_cycle_error ioctl wbuf rbuf _ n F retries dev0 _ _ hr
      (cycle_of_read_error ioctl wbuf rbuf _ n dev0 dev _ _ hwritten h2)
    rw [← hcycle] at h3
    exact apply_config_loop_of_error ioctl wbuf r0 _ n d0 _ _ h3

/-- Witness of C18: a 4-byte message on a bus whose first 3 reads fail and
whose 4th read delivers the message: the cycle is judged a match after 4
submissions of the read transfer. -/
theorem read_back_retry_budget_witness :
    write_verify_cycle (flaky_reads 3 [0x03, 0x01, 0x02, 0xFE]) wbuf_4 4 counting_device buf160
      = (.ok (decide (wbuf_4.take 4 = (read_back (4 * ((4 + 3) / 4))
            (attempt (flaky_reads 3 [0x03, 0x01, 0x02, 0xFE])
              (read_rdwr 0x57 (4 * ((4 + 3) / 4))) 3 0).rdata).take 4)),
          dev_after (flaky_reads 3 [0x03, 0x01, 0x02, 0xFE])
            (read_rdwr 0x57 (4 * ((4 + 3) / 4))) (3 + 1)
            (dev_after (flaky_reads 3 [0x03, 0x01, 0x02, 0xFE])
              (chunk_rdwr 0x57 wbuf_4 4 0) 1 counting_device),
          read_back (4 * ((4 + 3) / 4))
              (attempt (flaky_reads 3 [0x03, 0x01, 0x02, 0xFE])
                (read_rdwr 0x57 (4 * ((4 + 3) / 4))) 3 0).rdata
            ++ buf160.drop (4 * ((4 + 3) / 4))) :=
  (read_back_retry_budget (flaky_reads 3 [0x03, 0x01, 0x02, 0xFE]) wbuf_4 buf160 buf160 4 4 0
    (dev_after (flaky_reads 3 [0x03, 0x01, 0x02, 0xFE]) (chunk_rdwr 0x57 wbuf_4 4 0) 1
      counting_device)
    counting_device counting_device (by decide) (by decide) (by decide) rfl
    rfl).1 3 (by decide) (by decide) (by decide)


/-! ## Runs on a bus where no transfer fails: claim C12 -/

theorem run_transfers_log {σ : Type} (ioctl : ioctl_fn σ) (ts : List i2c_rdwr_ioctl_data) :
    ∀ dev : i2c_nfc_device σ, (run_transfers ioctl ts dev).log = dev.log ++ ts := by
  induction ts with
  | nil => intro dev; simp [run_transfers]
  | cons t ts ih =>
    intro dev
    have h := ih (submit ioctl dev t).2
    simp only [run_transfers, List.foldl_cons] at h ⊢
    rw [h]
    simp [submit]

theorem run_transfers_address {σ : Type} (ioctl : ioctl_fn σ) (ts : List i2c_rdwr_ioctl_data) :
    ∀ dev : i2c_nfc_device σ, (run_transfers ioctl ts dev).address = dev.address := by
  induction ts with
  | nil => intro dev; simp [run_transfers]
  | cons t ts ih =>
    intro dev
    have h := ih (submit ioctl dev t).2
    simp only [run_transfers, List.foldl_cons] at h ⊢
    rw [h]
    simp [submit]

theorem run_transfers_append {σ : Type} (ioctl : ioctl_fn σ) (ts us : List i2c_rdwr_ioctl_data)
    (dev : i2c_nfc_device σ) :
    run_transfers ioctl (ts ++ us) dev = run_transfers ioctl us (run_transfers ioctl ts dev) := by
  simp [run_transfers, List.foldl_append]

theorem run_transfers_cons {σ : Type} (ioctl : ioctl_fn σ) (t : i2c_rdwr_ioctl_data)
    (ts : List i2c_rdwr_ioctl_data) (dev : i2c_nfc_device σ) :
    run_transfers ioctl (t :: ts) dev = run_transfers ioctl ts (dev_after ioctl t 1 dev) := by
  simp [run_transfers, submit_eq]

theorem chunk_rdwr_nmsgs (address : Nat) (wbuf : List Nat) (size i : Nat) :
    (chunk_rdwr address wbuf size i).nmsgs = 1 := by
  simp only [chunk_rdwr, write_rdwr]; omega

/-- On a bus where no transfer fails the chunk loop submits each remaining
chunk once. -/
theorem write_chunks_all_ok {σ : Type} (ioctl : ioctl_fn σ) (wbuf : List Nat) (n : Nat)
    (hall : ∀ b t, (ioctl b t).ret = (t.nmsgs : Int)) :
    ∀ (fuel c : Nat) (dev : i2c_nfc_device σ), n ≤ 4 * c + 4 * fuel →
      write_chunks ioctl wbuf n fuel (4 * c) dev
        = (.ok (), run_transfers ioctl
            ((List.range' c ((n + 3) / 4 - c)).map
              (fun k => chunk_rdwr dev.address wbuf n (4 * k))) dev) := by
  intro fuel
  induction fuel with
  | zero =>
    intro c dev h
    have e : (n + 3) / 4 - c = 0 := by omega
    simp [write_chunks, e, run_transfers]
  | succ f ih =>
    intro c dev h
    by_cases hi : 4 * c < n
    · obtain ⟨h1, h4⟩ := chunk_size_bounds n (4 * c) hi
      have hok : (attempt ioctl (write_rdwr dev.address (wbuf.drop (4 * c))
          (min 4 (n - 4 * c)) (4 * c % 65536)) 0 dev.bus).ret = 1 := by
        have := chunk_rdwr_nmsgs dev.address wbuf n (4 * c)
        simp only [chunk_rdwr] at this
        simp [attempt, bus_after, hall, this]
      have hw := write_retries_ok ioctl (wbuf.drop (4 * c)) (min 4 (n - 4 * c)) (4 * c) 5
        h1 h4 0 6 0 dev (by omega) (by omega) (fun j hj => absurd hj (by omega)) hok
      rw [write_chunks_next ioctl wbuf n f (4 * c) dev _ hi hw]
      have e4 : 4 * c + 4 = 4 * (c + 1) := by omega
      rw [e4, ih (c + 1) _ (by omega)]
      have em : (n + 3) / 4 - c = ((n + 3) / 4 - (c + 1)) + 1 := by omega
      rw [em, List.range'_succ, List.map_cons, run_transfers_cons]
      rfl
    · have e : (n + 3) / 4 - c = 0 := by omega
      simp [write_chunks, hi, e, run_transfers]

/-- On a bus where no transfer fails and the read-back never matches, a
cycle submits its chunks and one read, and is judged a mismatch. -/
theorem cycle_all_ok_mismatch {σ : Type} (ioctl : ioctl_fn σ) (wbuf rbuf : List Nat) (n : Nat)
    (dev : i2c_nfc_device σ) (h1 : 1 ≤ n) (h2 : n ≤ 160) (hr : 160 ≤ rbuf.length)
    (hall : ∀ b t, (ioctl b t).ret = (t.nmsgs : Int))
    (hmis : ∀ b, (read_back (4 * ((n + 3) / 4))
        (ioctl b (read_rdwr dev.address (4 * ((n + 3) / 4)))).rdata).take n ≠ wbuf.take n) :
    ∃ rb, 160 ≤ rb.length ∧
      write_verify_cycle ioctl wbuf n dev rbuf
        = (.ok false, run_transfers ioctl (cycle_transfers dev.address wbuf n) dev, rb) := by
  obtain ⟨ha0, ha4, ham, hna⟩ := aligned_read_size_facts n h1 h2
  have hae := aligned_read_size_eq n h1 h2
  have hw := write_chunks_all_ok ioctl wbuf n hall n 0 dev (by omega)
  simp only [Nat.mul_zero, Nat.sub_zero, ← List.range_eq_range'] at hw
  have hw' : write_chunks ioctl wbuf n n 0 dev
      = (.ok (), run_transfers ioctl (chunk_transfers dev.address wbuf n) dev) := hw
  have hml : aligned_read_size n ≤ (memset rbuf 0 n).length := by
    rw [memset_length]; omega
  have hok : (attempt ioctl (read_rdwr
      (run_transfers ioctl (chunk_transfers dev.address wbuf n) dev).address
      (aligned_read_size n)) 0
      (run_transfers ioctl (chunk_transfers dev.address wbuf n) dev).bus).ret = 2 := by
    simp [attempt, bus_after, hall, read_rdwr]
  have hrd := read_retries_ok ioctl (aligned_read_size n) 20 ha0 ha4 ham 0 21 0
    (run_transfers ioctl (chunk_transfers dev.address wbuf n) dev) (memset rbuf 0 n) hml
    (by omega) (by omega) (fun j hj => absurd hj (by omega)) hok
  rw [run_transfers_address] at hrd
  have hc := cycle_of_read_ok ioctl wbuf rbuf _ n dev _ _ hw' hrd
  rw [take_read_back _ _ _ _ hna, hae] at hc
  have hne : ¬ wbuf.take n = (read_back (4 * ((n + 3) / 4))
      (attempt ioctl (read_rdwr dev.address (4 * ((n + 3) / 4))) 0
        (run_transfers ioctl (chunk_transfers dev.address wbuf n) dev).bus).rdata).take n :=
    fun h => hmis _ h.symm
  rw [decide_eq_false hne] at hc
  refine ⟨read_back (4 * ((n + 3) / 4))
      (attempt ioctl (read_rdwr dev.address (4 * ((n + 3) / 4))) 0
        (run_transfers ioctl (chunk_transfers dev.address wbuf n) dev).bus).rdata
    ++ List.drop (4 * ((n + 3) / 4)) (memset rbuf 0 n), ?_, ?_⟩
  · rw [List.length_append, read_back_length, List.length_drop, memset_length]; omega
  · rw [hc]
    simp only [cycle_transfers, run_transfers_append, run_transfers_cons]
    rfl


/-- On a bus where no transfer fails and the read-back never matches, the
retry loop runs every remaining cycle and leaves with `retries = 5`. -/
theorem retry_loop_all_mismatch {σ : Type} (ioctl : ioctl_fn σ) (wbuf : List Nat)
    (n address : Nat) (h1 : 1 ≤ n) (h2 : n ≤ 160)
    (hall : ∀ b t, (ioctl b t).ret = (t.nmsgs : Int))
    (hmis : ∀ b, (read_back (4 * ((n + 3) / 4))
        (ioctl b (read_rdwr address (4 * ((n + 3) / 4)))).rdata).take n ≠ wbuf.take n) :
    ∀ (fuel retries : Nat) (dev : i2c_nfc_device σ) (rbuf : List Nat),
      retries + fuel = 5 → 160 ≤ rbuf.length → dev.address = address →
      ∃ rb, retry_loop ioctl wbuf n 5 fuel retries dev rbuf
        = (.ok 5, run_transfers ioctl
            (List.replicate fuel (cycle_transfers address wbuf n)).flatten dev, rb) := by
  intro fuel
  induction fuel with
  | zero =>
    intro retries dev rbuf h _ _
    have e : retries = 5 := by omega
    exact ⟨rbuf, by simp [retry_loop, e, run_transfers]⟩
  | succ f ih =>
    intro retries dev rbuf h hr ha
    have hlt : retries < 5 := by omega
    obtain ⟨rb, hrb, hc⟩ := cycle_all_ok_mismatch ioctl wbuf rbuf n dev h1 h2 hr hall
      (by rw [ha]; exact hmis)
    rw [ha] at hc
    obtain ⟨rb2, hl⟩ := ih (retries + 1)
      (run_transfers ioctl (cycle_transfers address wbuf n) dev) rb (by omega) hrb
      (by rw [run_transfers_address]; exact ha)
    refine ⟨rb2, ?_⟩
    rw [loop_of_cycle_mismatch ioctl wbuf rbuf rb n f retries dev _ hlt hc, hl,
      List.replicate_succ, List.flatten_cons, run_transfers_append]

/-- C12: verification exhaustion. On every transport on which all transfers
succeed but the read-back never matches the written message, a run of
`apply_config` whose setup, backup and encoding succeed ends, after the backup
read and exactly 5 whole write-verify cycles (each one the chunk writes and
one read-back), with the thrown message "failed to write new NDEF data": not
the success code 0 and not an `i2c_error`. -/
theorem verification_exhaustion {σ : Type} (os : os_env) (ioctl : ioctl_fn σ) (bus : σ)
    (i2caddr : Int) (ssid pass : List Nat) (crypt : wifi_crypt) (auth : wifi_auth)
    (rbuf wbuf : List Nat) (hs : setup_ok os) (hf : backup_file_ok os)
    (hr : rbuf.length = 160) (hfit : 69 + ssid.length + pass.length ≤ 160)
    (hall : ∀ b t, (ioctl b t).ret = (t.nmsgs : Int))
    (hmis : ∀ b, (read_back (4 * ((68 + ssid.length + pass.length + 3) / 4))
        (ioctl b (read_rdwr (i2caddr % 65536).toNat
          (4 * ((68 + ssid.length + pass.length + 3) / 4)))).rdata).take
          (68 + ssid.length + pass.length)
        ≠ (make_wsc_ndef ssid pass crypt auth wbuf 160).2.take
          (68 + ssid.length + pass.length)) :
    (apply_config os ioctl bus i2caddr ssid pass crypt auth rbuf wbuf).outcome
        = .error (.text "failed to write new NDEF data") ∧
      (apply_config os ioctl bus i2caddr ssid pass crypt auth rbuf wbuf).dev.log
        = read_rdwr (i2caddr % 65536).toNat 160 ::
          (List.replicate 5 (cycle_transfers (i2caddr % 65536).toNat
            (make_wsc_ndef ssid pass crypt auth wbuf 160).2
            (68 + ssid.length + pass.length))).flatten ∧
      (apply_config os ioctl bus i2caddr ssid pass crypt auth rbuf wbuf).outcome ≠ .ok 0 ∧
      ∀ e, (apply_config os ioctl bus i2caddr ssid pass crypt auth rbuf wbuf).outcome
        ≠ .error (.i2c e) := by
  have hn := make_wsc_ndef_fst ssid pass crypt auth wbuf 160 hfit
  have hret : (ioctl bus (read_rdwr (i2caddr % 65536).toNat 160)).ret = 2 := by
    rw [hall]; rfl
  have hlen : 160 ≤ (read_back 160 (ioctl bus (read_rdwr (i2caddr % 65536).toNat 160)).rdata
      ++ rbuf.drop 160).length := by
    rw [List.length_append, read_back_length]; omega
  obtain ⟨rb, hl⟩ := retry_loop_all_mismatch ioctl
    (make_wsc_ndef ssid pass crypt auth wbuf 160).2 (68 + ssid.length + pass.length)
    (i2caddr % 65536).toNat (by omega) (by omega) hall hmis 5 0
    (dev_after ioctl (read_rdwr (i2caddr % 65536).toNat 160) 1 (opened_device bus i2caddr))
    _ rfl hlen rfl
  have hb : build_and_write ioctl ssid pass crypt auth
      (dev_after ioctl (read_rdwr (i2caddr % 65536).toNat 160) 1 (opened_device bus i2caddr))
      (read_back 160 (ioctl bus (read_rdwr (i2caddr % 65536).toNat 160)).rdata
        ++ rbuf.drop 160) wbuf
      = ⟨.error (.text "failed to write new NDEF data"),
          run_transfers ioctl (List.replicate 5 (cycle_transfers (i2caddr % 65536).toNat
            (make_wsc_ndef ssid pass crypt auth wbuf 160).2
            (68 + ssid.length + pass.length))).flatten
            (dev_after ioctl (read_rdwr (i2caddr % 65536).toNat 160) 1
              (opened_device bus i2caddr))⟩ := by
    simp only [build_and_write, max_ndef_buf_size, hn, apply_config_loop, hl, if_true]
  have hmain : apply_config os ioctl bus i2caddr ssid pass crypt auth rbuf wbuf
      = ⟨.error (.text "failed to write new NDEF data"),
          run_transfers ioctl (List.replicate 5 (cycle_transfers (i2caddr % 65536).toNat
            (make_wsc_ndef ssid pass crypt auth wbuf 160).2
            (68 + ssid.length + pass.length))).flatten
            (dev_after ioctl (read_rdwr (i2caddr % 65536).toNat 160) 1
              (opened_device bus i2caddr))⟩ := by
    rw [apply_config_setup_ok os ioctl bus i2caddr ssid pass crypt auth rbuf wbuf hs
      (by omega)]
    simp only [hret, ne_eq, not_true_eq_false, if_false, hb]
    rcases hf with ⟨h1, h2⟩ | ⟨h1, h2⟩
    · simp only [h1, if_true, h2, not_true_eq_false, if_false]
    · simp only [not_lt.mpr h1, if_false, h2, not_true_eq_false]
  rw [hmain]
  refine ⟨rfl, ?_, by simp, fun e => by simp⟩
  simp only [run_transfers_log, dev_after_log, opened_device, List.nil_append,
    List.replicate_one, List.singleton_append]

/-- Witness of C12: "MyNet" / "password1" on an ideal bus whose reads deliver
nothing (the read area stays zero, the message starts with 0x03). -/
theorem verification_exhaustion_witness :
    (apply_config os_ok (ideal_ioctl []) () 0x57 ssid_MyNet pass_password1
        wifi_crypt.wifi_crypt_none wifi_auth.wifi_auth_open buf160 buf160).outcome
      = .error (.text "failed to write new NDEF data") :=
  (verification_exhaustion os_ok (ideal_ioctl []) () 0x57 ssid_MyNet pass_password1
    wifi_crypt.wifi_crypt_none wifi_auth.wifi_auth_open buf160 buf160 (by decide) (by decide)
    (by decide) (by decide) (fun _ _ => rfl) (by intro b; cases b; decide)).1

/-! ## The command line: claims C21, C22, C23 -/

theorem ite_fst_iff {α : Type} {p : Prop} [Decidable p] (x y : Bool × α) (q : Prop)
    (h1 : p → (x.1 = true ↔ q)) (h2 : ¬ p → (y.1 = true ↔ q)) :
    ((if p then x else y).1 = true ↔ q) := by
  by_cases h : p
  · rw [if_pos h]; exact h1 h
  · rw [if_neg h]; exact h2 h

theorem select_encryption_mode_fst (mode : List Nat) (out_crypt : wifi_crypt)
    (out_auth : wifi_auth) :
    (select_encryption_mode mode out_crypt out_auth).1 = true ↔ mode ∈ print_usage_modes := by
  unfold select_encryption_mode
  repeat' (refine ite_fst_iff _ _ _ (fun h => ?_) (fun h => ?_))
  all_goals first
    | (subst h; exact ⟨fun _ => by decide, fun _ => rfl⟩)
    | (subst h; exact ⟨fun h => absurd h (by simp), fun h => absurd h (by decide)⟩)
    | (refine ⟨fun h => absurd h (by simp), fun hm => ?_⟩
       exfalso
       revert hm
       simp only [print_usage_modes, List.mem_cons, List.not_mem_nil, *, or_self,
         not_false_eq_true, imp_self])

theorem ite_rejected {α : Type} {p : Prop} [Decidable p] (x y z : Bool × α)
    (h1 : p → x.1 = false → x = z) (h2 : ¬ p → y.1 = false → y = z) :
    (if p then x else y).1 = false → (if p then x else y) = z := by
  by_cases h : p
  · rw [if_pos h]; exact h1 h
  · rw [if_neg h]; exact h2 h

theorem select_encryption_mode_rejected (mode : List Nat) (out_crypt : wifi_crypt)
    (out_auth : wifi_auth) :
    (select_encryption_mode mode out_crypt out_auth).1 = false →
      select_encryption_mode mode out_crypt out_auth = (false, out_crypt, out_auth) := by
  unfold select_encryption_mode
  repeat' (refine ite_rejected _ _ _ (fun _ => ?_) (fun _ => ?_))
  all_goals first
    | (intro _; rfl)
    | (intro h; exact absurd h (by simp))

/-- C21: the usage text is exact about modes. A mode string is accepted by
`select_encryption_mode` (the returned `bool` is true) if and only if it is one
of the 42 names `print_usage` lists under "mode must be one of the following";
every other string is rejected and leaves `out_crypt` and `out_auth` as they
were, in particular the empty string and every string that holds an upper-case
letter (the listed names have none, so no string that differs from a listed
name in case is accepted). -/
theorem select_encryption_mode_usage (mode : List Nat) (out_crypt : wifi_crypt)
    (out_auth : wifi_auth) :
    ((select_encryption_mode mode out_crypt out_auth).1 = true ↔ mode ∈ print_usage_modes) ∧
      (mode ∉ print_usage_modes →
        select_encryption_mode mode out_crypt out_auth = (false, out_crypt, out_auth)) ∧
      print_usage_modes.length = 42 ∧
      select_encryption_mode [] out_crypt out_auth = (false, out_crypt, out_auth) ∧
      ((∃ c ∈ mode, 'A'.toNat ≤ c ∧ c ≤ 'Z'.toNat) →
        select_encryption_mode mode out_crypt out_auth = (false, out_crypt, out_auth)) := by
  have hrej : ∀ m : List Nat, m ∉ print_usage_modes →
      select_encryption_mode m out_crypt out_auth = (false, out_crypt, out_auth) := by
    intro m hm
    have h := (select_encryption_mode_fst m out_crypt out_auth).not.mpr hm
    exact select_encryption_mode_rejected m out_crypt out_auth (by simpa using h)
  refine ⟨select_encryption_mode_fst mode out_crypt out_auth, hrej mode, by decide,
    hrej [] (by decide), ?_⟩
  rintro ⟨c, hc, h1, h2⟩
  apply hrej
  intro hm
  have hl : ∀ m ∈ print_usage_modes, ∀ b ∈ m, ¬ ('A'.toNat ≤ b ∧ b ≤ 'Z'.toNat) := by decide
  exact hl mode hm c hc ⟨h1, h2⟩
theorem hex_digit_cases (c : Nat) (h : is_hex_digit c) :
    ('0'.toNat ≤ c ∧ c ≤ '9'.toNat ∧ hex_value c = c - '0'.toNat) ∨
      ('a'.toNat ≤ c ∧ c ≤ 'f'.toNat ∧ hex_value c = c - 'a'.toNat + 10) ∨
      ('A'.toNat ≤ c ∧ c ≤ 'F'.toNat ∧ hex_value c = c - 'A'.toNat + 10) := by
  have hmem : c ∈ hex_digits_lower ++ hex_digits_upper := List.mem_append.mpr h
  have hall : ∀ d ∈ hex_digits_lower ++ hex_digits_upper,
      ('0'.toNat ≤ d ∧ d ≤ '9'.toNat ∧ hex_value d = d - '0'.toNat) ∨
      ('a'.toNat ≤ d ∧ d ≤ 'f'.toNat ∧ hex_value d = d - 'a'.toNat + 10) ∨
      ('A'.toNat ≤ d ∧ d ≤ 'F'.toNat ∧ hex_value d = d - 'A'.toNat + 10) := by decide
  exact hall c hmem

theorem not_hex_digit (c : Nat) (h : ¬ is_hex_digit c) :
    ¬ ('0'.toNat ≤ c ∧ c ≤ '9'.toNat) ∧ ¬ ('a'.toNat ≤ c ∧ c ≤ 'f'.toNat) ∧
      ¬ ('A'.toNat ≤ c ∧ c ≤ 'F'.toNat) := by
  have hall : ∀ d, d < 128 → ¬ is_hex_digit d →
      ¬ ('0'.toNat ≤ d ∧ d ≤ '9'.toNat) ∧ ¬ ('a'.toNat ≤ d ∧ d ≤ 'f'.toNat) ∧
        ¬ ('A'.toNat ≤ d ∧ d ≤ 'F'.toNat) := by decide
  by_cases hc : c < 128
  · exact hall c hc h
  · have e0 : '9'.toNat = 57 := rfl
    have e1 : 'f'.toNat = 102 := rfl
    have e2 : 'F'.toNat = 70 := rfl
    omega

theorem hex_value_lt (c : Nat) (h : is_hex_digit c) : hex_value c < 16 := by
  have hmem : c ∈ hex_digits_lower ++ hex_digits_upper := List.mem_append.mpr h
  have hall : ∀ d ∈ hex_digits_lower ++ hex_digits_upper, hex_value d < 16 := by decide
  exact hall c hmem

/-- One step of the digit loop on a hexadecimal digit. -/
theorem parse_digits_step (saddr : List Nat) (fuel i addr : Nat) (hi : i < 2)
    (h : is_hex_digit (saddr.getD (2 + i) 0)) :
    parse_i2c_address_digits saddr (fuel + 1) i addr
      = parse_i2c_address_digits saddr fuel (i + 1)
          (16 * addr + hex_value (saddr.getD (2 + i) 0)) := by
  have e : addr <<< 4 = 16 * addr := by rw [Nat.shiftLeft_eq]; omega
  rcases hex_digit_cases _ h with ⟨h1, h2, h3⟩ | ⟨h1, h2, h3⟩ | ⟨h1, h2, h3⟩
  · simp only [parse_i2c_address_digits, hi, if_true, ge_iff_le, h1, h2, and_self, e, h3]
  · have hn : ¬ (saddr.getD (2 + i) 0 ≤ '9'.toNat) := by
      have e1 : 'a'.toNat = 97 := rfl
      have e0 : '9'.toNat = 57 := rfl
      omega
    simp only [parse_i2c_address_digits, hi, if_true, ge_iff_le, h1, h2, and_self, e, h3, hn,
      and_false, if_false]
  · have hn : ¬ (saddr.getD (2 + i) 0 ≤ '9'.toNat) := by
      have e1 : 'A'.toNat = 65 := rfl
      have e0 : '9'.toNat = 57 := rfl
      omega
    have hn2 : ¬ ('a'.toNat ≤ saddr.getD (2 + i) 0) := by
      have e1 : 'a'.toNat = 97 := rfl
      have e0 : 'F'.toNat = 70 := rfl
      omega
    simp only [parse_i2c_address_digits, hi, if_true, ge_iff_le, h1, h2, and_self, e, h3, hn,
      hn2, and_false, false_and, if_false]

/-- One step of the digit loop on a character that is no hexadecimal digit. -/
theorem parse_digits_stop (saddr : List Nat) (fuel i addr : Nat) (hi : i < 2)
    (h : ¬ is_hex_digit (saddr.getD (2 + i) 0)) :
    parse_i2c_address_digits saddr (fuel + 1) i addr = -2 := by
  obtain ⟨h1, h2, h3⟩ := not_hex_digit _ h
  simp only [parse_i2c_address_digits, hi, if_true, ge_iff_le, h1, h2, h3, if_false]

theorem list_length_four (s : List Nat) (h : s.length = 4) : ∃ a b c d, s = [a, b, c, d] := by
  rcases s with _ | ⟨a, _ | ⟨b, _ | ⟨c, _ | ⟨d, _ | ⟨e, t⟩⟩⟩⟩⟩
  all_goals first
    | exact ⟨a, b, c, d, rfl⟩
    | (simp only [List.length_cons, List.length_nil] at h; omega)

theorem parse_i2c_address_head (x h l : Nat) (hx : x = 'x'.toNat ∨ x = 'X'.toNat) :
    parse_i2c_address ['0'.toNat, x, h, l]
      = parse_i2c_address_digits ['0'.toNat, x, h, l] 2 0 0 := by
  have hc : ¬ (['0'.toNat, x, h, l].length ≠ 4 ∨ ['0'.toNat, x, h, l].getD 0 0 ≠ '0'.toNat ∨
      (['0'.toNat, x, h, l].getD 1 0 ≠ 'x'.toNat ∧ ['0'.toNat, x, h, l].getD 1 0 ≠ 'X'.toNat)) := by
    simp only [List.length_cons, List.length_nil, List.getD_cons_zero, List.getD_cons_succ]
    rcases hx with rfl | rfl <;> decide
  unfold parse_i2c_address
  rw [if_neg hc]

theorem parse_i2c_address_bad_head (saddr : List Nat)
    (h : saddr.length ≠ 4 ∨ saddr.head? ≠ some '0'.toNat ∨
      (saddr[1]? ≠ some 'x'.toNat ∧ saddr[1]? ≠ some 'X'.toNat)) :
    parse_i2c_address saddr = -1 := by
  unfold parse_i2c_address
  apply if_pos
  by_cases hl : saddr.length ≠ 4
  · exact Or.inl hl
  · right
    obtain ⟨a, b, c, d, rfl⟩ := list_length_four saddr (not_not.mp hl)
    · simp only [List.head?_cons, List.getElem?_cons_succ, List.getElem?_cons_zero, ne_eq,
        Option.some.injEq, List.length_cons, List.length_nil, not_true_eq_false, false_or,
        Nat.reduceAdd] at h
      simpa only [List.getD_cons_zero, List.getD_cons_succ] using h

theorem parse_i2c_address_value (x h l : Nat) (hx : x = 'x'.toNat ∨ x = 'X'.toNat)
    (hh : is_hex_digit h) (hl : is_hex_digit l) :
    parse_i2c_address ['0'.toNat, x, h, l] = ((16 * hex_value h + hex_value l : Nat) : Int) := by
  rw [parse_i2c_address_head x h l hx,
    parse_digits_step _ 1 0 0 (by omega) (by simpa using hh),
    parse_digits_step _ 0 1 _ (by omega) (by simpa using hl)]
  simp [parse_i2c_address_digits]

theorem parse_i2c_address_bad_digit (x h l : Nat) (hx : x = 'x'.toNat ∨ x = 'X'.toNat)
    (hd : ¬ is_hex_digit h ∨ ¬ is_hex_digit l) :
    parse_i2c_address ['0'.toNat, x, h, l] = -2 := by
  rw [parse_i2c_address_head x h l hx]
  by_cases hh : is_hex_digit h
  · have hl : ¬ is_hex_digit l := by tauto
    rw [parse_digits_step _ 1 0 0 (by omega) (by simpa using hh),
      parse_digits_stop _ 0 1 _ (by omega) (by simpa using hl)]
  · rw [parse_digits_stop _ 1 0 0 (by omega) (by simpa using hh)]

/-- C23: address literal parsing. For every 4-character string made of `0`,
then `x` or `X`, then two hexadecimal digits h and l (either case),
`parse_i2c_address` returns 16*value(h) + value(l), an integer in 0..255; for
every other string it returns a negative value: -1 for a wrong length or
prefix, -2 for a character in the last two places that is no hexadecimal
digit. -/
theorem parse_i2c_address_literal (saddr : List Nat) :
    (∀ x h l, saddr = ['0'.toNat, x, h, l] → (x = 'x'.toNat ∨ x = 'X'.toNat) →
        is_hex_digit h → is_hex_digit l →
        parse_i2c_address saddr = ((16 * hex_value h + hex_value l : Nat) : Int) ∧
          0 ≤ parse_i2c_address saddr ∧ parse_i2c_address saddr ≤ 255) ∧
      (¬ is_address_literal saddr → parse_i2c_address saddr < 0) ∧
      ((saddr.length ≠ 4 ∨ saddr.head? ≠ some '0'.toNat ∨
          (saddr[1]? ≠ some 'x'.toNat ∧ saddr[1]? ≠ some 'X'.toNat)) →
        parse_i2c_address saddr = -1) ∧
      (∀ x h l, saddr = ['0'.toNat, x, h, l] → (x = 'x'.toNat ∨ x = 'X'.toNat) →
        (¬ is_hex_digit h ∨ ¬ is_hex_digit l) → parse_i2c_address saddr = -2) := by
  refine ⟨?_, ?_, parse_i2c_address_bad_head saddr, ?_⟩
  · rintro x h l rfl hx hh hl
    have hv := parse_i2c_address_value x h l hx hh hl
    have h1 := hex_value_lt h hh
    have h2 := hex_value_lt l hl
    rw [hv]
    omega
  · intro hn
    by_cases hp : saddr.length ≠ 4 ∨ saddr.head? ≠ some '0'.toNat ∨
        (saddr[1]? ≠ some 'x'.toNat ∧ saddr[1]? ≠ some 'X'.toNat)
    · rw [parse_i2c_address_bad_head saddr hp]; decide
    · simp only [not_or, not_and_or, ne_eq, not_not] at hp
      obtain ⟨hlen, h0, h1⟩ := hp
      obtain ⟨a, x, h, l, rfl⟩ := list_length_four saddr hlen
      simp only [List.head?_cons, Option.some.injEq, List.getElem?_cons_succ,
        List.getElem?_cons_zero] at h0 h1
      subst h0
      have hd : ¬ is_hex_digit h ∨ ¬ is_hex_digit l := by
        by_contra hc
        simp only [not_or, not_not] at hc
        exact hn ⟨x, h, l, rfl, h1, hc.1, hc.2⟩
      rw [parse_i2c_address_bad_digit x h l h1 hd]; decide
  · rintro x h l rfl hx hd
    exact parse_i2c_address_bad_digit x h l hx hd

/-- The run of `main` on a command line of 5 arguments that pass the five
checks: `apply_config` is called with the parsed address and the selected
pair, and its outcome gives the exit status. -/
theorem main_passes {σ : Type} (os : os_env) (ioctl : ioctl_fn σ) (bus : σ)
    (prog i2cbus i2caddr_s ssid pass mode : List Nat) (crypt : wifi_crypt) (auth : wifi_auth)
    (rbuf wbuf : List Nat) (hb : i2cbus.length = 1) (ha : 0 < parse_i2c_address i2caddr_s)
    (hs : 2 ≤ ssid.length ∧ ssid.length ≤ 28) (hp : 8 ≤ pass.length ∧ pass.length ≤ 63)
    (hm : (select_encryption_mode mode crypt auth).1 = true) :
    (main os ioctl bus [prog, i2cbus, i2caddr_s, ssid, pass, mode] crypt auth rbuf wbuf).run
      = some (apply_config os ioctl bus (parse_i2c_address i2caddr_s) ssid pass
          (select_encryption_mode mode crypt auth).2.1
          (select_encryption_mode mode crypt auth).2.2 rbuf wbuf) := by
  have ha2 : ¬ parse_i2c_address i2caddr_s ≤ 0 := by omega
  have hs2 : ¬ (ssid.length < 2 ∨ ssid.length > 28) := by omega
  have hp2 : ¬ (pass.length < 8 ∨ pass.length > 63) := by omega
  simp only [main, List.length_cons, List.length_nil, List.getD_cons_zero, List.getD_cons_succ,
    Nat.reduceAdd, ne_eq, not_true_eq_false, if_false, hb, ha2, wifi_lenghts.ssid_min,
    wifi_lenghts.ssid_max, wifi_lenghts.pass_min, wifi_lenghts.pass_max, hs2, hp2, hm]
  cases (apply_config os ioctl bus (parse_i2c_address i2caddr_s) ssid pass
      (select_encryption_mode mode crypt auth).2.1
      (select_encryption_mode mode crypt auth).2.2 rbuf wbuf).outcome <;> rfl

/-- The run of `main` on a command line of 5 arguments: the exit at the first
check that fails, in the order of the source. -/
theorem main_exits {σ : Type} (os : os_env) (ioctl : ioctl_fn σ) (bus : σ)
    (prog i2cbus i2caddr_s ssid pass mode : List Nat) (crypt : wifi_crypt) (auth : wifi_auth)
    (rbuf wbuf : List Nat) :
    (i2cbus.length ≠ 1 →
        main os ioctl bus [prog, i2cbus, i2caddr_s, ssid, pass, mode] crypt auth rbuf wbuf
          = ⟨1, none⟩) ∧
      (i2cbus.length = 1 → parse_i2c_address i2caddr_s ≤ 0 →
        main os ioctl bus [prog, i2cbus, i2caddr_s, ssid, pass, mode] crypt auth rbuf wbuf
          = ⟨2, none⟩) ∧
      (i2cbus.length = 1 → 0 < parse_i2c_address i2caddr_s →
        ¬ (2 ≤ ssid.length ∧ ssid.length ≤ 28) →
        main os ioctl bus [prog, i2cbus, i2caddr_s, ssid, pass, mode] crypt auth rbuf wbuf
          = ⟨3, none⟩) ∧
      (i2cbus.length = 1 → 0 < parse_i2c_address i2caddr_s →
        (2 ≤ ssid.length ∧ ssid.length ≤ 28) → ¬ (8 ≤ pass.length ∧ pass.length ≤ 63) →
        main os ioctl bus [prog, i2cbus, i2caddr_s, ssid, pass, mode] crypt auth rbuf wbuf
          = ⟨4, none⟩) ∧
      (i2cbus.length = 1 → 0 < parse_i2c_address i2caddr_s →
        (2 ≤ ssid.length ∧ ssid.length ≤ 28) → (8 ≤ pass.length ∧ pass.length ≤ 63) →
        (select_encryption_mode mode crypt auth).1 = false →
        main os ioctl bus [prog, i2cbus, i2caddr_s, ssid, pass, mode] crypt auth rbuf wbuf
          = ⟨5, none⟩) := by
  refine ⟨?_, ?_, ?_, ?_, ?_⟩
  · intro hb
    simp only [main, List.length_cons, List.length_nil, List.getD_cons_zero,
      List.getD_cons_succ, Nat.reduceAdd, ne_eq, not_true_eq_false, if_false, hb,
      not_false_eq_true, if_true]
  · intro hb ha
    simp only [main, List.length_cons, List.length_nil, List.getD_cons_zero,
      List.getD_cons_succ, Nat.reduceAdd, ne_eq, not_true_eq_false, if_false, hb, ha, if_true]
  · intro hb ha hs
    have ha2 : ¬ parse_i2c_address i2caddr_s ≤ 0 := by omega
    have hs2 : ssid.length < 2 ∨ ssid.length > 28 := by omega
    simp only [main, List.length_cons, List.length_nil, List.getD_cons_zero,
      List.getD_cons_succ, Nat.reduceAdd, ne_eq, not_true_eq_false, if_false, hb, ha2,
      wifi_lenghts.ssid_min, wifi_lenghts.ssid_max, hs2, if_true]
  · intro hb ha hs hp
    have ha2 : ¬ parse_i2c_address i2caddr_s ≤ 0 := by omega
    have hs2 : ¬ (ssid.length < 2 ∨ ssid.length > 28) := by omega
    have hp2 : pass.length < 8 ∨ pass.length > 63 := by omega
    simp only [main, List.length_cons, List.length_nil, List.getD_cons_zero,
      List.getD_cons_succ, Nat.reduceAdd, ne_eq, not_true_eq_false, if_false, hb, ha2,
      wifi_lenghts.ssid_min, wifi_lenghts.ssid_max, wifi_lenghts.pass_min,
      wifi_lenghts.pass_max, hs2, hp2, if_true]
  · intro hb ha hs hp hm
    have ha2 : ¬ parse_i2c_address i2caddr_s ≤ 0 := by omega
    have hs2 : ¬ (ssid.length < 2 ∨ ssid.length > 28) := by omega
    have hp2 : ¬ (pass.length < 8 ∨ pass.length > 63) := by omega
    simp only [main, List.length_cons, List.length_nil, List.getD_cons_zero,
      List.getD_cons_succ, Nat.reduceAdd, ne_eq, not_true_eq_false, if_false, hb, ha2,
      wifi_lenghts.ssid_min, wifi_lenghts.ssid_max, wifi_lenghts.pass_min,
      wifi_lenghts.pass_max, hs2, hp2, hm, Bool.false_eq_true, not_false_eq_true, if_true]

/-- C22: the input validation gate of `main`. With 5 arguments, `main` reaches
`apply_config` if and only if the bus argument is one character,
`parse_i2c_address` of the address argument is > 0, the SSID length is within
2..28, the passphrase length is within 8..63 and `select_encryption_mode`
accepts the mode; `apply_config` then gets the parsed address and the selected
pair. Otherwise `main` exits with code 1, 2, 3, 4 or 5 for the first of these
checks that fails, in that order, and `apply_config`, the only place where the
bus is opened, is not called. -/
theorem main_validation_gate {σ : Type} (os : os_env) (ioctl : ioctl_fn σ) (bus : σ)
    (prog i2cbus i2caddr_s ssid pass mode : List Nat) (crypt : wifi_crypt) (auth : wifi_auth)
    (rbuf wbuf : List Nat) :
    ((main os ioctl bus [prog, i2cbus, i2caddr_s, ssid, pass, mode] crypt auth rbuf wbuf).run
          ≠ none ↔
        (i2cbus.length = 1 ∧ 0 < parse_i2c_address i2caddr_s ∧
          (2 ≤ ssid.length ∧ ssid.length ≤ 28) ∧ (8 ≤ pass.length ∧ pass.length ≤ 63) ∧
          (select_encryption_mode mode crypt auth).1 = true)) ∧
      ((i2cbus.length = 1 ∧ 0 < parse_i2c_address i2caddr_s ∧
          (2 ≤ ssid.length ∧ ssid.length ≤ 28) ∧ (8 ≤ pass.length ∧ pass.length ≤ 63) ∧
          (select_encryption_mode mode crypt auth).1 = true) →
        (main os ioctl bus [prog, i2cbus, i2caddr_s, ssid, pass, mode] crypt auth rbuf wbuf).run
          = some (apply_config os ioctl bus (parse_i2c_address i2caddr_s) ssid pass
              (select_encryption_mode mode crypt auth).2.1
              (select_encryption_mode mode crypt auth).2.2 rbuf wbuf)) ∧
      (i2cbus.length ≠ 1 →
        main os ioctl bus [prog, i2cbus, i2caddr_s, ssid, pass, mode] crypt auth rbuf wbuf
          = ⟨1, none⟩) ∧
      (i2cbus.length = 1 → parse_i2c_address i2caddr_s ≤ 0 →
        main os ioctl bus [prog, i2cbus, i2caddr_s, ssid, pass, mode] crypt auth rbuf wbuf
          = ⟨2, none⟩) ∧
      (i2cbus.length = 1 → 0 < parse_i2c_address i2caddr_s →
        ¬ (2 ≤ ssid.length ∧ ssid.length ≤ 28) →
        main os ioctl bus [prog, i2cbus, i2caddr_s, ssid, pass, mode] crypt auth rbuf wbuf
          = ⟨3, none⟩) ∧
      (i2cbus.length = 1 → 0 < parse_i2c_address i2caddr_s →
        (2 ≤ ssid.length ∧ ssid.length ≤ 28) → ¬ (8 ≤ pass.length ∧ pass.length ≤ 63) →
        main os ioctl bus [prog, i2cbus, i2caddr_s, ssid, pass, mode] crypt auth rbuf wbuf
          = ⟨4, none⟩) ∧
      (i2cbus.length = 1 → 0 < parse_i2c_address i2caddr_s →
        (2 ≤ ssid.length ∧ ssid.length ≤ 28) → (8 ≤ pass.length ∧ pass.length ≤ 63) →
        (select_encryption_mode mode crypt auth).1 = false →
        main os ioctl bus [prog, i2cbus, i2caddr_s, ssid, pass, mode] crypt auth rbuf wbuf
          = ⟨5, none⟩) := by
  obtain ⟨e1, e2, e3, e4, e5⟩ :=
    main_exits os ioctl bus prog i2cbus i2caddr_s ssid pass mode crypt auth rbuf wbuf
  refine ⟨⟨fun hr => ?_, fun ⟨hb, ha, hs, hp, hm⟩ => ?_⟩,
    fun ⟨hb, ha, hs, hp, hm⟩ =>
      main_passes os ioctl bus prog i2cbus i2caddr_s ssid pass mode crypt auth rbuf wbuf
        hb ha hs hp hm,
    e1, e2, e3, e4, e5⟩
  · by_cases hb : i2cbus.length = 1
    · by_cases ha : 0 < parse_i2c_address i2caddr_s
      · by_cases hs : 2 ≤ ssid.length ∧ ssid.length ≤ 28
        · by_cases hp : 8 ≤ pass.length ∧ pass.length ≤ 63
          · by_cases hm : (select_encryption_mode mode crypt auth).1 = true
            · exact ⟨hb, ha, hs, hp, hm⟩
            · rw [e5 hb ha hs hp (by simpa using hm)] at hr; exact absurd rfl hr
          · rw [e4 hb ha hs hp] at hr; exact absurd rfl hr
        · rw [e3 hb ha hs] at hr; exact absurd rfl hr
      · rw [e2 hb (by omega)] at hr; exact absurd rfl hr
    · rw [e1 hb] at hr; exact absurd rfl hr
  · rw [main_passes os ioctl bus prog i2cbus i2caddr_s ssid pass mode crypt auth rbuf wbuf
      hb ha hs hp hm]
    exact Option.some_ne_none _

/-! ## The encoder and its buffer: claims C25, C26 -/

/-- The stores of `put_all` go to the consecutive indices from `i` on. -/
theorem put_all_stores (s : List Nat) :
    ∀ (buf : List Nat) (i : Nat),
      (put_all (buf, i) s).1
        = (List.range s.length).foldl (fun b k => b.set (i + k) (s.getD k 0 % 256)) buf := by
  induction s with
  | nil => intro buf i; simp [put_all]
  | cons a t ih =>
    intro buf i
    have h := ih (buf.set i (a % 256)) (i + 1)
    simp only [put_all, List.foldl_cons, put] at h ⊢
    rw [h, List.length_cons, List.range_succ_eq_map, List.foldl_cons, List.foldl_map]
    simp only [Nat.add_zero, List.getD_cons_zero, List.getD_cons_succ, Nat.succ_eq_add_one]
    congr 1
    funext b k
    congr 1
    omega

/-- Stores below index `n` leave the buffer from `n` on as it was. -/
theorem foldl_set_above (g : Nat → Nat) (n : Nat) :
    ∀ (m : Nat) (buf : List Nat), m ≤ n → ∀ k, n ≤ k →
      ((List.range m).foldl (fun b j => b.set j (g j)) buf)[k]? = buf[k]? := by
  intro m
  induction m with
  | zero => intro buf _ k _; simp
  | succ m ih =>
    intro buf hm k hk
    rw [List.range_succ, List.foldl_append, List.foldl_cons, List.foldl_nil,
      List.getElem?_set_ne (by omega)]
    exact ih buf (by omega) k hk

theorem foldl_set_length (g : Nat → Nat) :
    ∀ (m : Nat) (buf : List Nat),
      ((List.range m).foldl (fun b j => b.set j (g j)) buf).length = buf.length := by
  intro m
  induction m with
  | zero => intro buf; simp
  | succ m ih =>
    intro buf
    rw [List.range_succ, List.foldl_append, List.foldl_cons, List.foldl_nil, List.length_set]
    exact ih buf

theorem make_wsc_ndef_stores (ssid pass : List Nat) (crypt : wifi_crypt) (auth : wifi_auth)
    (buf : List Nat) (max_size : Nat) (hfit : 69 + ssid.length + pass.length ≤ max_size) :
    (make_wsc_ndef ssid pass crypt auth buf max_size).2
      = (List.range (68 + ssid.length + pass.length)).foldl
          (fun b k => b.set k ((wsc_stores ssid pass crypt auth).getD k 0 % 256)) buf := by
  rw [make_wsc_ndef_eq_stores, if_neg (by omega)]
  simp only [put_all_stores, wsc_stores_length, Nat.zero_add]

/-- C25: the encoder never overruns its buffer. For every SSID, passphrase,
auth, cipher, buffer and capacity `max_size`, if `make_wsc_ndef` returns a
non-zero length n then n <= max_size, and the stores of the call are the n
stores at the indices 0, 1, ..., n-1, each below `max_size`: the buffer after
the call is the buffer before it with these stores applied, it has the same
length, and every byte at an index from n on is as it was. -/
theorem make_wsc_ndef_no_overrun (ssid pass : List Nat) (crypt : wifi_crypt)
    (auth : wifi_auth) (buf : List Nat) (max_size : Nat)
    (hok : (make_wsc_ndef ssid pass crypt auth buf max_size).1 ≠ 0) :
    (make_wsc_ndef ssid pass crypt auth buf max_size).1 ≤ max_size ∧
      (make_wsc_ndef ssid pass crypt auth buf max_size).2
        = (List.range (make_wsc_ndef ssid pass crypt auth buf max_size).1).foldl
            (fun b k => b.set k ((wsc_stores ssid pass crypt auth).getD k 0 % 256)) buf ∧
      (∀ k ∈ List.range (make_wsc_ndef ssid pass crypt auth buf max_size).1, k < max_size) ∧
      (make_wsc_ndef ssid pass crypt auth buf max_size).2.length = buf.length ∧
      ∀ k, (make_wsc_ndef ssid pass crypt auth buf max_size).1 ≤ k →
        (make_wsc_ndef ssid pass crypt auth buf max_size).2[k]? = buf[k]? := by
  have hfit := fits_of_ne_zero ssid pass crypt auth buf max_size hok
  have hn := make_wsc_ndef_fst ssid pass crypt auth buf max_size hfit
  have hs := make_wsc_ndef_stores ssid pass crypt auth buf max_size hfit
  rw [hn, hs]
  refine ⟨by omega, rfl, ?_, foldl_set_length _ _ _, ?_⟩
  · intro k hk
    have := List.mem_range.mp hk
    omega
  · intro k hk
    exact foldl_set_above _ _ _ _ (le_refl _) k hk

/-- Witness of C25: "MyNet" / "password1" in a 160-byte buffer. -/
theorem make_wsc_ndef_no_overrun_witness :
    (make_wsc_ndef ssid_MyNet pass_password1 wifi_crypt.wifi_crypt_none
        wifi_auth.wifi_auth_open buf160 160).1 ≤ 160 :=
  (make_wsc_ndef_no_overrun ssid_MyNet pass_password1 wifi_crypt.wifi_crypt_none
    wifi_auth.wifi_auth_open buf160 160 (by decide)).1

/-- C26: validated credentials always fit. For every SSID length within
`ssid_min`..`ssid_max` (2..28) and passphrase length within
`pass_min`..`pass_max` (8..63), `make_wsc_ndef` with the 160-byte buffer of
`apply_config` succeeds (it returns 68 + s + p, not 0), and the values
30 + payload_len and 4 + payload_len it stores in the one-byte fields at the
indices 1 and 4 are at most 255: the bytes in the buffer are these values, not
their remainders modulo 256. -/
theorem make_wsc_ndef_validated_fits (ssid pass : List Nat) (crypt : wifi_crypt)
    (auth : wifi_auth) (buf : List Nat)
    (hs : wifi_lenghts.ssid_min ≤ ssid.length ∧ ssid.length ≤ wifi_lenghts.ssid_max)
    (hp : wifi_lenghts.pass_min ≤ pass.length ∧ pass.length ≤ wifi_lenghts.pass_max)
    (hbuf : buf.length = max_ndef_buf_size) :
    (make_wsc_ndef ssid pass crypt auth buf max_ndef_buf_size).1 ≠ 0 ∧
      (make_wsc_ndef ssid pass crypt auth buf max_ndef_buf_size).1
        = 68 + ssid.length + pass.length ∧
      (wsc_stores ssid pass crypt auth)[1]? = some (30 + (35 + ssid.length + pass.length)) ∧
      (wsc_stores ssid pass crypt auth)[4]? = some (4 + (35 + ssid.length + pass.length)) ∧
      30 + (35 + ssid.length + pass.length) ≤ 255 ∧
      4 + (35 + ssid.length + pass.length) ≤ 255 ∧
      (make_wsc_ndef ssid pass crypt auth buf max_ndef_buf_size).2[1]?
        = some (30 + (35 + ssid.length + pass.length)) ∧
      (make_wsc_ndef ssid pass crypt auth buf max_ndef_buf_size).2[4]?
        = some (4 + (35 + ssid.length + pass.length)) := by
  simp only [wifi_lenghts.ssid_min, wifi_lenghts.ssid_max, wifi_lenghts.pass_min,
    wifi_lenghts.pass_max, max_ndef_buf_size] at hs hp hbuf ⊢
  have hfit : 69 + ssid.length + pass.length ≤ 160 := by omega
  have hn := make_wsc_ndef_fst ssid pass crypt auth buf 160 hfit
  have hb : (make_wsc_ndef ssid pass crypt auth buf 160).2
      = (wsc_stores ssid pass crypt auth).map (· % 256)
          ++ buf.drop (68 + ssid.length + pass.length) := by
    rw [make_wsc_ndef_eq_stores, if_neg (by omega)]
    have hl := wsc_stores_length ssid pass crypt auth
    rw [put_all_fst _ _ _ (by omega)]
    simp [hl]
  have h1 : (wsc_stores ssid pass crypt auth)[1]?
      = some (30 + (35 + ssid.length + pass.length)) := by
    simp [wsc_stores]
  have h4 : (wsc_stores ssid pass crypt auth)[4]?
      = some (4 + (35 + ssid.length + pass.length)) := by
    simp [wsc_stores]
  have hl := wsc_stores_length ssid pass crypt auth
  refine ⟨by omega, hn, h1, h4, by omega, by omega, ?_, ?_⟩
  · rw [hb, List.getElem?_append_left (by simp only [List.length_map]; omega),
      List.getElem?_map, h1, Option.map_some']
    congr 1
    omega
  · rw [hb, List.getElem?_append_left (by simp only [List.length_map]; omega),
      List.getElem?_map, h4, Option.map_some']
    congr 1
    omega

/-- Witness of C26: "MyNet" / "password1" in a 160-byte buffer. -/
theorem make_wsc_ndef_validated_fits_witness :
    (make_wsc_ndef ssid_MyNet pass_password1 wifi_crypt.wifi_crypt_none
        wifi_auth.wifi_auth_open buf160 max_ndef_buf_size).1 ≠ 0 :=
  (make_wsc_ndef_validated_fits ssid_MyNet pass_password1 wifi_crypt.wifi_crypt_none
    wifi_auth.wifi_auth_open buf160 (by decide) (by decide) (by decide)).1

/-! ## The size limits of `write_ndef_at`: claim C28 -/

/-- C28: size limits of `write_ndef_at`. Called with size 0 it succeeds
without issuing any transfer (whatever the buffer pointer); called on a
buffer with a size greater than 160 it fails with the error
"invalid ndef buffer size" without issuing any transfer; called on a buffer
with a size in 1..160 it issues exactly one transfer, whether that transfer
succeeds or fails. (The null check of the buffer pointer comes before the size
check: with a null pointer and a size other than 0 the call fails with
"invalid ndef buffer" and issues no transfer.) -/
theorem write_ndef_at_size_limits {σ : Type} (ioctl : ioctl_fn σ) (dev : i2c_nfc_device σ)
    (buf : List Nat) (size ndef_off : Nat) :
    (∀ b : Option (List Nat), write_ndef_at ioctl dev b 0 ndef_off = (.ok (), dev)) ∧
      (size > max_ndef_buf_size →
        write_ndef_at ioctl dev (some buf) size ndef_off
          = (.error ⟨"invalid ndef buffer size", 0, 0⟩, dev)) ∧
      (1 ≤ size ∧ size ≤ max_ndef_buf_size →
        (write_ndef_at ioctl dev (some buf) size ndef_off).2.log
          = dev.log ++ [write_rdwr dev.address buf size ndef_off]) ∧
      (size ≠ 0 →
        write_ndef_at ioctl dev none size ndef_off
          = (.error ⟨"invalid ndef buffer", 0, 0⟩, dev)) := by
  refine ⟨fun b => by simp [write_ndef_at], fun h => ?_, fun h => ?_, fun h => ?_⟩
  · have h0 : size ≠ 0 := by simp only [max_ndef_buf_size] at h; omega
    simp only [write_ndef_at, h0, if_false, h, if_true]
  · exact write_ndef_at_log ioctl dev buf size ndef_off h.1
      (by simpa only [max_ndef_buf_size] using h.2)
  · simp only [write_ndef_at, h, if_false]

/-! ## The attempts of a run -/

theorem chunk_attempts_length (address : Nat) (wbuf : List Nat) (size : Nat) :
    ∀ (js : List Nat) (c : Nat), (∀ j ∈ js, j ≤ 6) →
      (chunk_attempts address wbuf size c js).length ≤ 6 * js.length := by
  intro js
  induction js with
  | nil => intro c _; simp [chunk_attempts]
  | cons j js ih =>
    intro c h
    have h1 := ih (c + 1) (fun x hx => h x (List.mem_cons_of_mem _ hx))
    have h2 := h j (List.mem_cons_self _ _)
    simp only [chunk_attempts, List.length_append, List.length_replicate, List.length_cons]
    omega

theorem chunk_attempts_mem (address : Nat) (wbuf : List Nat) (size : Nat) :
    ∀ (js : List Nat) (c : Nat) (t : i2c_rdwr_ioctl_data),
      t ∈ chunk_attempts address wbuf size c js →
      ∃ k, c ≤ k ∧ k < c + js.length ∧ t = chunk_rdwr address wbuf size (4 * k) := by
  intro js
  induction js with
  | nil => intro c t h; simp [chunk_attempts] at h
  | cons j js ih =>
    intro c t h
    simp only [chunk_attempts, List.mem_append] at h
    rcases h with h | h
    · exact ⟨c, le_refl _, by simp only [List.length_cons]; omega, (List.mem_replicate.mp h).2⟩
    · obtain ⟨k, hk1, hk2, hk3⟩ := ih (c + 1) t h
      exact ⟨k, by omega, by simp only [List.length_cons]; omega, hk3⟩

/-- The chunk loop submits, for each chunk it comes to, the transfer of that
chunk at most 6 times, and nothing else. -/
theorem write_chunks_attempts {σ : Type} (ioctl : ioctl_fn σ) (wbuf : List Nat) (size : Nat) :
    ∀ (fuel c : Nat) (dev : i2c_nfc_device σ), ∃ js,
      js.length ≤ (size + 3) / 4 - c ∧ (∀ j ∈ js, j ≤ 6) ∧
      (write_chunks ioctl wbuf size fuel (4 * c) dev).2.log
        = dev.log ++ chunk_attempts dev.address wbuf size c js ∧
      (write_chunks ioctl wbuf size fuel (4 * c) dev).2.address = dev.address := by
  intro fuel
  induction fuel with
  | zero => intro c dev; exact ⟨[], by simp [write_chunks, chunk_attempts]⟩
  | succ f ih =>
    intro c dev
    by_cases hi : 4 * c < size
    · obtain ⟨j, hj, hd⟩ := write_retries_shape ioctl (wbuf.drop (4 * c))
        (min 4 (size - 4 * c)) (4 * c) 5 (by omega) (by omega) 6 0 dev
      rcases hres : write_retries ioctl (wbuf.drop (4 * c)) (min 4 (size - 4 * c)) (4 * c) 5 6 0
        dev with ⟨r, d⟩
      rw [hres] at hd
      simp only at hd
      subst hd
      cases r with
      | error e =>
        refine ⟨[j], ?_, ?_, ?_, ?_⟩
        · simp only [List.length_singleton]; omega
        · intro x hx; rw [List.mem_singleton.mp hx]; exact hj
        · simp only [write_chunks, hi, if_true, hres, dev_after_log, chunk_attempts,
            List.append_nil, chunk_rdwr]
        · simp only [write_chunks, hi, if_true, hres, dev_after_address]
      | ok u =>
        obtain ⟨js, h1, h2, h3, h4⟩ := ih (c + 1)
          (dev_after ioctl (write_rdwr dev.address (wbuf.drop (4 * c)) (min 4 (size - 4 * c))
            (4 * c % 65536)) j dev)
        have e4 : 4 * c + 4 = 4 * (c + 1) := by omega
        refine ⟨j :: js, ?_, ?_, ?_, ?_⟩
        · simp only [List.length_cons]; omega
        · intro x hx
          rcases List.mem_cons.mp hx with hx | hx
          · rw [hx]; exact hj
          · exact h2 x hx
        · simp only [write_chunks, hi, if_true, hres, e4, h3, dev_after_log, dev_after_address,
            chunk_attempts, List.append_assoc, chunk_rdwr]
        · simp only [write_chunks, hi, if_true, hres, e4, h4, dev_after_address]
    · exact ⟨[], by simp [write_chunks, hi, chunk_attempts]⟩

/-- The transfers of one write-verify cycle, within the retry budgets. -/
theorem write_verify_cycle_attempts {σ : Type} (ioctl : ioctl_fn σ) (wbuf rbuf : List Nat)
    (n : Nat) (dev : i2c_nfc_device σ) (h1 : 1 ≤ n) (h2 : n ≤ 160) (hr : 160 ≤ rbuf.length) :
    ∃ p, within_budget n p ∧
      (write_verify_cycle ioctl wbuf n dev rbuf).2.1.log
        = dev.log ++ cycle_attempts dev.address wbuf n p ∧
      (write_verify_cycle ioctl wbuf n dev rbuf).2.1.address = dev.address ∧
      (write_verify_cycle ioctl wbuf n dev rbuf).2.2.length = rbuf.length := by
  have hae := aligned_read_size_eq n h1 h2
  obtain ⟨js, hj1, hj2, hw1, hw2⟩ := write_chunks_attempts ioctl wbuf n n 0 dev
  simp only [Nat.mul_zero, Nat.sub_zero] at hj1 hw1 hw2
  rcases hres : write_chunks ioctl wbuf n n 0 dev with ⟨r, d⟩
  rw [hres] at hw1 hw2
  simp only at hw1 hw2
  cases r with
  | error e =>
    refine ⟨(js, 0), ⟨hj1, hj2, by omega⟩, ?_, ?_, ?_⟩
    · simp only [write_verify_cycle, hres, hw1, cycle_attempts, List.replicate_zero,
        List.append_nil]
    · simp only [write_verify_cycle, hres, hw2]
    · simp only [write_verify_cycle, hres]
  | ok u =>
    have hml : 4 * ((n + 3) / 4) ≤ (memset rbuf 0 n).length := by
      rw [memset_length]; omega
    obtain ⟨j, hj, hd, hl, _⟩ := read_retries_shape ioctl (4 * ((n + 3) / 4)) 20 (by omega)
      (by omega) (by omega) 21 0 d (memset rbuf 0 n) hml
    rcases hrr : read_retries ioctl (4 * ((n + 3) / 4)) 20 21 0 d (memset rbuf 0 n)
      with ⟨r2, d2, rb2⟩
    rw [hrr] at hd hl
    simp only at hd hl
    subst hd
    rw [memset_length] at hl
    refine ⟨(js, j), ⟨hj1, hj2, hj⟩, ?_, ?_, ?_⟩
    · cases r2 <;>
        simp only [write_verify_cycle, hae, hres, hrr, dev_after_log, hw1, hw2, cycle_attempts,
          List.append_assoc]
    · cases r2 <;> simp only [write_verify_cycle, hae, hres, hrr, dev_after_address, hw2]
    · cases r2 <;> simp only [write_verify_cycle, hae, hres, hrr, hl]

/-- The transfers of the retry loop: at most `fuel` cycles, each within the
retry budgets. -/
theorem retry_loop_attempts {σ : Type} (ioctl : ioctl_fn σ) (wbuf : List Nat) (n : Nat)
    (h1 : 1 ≤ n) (h2 : n ≤ 160) :
    ∀ (fuel retries : Nat) (dev : i2c_nfc_device σ) (rbuf : List Nat), 160 ≤ rbuf.length →
      ∃ cs : List (List Nat × Nat), cs.length ≤ fuel ∧ (∀ p ∈ cs, within_budget n p) ∧
        (retry_loop ioctl wbuf n 5 fuel retries dev rbuf).2.1.log
          = dev.log ++ (cs.map (cycle_attempts dev.address wbuf n)).flatten ∧
        (retry_loop ioctl wbuf n 5 fuel retries dev rbuf).2.1.address = dev.address := by
  intro fuel
  induction fuel with
  | zero => intro retries dev rbuf _; exact ⟨[], by simp [retry_loop]⟩
  | succ f ih =>
    intro retries dev rbuf hr
    by_cases hlt : retries < 5
    · obtain ⟨p, hp, hlog, haddr, hlen⟩ :=
        write_verify_cycle_attempts ioctl wbuf rbuf n dev h1 h2 hr
      rcases hc : write_verify_cycle ioctl wbuf n dev rbuf with ⟨r, d, rb⟩
      rw [hc] at hlog haddr hlen
      simp only at hlog haddr hlen
      have hone : ∀ q ∈ [p], within_budget n q := by
        intro q hq; rw [List.mem_singleton.mp hq]; exact hp
      cases r with
      | error e =>
        refine ⟨[p], by simp, hone, ?_, ?_⟩
        · simp only [retry_loop, hlt, if_true, hc, hlog, List.map_cons, List.map_nil,
            List.flatten_cons, List.flatten_nil, List.append_nil]
        · simp only [retry_loop, hlt, if_true, hc, haddr]
      | ok b =>
        cases b with
        | true =>
          refine ⟨[p], by simp, hone, ?_, ?_⟩
          · simp only [retry_loop, hlt, if_true, hc, hlog, List.map_cons, List.map_nil,
              List.flatten_cons, List.flatten_nil, List.append_nil]
          · simp only [retry_loop, hlt, if_true, hc, haddr]
        | false =>
          obtain ⟨cs, h3, h4, h5, h6⟩ := ih (retries + 1) d rb (by rw [hlen]; exact hr)
          refine ⟨p :: cs, by simp only [List.length_cons]; omega, ?_, ?_, ?_⟩
          · intro q hq
            rcases List.mem_cons.mp hq with hq | hq
            · rw [hq]; exact hp
            · exact h4 q hq
          · simp only [retry_loop, hlt, if_true, hc, h5, hlog, haddr, List.map_cons,
              List.flatten_cons, List.append_assoc]
          · simp only [retry_loop, hlt, if_true, hc, h6, haddr]
    · exact ⟨[], by simp [retry_loop, hlt]⟩

/-- The transfers of the write-verify part of a run: at most 5 cycles, each
within the retry budgets. -/
theorem apply_config_loop_attempts {σ : Type} (ioctl : ioctl_fn σ) (wbuf rbuf : List Nat)
    (n : Nat) (dev : i2c_nfc_device σ) (h2 : n ≤ 160) (hr : 160 ≤ rbuf.length) :
    ∃ cs : List (List Nat × Nat), cs.length ≤ 5 ∧ (∀ p ∈ cs, within_budget n p) ∧
      (apply_config_loop ioctl wbuf n dev rbuf).dev.log
        = dev.log ++ (cs.map (cycle_attempts dev.address wbuf n)).flatten := by
  by_cases h1 : 1 ≤ n
  · obtain ⟨cs, hc1, hc2, hts, _⟩ := retry_loop_attempts ioctl wbuf n h1 h2 5 0 dev rbuf hr
    rcases hl : retry_loop ioctl wbuf n 5 5 0 dev rbuf with ⟨r, d, rb⟩
    rw [hl] at hts
    simp only at hts
    refine ⟨cs, hc1, hc2, ?_⟩
    cases r with
    | error e => simp only [apply_config_loop, hl, hts]
    | ok k =>
      simp only [apply_config_loop, hl]
      split <;> exact hts
  · have h0 : n = 0 := by omega
    subst h0
    exact ⟨[], by simp [apply_config_loop_zero]⟩

/-! ## The bounds of the loops are those of the source -/

theorem write_retries_step {σ : Type} (ioctl : ioctl_fn σ) (chunk : List Nat) (s i max : Nat)
    (fuel w : Nat) (dev : i2c_nfc_device σ) :
    write_retries ioctl chunk s i max (fuel + 1) w dev
      = if w ≤ max then
          match write_ndef_at ioctl dev (some chunk) s (i % 65536) with
          | (.ok _, dev) => (.ok (), dev)
          | (.error e, dev) =>
            if w = max then (.error e, dev)
            else write_retries ioctl chunk s i max fuel (w + 1) dev
        else (.ok (), dev) := rfl

/-- The write retry loop leaves by its own condition: more iterations than
`max_w_retries + 1 - w_retries` change nothing. -/
theorem write_retries_fuel {σ : Type} (ioctl : ioctl_fn σ) (chunk : List Nat) (s i max : Nat) :
    ∀ (fuel w : Nat) (dev : i2c_nfc_device σ), max + 1 ≤ w + fuel →
      write_retries ioctl chunk s i max (fuel + 1) w dev
        = write_retries ioctl chunk s i max fuel w dev := by
  intro fuel
  induction fuel with
  | zero =>
    intro w dev h
    have hw : ¬ w ≤ max := by omega
    rw [write_retries_step, if_neg hw]
    rfl
  | succ f ih =>
    intro w dev h
    rw [write_retries_step ioctl chunk s i max (f + 1) w dev,
      write_retries_step ioctl chunk s i max f w dev]
    by_cases hw : w ≤ max
    · rw [if_pos hw, if_pos hw]
      rcases write_ndef_at ioctl dev (some chunk) s (i % 65536) with ⟨r, d⟩
      cases r with
      | ok u => rfl
      | error e =>
        by_cases hwm : w = max
        · simp only [hwm, if_true]
        · simp only [hwm, if_false]
          exact ih (w + 1) d (by omega)
    · rw [if_neg hw, if_neg hw]

theorem read_retries_step {σ : Type} (ioctl : ioctl_fn σ) (a max : Nat)
    (fuel w : Nat) (dev : i2c_nfc_device σ) (rbuf : List Nat) :
    read_retries ioctl a max (fuel + 1) w dev rbuf
      = if w ≤ max then
          match read_into ioctl dev rbuf a with
          | (.ok _, dev, ndef_rbuf) => (.ok (), dev, ndef_rbuf)
          | (.error e, dev, ndef_rbuf) =>
            if w = max then (.error e, dev, ndef_rbuf)
            else read_retries ioctl a max fuel (w + 1) dev ndef_rbuf
        else (.ok (), dev, rbuf) := rfl

/-- The read retry loop leaves by its own condition. -/
theorem read_retries_fuel {σ : Type} (ioctl : ioctl_fn σ) (a max : Nat) :
    ∀ (fuel w : Nat) (dev : i2c_nfc_device σ) (rbuf : List Nat), max + 1 ≤ w + fuel →
      read_retries ioctl a max (fuel + 1) w dev rbuf
        = read_retries ioctl a max fuel w dev rbuf := by
  intro fuel
  induction fuel with
  | zero =>
    intro w dev rbuf h
    have hw : ¬ w ≤ max := by omega
    rw [read_retries_step, if_neg hw]
    rfl
  | succ f ih =>
    intro w dev rbuf h
    rw [read_retries_step ioctl a max (f + 1) w dev rbuf,
      read_retries_step ioctl a max f w dev rbuf]
    by_cases hw : w ≤ max
    · rw [if_pos hw, if_pos hw]
      rcases read_into ioctl dev rbuf a with ⟨r, d, rb⟩
      cases r with
      | ok u => rfl
      | error e =>
        by_cases hwm : w = max
        · simp only [hwm, if_true]
        · simp only [hwm, if_false]
          exact ih (w + 1) d rb (by omega)
    · rw [if_neg hw, if_neg hw]

theorem write_chunks_step {σ : Type} (ioctl : ioctl_fn σ) (wbuf : List Nat) (size : Nat)
    (fuel i : Nat) (dev : i2c_nfc_device σ) :
    write_chunks ioctl wbuf size (fuel + 1) i dev
      = if i < size then
          match write_retries ioctl (wbuf.drop i) (min 4 (size - i)) i 5 6 0 dev with
          | (.error e, dev) => (.error e, dev)
          | (.ok _, dev) => write_chunks ioctl wbuf size fuel (i + 4) dev
        else (.ok (), dev) := rfl

/-- The chunk loop leaves by its own condition `i < size`. -/
theorem write_chunks_fuel {σ : Type} (ioctl : ioctl_fn σ) (wbuf : List Nat) (size : Nat) :
    ∀ (fuel i : Nat) (dev : i2c_nfc_device σ), size ≤ i + 4 * fuel →
      write_chunks ioctl wbuf size (fuel + 1) i dev
        = write_chunks ioctl wbuf size fuel i dev := by
  intro fuel
  induction fuel with
  | zero =>
    intro i dev h
    have hi : ¬ i < size := by omega
    rw [write_chunks_step, if_neg hi]
    rfl
  | succ f ih =>
    intro i dev h
    rw [write_chunks_step ioctl wbuf size (f + 1) i dev,
      write_chunks_step ioctl wbuf size f i dev]
    by_cases hi : i < size
    · rw [if_pos hi, if_pos hi]
      rcases write_retries ioctl (wbuf.drop i) (min 4 (size - i)) i 5 6 0 dev with ⟨r, d⟩
      cases r with
      | error e => rfl
      | ok u => exact ih (i + 4) d (by omega)
    · rw [if_neg hi, if_neg hi]

theorem retry_loop_step {σ : Type} (ioctl : ioctl_fn σ) (wbuf : List Nat) (size max : Nat)
    (fuel retries : Nat) (dev : i2c_nfc_device σ) (rbuf : List Nat) :
    retry_loop ioctl wbuf size max (fuel + 1) retries dev rbuf
      = if retries < max then
          match write_verify_cycle ioctl wbuf size dev rbuf with
          | (.error e, dev, ndef_rbuf) => (.error e, dev, ndef_rbuf)
          | (.ok true, dev, ndef_rbuf) => (.ok retries, dev, ndef_rbuf)
          | (.ok false, dev, ndef_rbuf) =>
            retry_loop ioctl wbuf size max fuel (retries + 1) dev ndef_rbuf
        else (.ok retries, dev, rbuf) := rfl

/-- The retry loop leaves by its own condition `retries < max_retries`. -/
theorem retry_loop_fuel {σ : Type} (ioctl : ioctl_fn σ) (wbuf : List Nat) (size max : Nat) :
    ∀ (fuel retries : Nat) (dev : i2c_nfc_device σ) (rbuf : List Nat), max ≤ retries + fuel →
      retry_loop ioctl wbuf size max (fuel + 1) retries dev rbuf
        = retry_loop ioctl wbuf size max fuel retries dev rbuf := by
  intro fuel
  induction fuel with
  | zero =>
    intro retries dev rbuf h
    have hi : ¬ retries < max := by omega
    rw [retry_loop_step, if_neg hi]
    rfl
  | succ f ih =>
    intro retries dev rbuf h
    rw [retry_loop_step ioctl wbuf size max (f + 1) retries dev rbuf,
      retry_loop_step ioctl wbuf size max f retries dev rbuf]
    by_cases hi : retries < max
    · rw [if_pos hi, if_pos hi]
      rcases write_verify_cycle ioctl wbuf size dev rbuf with ⟨r, d, rb⟩
      cases r with
      | error e => rfl
      | ok b =>
        cases b with
        | true => rfl
        | false => exact ih (retries + 1) d rb (by omega)
    · rw [if_neg hi, if_neg hi]

/-- Every loop of the write-verify part runs to its own exit: with any number
of further iterations allowed, the result is the same. -/
theorem loops_fuel_enough {σ : Type} (ioctl : ioctl_fn σ) (wbuf rbuf chunk : List Nat)
    (size s i a : Nat) (dev : i2c_nfc_device σ) (extra : Nat) :
    write_retries ioctl chunk s i 5 (6 + extra) 0 dev = write_retries ioctl chunk s i 5 6 0 dev ∧
      write_chunks ioctl wbuf size (size + extra) 0 dev
        = write_chunks ioctl wbuf size size 0 dev ∧
      read_retries ioctl a 20 (21 + extra) 0 dev rbuf = read_retries ioctl a 20 21 0 dev rbuf ∧
      retry_loop ioctl wbuf size 5 (5 + extra) 0 dev rbuf
        = retry_loop ioctl wbuf size 5 5 0 dev rbuf := by
  induction extra with
  | zero => exact ⟨rfl, rfl, rfl, rfl⟩
  | succ e ih =>
    obtain ⟨h1, h2, h3, h4⟩ := ih
    refine ⟨?_, ?_, ?_, ?_⟩
    · rw [← h1]; exact write_retries_fuel ioctl chunk s i 5 (6 + e) 0 dev (by omega)
    · rw [← h2]; exact write_chunks_fuel ioctl wbuf size (size + e) 0 dev (by omega)
    · rw [← h3]; exact read_retries_fuel ioctl a 20 (21 + e) 0 dev rbuf (by omega)
    · rw [← h4]; exact retry_loop_fuel ioctl wbuf size 5 (5 + e) 0 dev rbuf (by omega)

/-! ## Every run of `apply_config`: claims C27, C29 -/

theorem cycle_attempts_length (address : Nat) (wbuf : List Nat) (n : Nat) (p : List Nat × Nat)
    (hp : within_budget n p) :
    (cycle_attempts address wbuf n p).length ≤ 6 * ((n + 3) / 4) + 21 := by
  obtain ⟨h1, h2, h3⟩ := hp
  have h := chunk_attempts_length address wbuf n p.1 0 h2
  simp only [cycle_attempts, List.length_append, List.length_replicate]
  omega

theorem cycles_length (address : Nat) (wbuf : List Nat) (n : Nat) :
    ∀ cs : List (List Nat × Nat), (∀ p ∈ cs, within_budget n p) →
      ((cs.map (cycle_attempts address wbuf n)).flatten).length
        ≤ cs.length * (6 * ((n + 3) / 4) + 21) := by
  intro cs
  induction cs with
  | nil => intro _; simp
  | cons p cs ih =>
    intro h
    have h1 := cycle_attempts_length address wbuf n p (h p (List.mem_cons_self _ _))
    have h2 := ih (fun q hq => h q (List.mem_cons_of_mem _ hq))
    simp only [List.map_cons, List.flatten_cons, List.length_append, List.length_cons]
    rw [Nat.add_mul, Nat.one_mul]
    omega

theorem cycles_mem (address : Nat) (wbuf : List Nat) (n : Nat) (cs : List (List Nat × Nat))
    (h : ∀ p ∈ cs, within_budget n p) (t : i2c_rdwr_ioctl_data)
    (ht : t ∈ (cs.map (cycle_attempts address wbuf n)).flatten) :
    (∃ k, 4 * k < n ∧ t = chunk_rdwr address wbuf n (4 * k)) ∨
      t = read_rdwr address (4 * ((n + 3) / 4)) := by
  obtain ⟨l, hl, htl⟩ := List.mem_flatten.mp ht
  obtain ⟨p, hp, rfl⟩ := List.mem_map.mp hl
  obtain ⟨h1, _, _⟩ := h p hp
  simp only [cycle_attempts, List.mem_append] at htl
  rcases htl with htl | htl
  · obtain ⟨k, _, hk, e⟩ := chunk_attempts_mem address wbuf n p.1 0 t htl
    exact Or.inl ⟨k, by omega, e⟩
  · exact Or.inr (List.mem_replicate.mp htl).2

/-- The transfers of a run of `apply_config`: the backup read at most once,
then at most 5 cycles, each within the retry budgets. -/
theorem apply_config_attempts {σ : Type} (os : os_env) (ioctl : ioctl_fn σ) (bus : σ)
    (i2caddr : Int) (ssid pass : List Nat) (crypt : wifi_crypt) (auth : wifi_auth)
    (rbuf wbuf : List Nat) (hr : 160 ≤ rbuf.length) :
    ∃ (b : Nat) (cs : List (List Nat × Nat)), b ≤ 1 ∧ cs.length ≤ 5 ∧
      (∀ p ∈ cs, within_budget (make_wsc_ndef ssid pass crypt auth wbuf 160).1 p) ∧
      (apply_config os ioctl bus i2caddr ssid pass crypt auth rbuf wbuf).dev.log
        = List.replicate b (read_rdwr (i2caddr % 65536).toNat 160)
          ++ (cs.map (cycle_attempts (i2caddr % 65536).toNat
                (make_wsc_ndef ssid pass crypt auth wbuf 160).2
                (make_wsc_ndef ssid pass crypt auth wbuf 160).1)).flatten := by
  by_cases hs : setup_ok os
  · have hlen : 160 ≤ (read_back 160 (ioctl bus (read_rdwr (i2caddr % 65536).toNat 160)).rdata
        ++ rbuf.drop 160).length := by
      rw [List.length_append, read_back_length]; omega
    obtain ⟨cs, hc1, hc2, hc3⟩ := apply_config_loop_attempts ioctl
      (make_wsc_ndef ssid pass crypt auth wbuf 160).2
      (read_back 160 (ioctl bus (read_rdwr (i2caddr % 65536).toNat 160)).rdata ++ rbuf.drop 160)
      (make_wsc_ndef ssid pass crypt auth wbuf 160).1
      (dev_after ioctl (read_rdwr (i2caddr % 65536).toNat 160) 1 (opened_device bus i2caddr))
      (make_wsc_ndef_fst_le ssid pass crypt auth wbuf 160) hlen
    have hone : (dev_after ioctl (read_rdwr (i2caddr % 65536).toNat 160) 1
        (opened_device bus i2caddr)).log
        = List.replicate 1 (read_rdwr (i2caddr % 65536).toNat 160) ++ [] := by
      simp [dev_after_log, opened_device]
    have hbw : (build_and_write ioctl ssid pass crypt auth
        (dev_after ioctl (read_rdwr (i2caddr % 65536).toNat 160) 1 (opened_device bus i2caddr))
        (read_back 160 (ioctl bus (read_rdwr (i2caddr % 65536).toNat 160)).rdata
          ++ rbuf.drop 160) wbuf).dev.log
        = List.replicate 1 (read_rdwr (i2caddr % 65536).toNat 160)
          ++ (cs.map (cycle_attempts (i2caddr % 65536).toNat
                (make_wsc_ndef ssid pass crypt auth wbuf 160).2
                (make_wsc_ndef ssid pass crypt auth wbuf 160).1)).flatten := by
      simp only [build_and_write, max_ndef_buf_size]
      rw [hc3]
      simp [dev_after_log, dev_after_address, opened_device]
    rw [apply_config_setup_ok os ioctl bus i2caddr ssid pass crypt auth rbuf wbuf hs hr]
    split_ifs
    · exact ⟨1, [], le_refl _, by simp, by simp, by simpa using hone⟩
    · exact ⟨1, [], le_refl _, by simp, by simp, by simpa using hone⟩
    · exact ⟨1, cs, le_refl _, hc1, hc2, hbw⟩
    · exact ⟨1, [], le_refl _, by simp, by simp, by simpa using hone⟩
    · exact ⟨1, cs, le_refl _, hc1, hc2, hbw⟩
  · obtain ⟨_, h⟩ := apply_config_setup_failed os ioctl bus i2caddr ssid pass crypt auth rbuf
      wbuf hs
    exact ⟨0, [], by omega, by simp, by simp, by simp [h]⟩

theorem data_byte_drop (wbuf : List Nat) (n i j : Nat) (hj : j < 4) :
    data_byte (wbuf.drop i) (min 4 (n - i)) j = data_byte wbuf n (i + j) := by
  unfold data_byte
  have e : (wbuf.drop i).getD j 0 = wbuf.getD (i + j) 0 := by
    simp only [List.getD_eq_getElem?_getD, List.getElem?_drop]
  by_cases h : i + j < n
  · rw [if_pos (by omega), if_pos h, e]
  · rw [if_neg (by omega), if_neg h]

/-- The transfer of the chunk at offset `i` of a message of at most 160 bytes:
one frame of 6 bytes, the address `0x10 + i` with high byte 0x00, then the 4
data bytes. -/
theorem chunk_rdwr_frame (address : Nat) (wbuf : List Nat) (n i : Nat) (hi : i < n)
    (hn : n ≤ 160) :
    chunk_rdwr address wbuf n i
      = { msgs := [ { addr := address, flags := 0, len := 6,
                      buf := [0x00, 0x10 + i, data_byte wbuf n i, data_byte wbuf n (i + 1),
                              data_byte wbuf n (i + 2), data_byte wbuf n (i + 3)] } ],
          nmsgs := 1 } := by
  have e1 : (min 4 (n - i) - 1) / 4 + 1 = 1 := by omega
  have e2 : i % 65536 = i := by omega
  have e3 : be16 (base_ndef_addr + i + 4 * 0) = [0x00, 0x10 + i] := by
    simp only [be16, base_ndef_addr]
    congr 1
    · omega
    · congr 1
      omega
  have e4 : List.range 1 = [0] := rfl
  simp only [chunk_rdwr, write_rdwr, e1, e2, e4, List.map_cons, List.map_nil,
    write_frame_eq, e3, Nat.mul_zero, Nat.zero_add, List.cons_append, List.nil_append]
  have d0 := data_byte_drop wbuf n i 0 (by omega)
  have d1 := data_byte_drop wbuf n i 1 (by omega)
  have d2 := data_byte_drop wbuf n i 2 (by omega)
  have d3 := data_byte_drop wbuf n i 3 (by omega)
  rw [Nat.add_zero] at d0
  rw [d0, d1, d2, d3]

/-- C27: writes stay inside the NDEF area. In every run of `apply_config`, on
every transport, every write transfer in the log is the transfer of one chunk
of the message `make_wsc_ndef` produced into the 160-byte buffer: one frame of
6 bytes for the chunk at a message offset i (a multiple of 4 below the message
length), carrying the address a = 0x10 + i in the two bytes 0x00 and 0x10 + i
(the high byte is 0x00), with 0x10 <= a and a + 4 <= 0x10 + 160, so its 4 data
bytes go to addresses of the 160-byte NDEF area. -/
theorem apply_config_writes_in_area {σ : Type} (os : os_env) (ioctl : ioctl_fn σ) (bus : σ)
    (i2caddr : Int) (ssid pass : List Nat) (crypt : wifi_crypt) (auth : wifi_auth)
    (rbuf wbuf : List Nat) (hr : rbuf.length = max_ndef_buf_size) :
    ∀ t ∈ write_transfers
        (apply_config os ioctl bus i2caddr ssid pass crypt auth rbuf wbuf).dev.log,
      ∃ i, i % 4 = 0 ∧ i < (make_wsc_ndef ssid pass crypt auth wbuf max_ndef_buf_size).1 ∧
        t = chunk_rdwr (i2caddr % 65536).toNat
              (make_wsc_ndef ssid pass crypt auth wbuf max_ndef_buf_size).2
              (make_wsc_ndef ssid pass crypt auth wbuf max_ndef_buf_size).1 i ∧
        t.nmsgs = 1 ∧
        (∃ d0 d1 d2 d3, t.msgs =
          [ { addr := (i2caddr % 65536).toNat, flags := 0, len := 6,
              buf := [0x00, base_ndef_addr + i, d0, d1, d2, d3] } ]) ∧
        be_val [0x00, base_ndef_addr + i] = base_ndef_addr + i ∧
        base_ndef_addr ≤ base_ndef_addr + i ∧
        base_ndef_addr + i + 4 ≤ base_ndef_addr + max_ndef_buf_size := by
  simp only [max_ndef_buf_size, base_ndef_addr] at hr ⊢
  intro t ht
  obtain ⟨b, cs, _, _, hc, hlog⟩ := apply_config_attempts os ioctl bus i2caddr ssid pass crypt
    auth rbuf wbuf (by omega)
  have hle := make_wsc_ndef_fst_le ssid pass crypt auth wbuf 160
  rw [hlog] at ht
  simp only [write_transfers, List.mem_filter, List.mem_append] at ht
  obtain ⟨hmem, hw⟩ := ht
  rcases hmem with hmem | hmem
  · rw [(List.mem_replicate.mp hmem).2, read_rdwr_not_write] at hw
    exact absurd hw (by simp)
  · rcases cycles_mem _ _ _ cs hc t hmem with ⟨k, hk, e⟩ | e
    · have hf := chunk_rdwr_frame (i2caddr % 65536).toNat
        (make_wsc_ndef ssid pass crypt auth wbuf 160).2
        (make_wsc_ndef ssid pass crypt auth wbuf 160).1 (4 * k) hk hle
      refine ⟨4 * k, by omega, hk, e, ?_, ?_, ?_, by omega, by omega⟩
      · rw [e, hf]
      · rw [e, hf]; exact ⟨_, _, _, _, rfl⟩
      · simp only [be_val, List.foldl_cons, List.foldl_nil]; omega
    · rw [e, read_rdwr_not_write] at hw
      exact absurd hw (by simp)

/-- Witness of C27: "MyNet" / "password1" on an ideal bus whose reads deliver
nothing: every write transfer of the run is a single frame. -/
theorem apply_config_writes_in_area_witness :
    (write_transfers
        (apply_config os_ok (ideal_ioctl []) () 0x57 ssid_MyNet pass_password1
          wifi_crypt.wifi_crypt_none wifi_auth.wifi_auth_open buf160 buf160).dev.log).all
      (fun t => decide (t.nmsgs = 1)) = true :=
  List.all_eq_true.mpr (fun t ht => by
    obtain ⟨i, _, _, _, hn, _⟩ := apply_config_writes_in_area os_ok (ideal_ioctl []) () 0x57
      ssid_MyNet pass_password1 wifi_crypt.wifi_crypt_none wifi_auth.wifi_auth_open buf160
      buf160 (by decide) t ht
    simp [hn])

/-- C29: bounded work under any transport. For every message length n in
1..160 and every transport (any pattern of failing and succeeding transfers
and any read-back data), the write-verify part of `apply_config` ends after
at most 5 write-verify cycles, each with at most 6 write attempts per chunk
and at most 21 read attempts, hence after at most 5 * (6 * ceil(n/4) + 21)
transfer attempts; a whole run of `apply_config` submits the backup read at
most once before them, hence at most 1 + 5 * (6 * ceil(n/4) + 21) transfers
for the length n the encoder returned. The loops end by their own exit
conditions: allowing any number of further iterations gives the same
result. -/
theorem apply_config_bounded_work {σ : Type} (os : os_env) (ioctl : ioctl_fn σ) (bus : σ)
    (i2caddr : Int) (ssid pass : List Nat) (crypt : wifi_crypt) (auth : wifi_auth)
    (rbuf wbuf msg : List Nat) (n : Nat) (dev : i2c_nfc_device σ)
    (hn : 1 ≤ n ∧ n ≤ 160) (hr : rbuf.length = 160) :
    (∃ cs : List (List Nat × Nat), cs.length ≤ 5 ∧ (∀ p ∈ cs, within_budget n p) ∧
        (apply_config_loop ioctl msg n dev rbuf).dev.log
          = dev.log ++ (cs.map (cycle_attempts dev.address msg n)).flatten ∧
        ((cs.map (cycle_attempts dev.address msg n)).flatten).length
          ≤ 5 * (6 * ((n + 3) / 4) + 21)) ∧
      (∃ (b : Nat) (cs : List (List Nat × Nat)), b ≤ 1 ∧ cs.length ≤ 5 ∧
        (∀ p ∈ cs, within_budget (make_wsc_ndef ssid pass crypt auth wbuf 160).1 p) ∧
        (apply_config os ioctl bus i2caddr ssid pass crypt auth rbuf wbuf).dev.log
          = List.replicate b (read_rdwr (i2caddr % 65536).toNat 160)
            ++ (cs.map (cycle_attempts (i2caddr % 65536).toNat
                  (make_wsc_ndef ssid pass crypt auth wbuf 160).2
                  (make_wsc_ndef ssid pass crypt auth wbuf 160).1)).flatten) ∧
      (apply_config os ioctl bus i2caddr ssid pass crypt auth rbuf wbuf).dev.log.length
        ≤ 1 + 5 * (6 * (((make_wsc_ndef ssid pass crypt auth wbuf 160).1 + 3) / 4) + 21) ∧
      (∀ (extra s i a : Nat) (chunk : List Nat),
        write_retries ioctl chunk s i 5 (6 + extra) 0 dev
            = write_retries ioctl chunk s i 5 6 0 dev ∧
          write_chunks ioctl msg n (n + extra) 0 dev = write_chunks ioctl msg n n 0 dev ∧
          read_retries ioctl a 20 (21 + extra) 0 dev rbuf
            = read_retries ioctl a 20 21 0 dev rbuf ∧
          retry_loop ioctl msg n 5 (5 + extra) 0 dev rbuf
            = retry_loop ioctl msg n 5 5 0 dev rbuf) := by
  refine ⟨?_, apply_config_attempts os ioctl bus i2caddr ssid pass crypt auth rbuf wbuf
    (by omega), ?_, fun extra s i a chunk =>
      loops_fuel_enough ioctl msg rbuf chunk n s i a dev extra⟩
  · obtain ⟨cs, h1, h2, h3⟩ := apply_config_loop_attempts ioctl msg rbuf n dev hn.2 (by omega)
    refine ⟨cs, h1, h2, h3, ?_⟩
    have hl := cycles_length dev.address msg n cs h2
    have hm : cs.length * (6 * ((n + 3) / 4) + 21) ≤ 5 * (6 * ((n + 3) / 4) + 21) :=
      Nat.mul_le_mul_right _ h1
    omega
  · obtain ⟨b, cs, hb, h1, h2, h3⟩ := apply_config_attempts os ioctl bus i2caddr ssid pass
      crypt auth rbuf wbuf (by omega)
    have hl := cycles_length (i2caddr % 65536).toNat
      (make_wsc_ndef ssid pass crypt auth wbuf 160).2
      (make_wsc_ndef ssid pass crypt auth wbuf 160).1 cs h2
    have hm : cs.length * (6 * (((make_wsc_ndef ssid pass crypt auth wbuf 160).1 + 3) / 4) + 21)
        ≤ 5 * (6 * (((make_wsc_ndef ssid pass crypt auth wbuf 160).1 + 3) / 4) + 21) :=
      Nat.mul_le_mul_right _ h1
    rw [h3, List.length_append, List.length_replicate]
    omega

/-- Witness of C29: "MyNet" / "password1" on a bus whose writes all fail. -/
theorem apply_config_bounded_work_witness :
    (apply_config os_ok failing_writes () 0x57 ssid_MyNet pass_password1
        wifi_crypt.wifi_crypt_none wifi_auth.wifi_auth_open buf160 buf160).dev.log.length
      ≤ 1 + 5 * (6 * (((make_wsc_ndef ssid_MyNet pass_password1 wifi_crypt.wifi_crypt_none
          wifi_auth.wifi_auth_open buf160 160).1 + 3) / 4) + 21) :=
  (apply_config_bounded_work os_ok failing_writes () 0x57 ssid_MyNet pass_password1
    wifi_crypt.wifi_crypt_none wifi_auth.wifi_auth_open buf160 buf160 wbuf_MyNet 82
    fresh_device (by decide) (by decide)).2.2.1

/-! ## The ideal tag: claim C24 -/

theorem tag_ioctl_ret (mem : Nat → Nat) (t : i2c_rdwr_ioctl_data) :
    (tag_ioctl mem t).ret = (t.nmsgs : Int) := rfl

/-- A read transfer leaves the memory of the tag as it was and returns the
bytes from address 0x10 on. -/
theorem tag_ioctl_read (mem : Nat → Nat) (address len : Nat) :
    (tag_ioctl mem (read_rdwr address len)).state = mem ∧
      (tag_ioctl mem (read_rdwr address len)).rdata = mem_bytes mem 0x10 len := by
  constructor
  · simp [tag_ioctl, read_rdwr, tag_store, I2C_M_RD]
  · simp [tag_ioctl, read_rdwr, tag_fetch, I2C_M_RD, mem_bytes, be_val]

/-- A chunk transfer stores its 4 data bytes at the addresses `0x10 + i` to
`0x10 + i + 3`. -/
theorem tag_ioctl_chunk (mem : Nat → Nat) (address : Nat) (wbuf : List Nat) (n i : Nat)
    (hi : i < n) (hn : n ≤ 160) :
    (tag_ioctl mem (chunk_rdwr address wbuf n i)).state
      = fun x => if 0x10 + i ≤ x ∧ x < 0x10 + i + 4 then data_byte wbuf n (x - 0x10)
                 else mem x := by
  rw [chunk_rdwr_frame address wbuf n i hi hn]
  have hb : be_val [0x00, 0x10 + i] = 0x10 + i := by
    simp only [be_val, List.foldl_cons, List.foldl_nil]; omega
  funext x
  simp only [tag_ioctl, List.foldl_cons, List.foldl_nil, tag_store, List.length_cons,
    List.length_nil, Nat.reduceAdd, and_self, if_true, List.take_succ_cons, List.take_zero, hb]
  by_cases hx : 0x10 + i ≤ x ∧ x < 0x10 + i + 4
  · rw [if_pos hx, if_pos hx]
    obtain ⟨h1, h2⟩ := hx
    have hc : x - (0x10 + i) = 0 ∨ x - (0x10 + i) = 1 ∨ x - (0x10 + i) = 2 ∨
        x - (0x10 + i) = 3 := by omega
    rcases hc with e | e | e | e
    · rw [e]
      have ex : x - 0x10 = i := by omega
      rw [ex]; rfl
    · rw [e]
      have ex : x - 0x10 = i + 1 := by omega
      rw [ex]; rfl
    · rw [e]
      have ex : x - 0x10 = i + 2 := by omega
      rw [ex]; rfl
    · rw [e]
      have ex : x - 0x10 = i + 3 := by omega
      rw [ex]; rfl
  · rw [if_neg hx, if_neg hx]

theorem run_transfers_singleton {σ : Type} (ioctl : ioctl_fn σ) (t : i2c_rdwr_ioctl_data)
    (dev : i2c_nfc_device σ) :
    (run_transfers ioctl [t] dev).bus = (ioctl dev.bus t).state := by
  simp [run_transfers, submit]

/-- The memory of the tag after the first `c` chunks of a message have been
written: the bytes of the chunks, padded with zeros, from 0x10 on. -/
theorem tag_after_chunks (address : Nat) (wbuf : List Nat) (n : Nat) (hn : n ≤ 160)
    (dev : i2c_nfc_device (Nat → Nat)) :
    ∀ c, c ≤ (n + 3) / 4 →
      (run_transfers tag_ioctl
          ((List.range c).map (fun k => chunk_rdwr address wbuf n (4 * k))) dev).bus
        = fun x => if 0x10 ≤ x ∧ x < 0x10 + 4 * c then data_byte wbuf n (x - 0x10)
                   else dev.bus x := by
  intro c
  induction c with
  | zero =>
    intro _
    funext x
    have hx : ¬ (0x10 ≤ x ∧ x < 0x10 + 4 * 0) := by omega
    rw [if_neg hx]
    simp [run_transfers]
  | succ c ih =>
    intro hc
    have hi : 4 * c < n := by omega
    rw [List.range_succ, List.map_append, run_transfers_append, List.map_cons, List.map_nil,
      run_transfers_singleton, ih (by omega), tag_ioctl_chunk _ address wbuf n (4 * c) hi hn]
    funext x
    by_cases h1 : 0x10 + 4 * c ≤ x ∧ x < 0x10 + 4 * c + 4
    · rw [if_pos h1, if_pos (by omega)]
    · rw [if_neg h1]
      by_cases h2 : 0x10 ≤ x ∧ x < 0x10 + 4 * c
      · rw [if_pos h2, if_pos (by omega)]
      · rw [if_neg h2, if_neg (by omega)]

theorem map_data_byte (wbuf : List Nat) (n m : Nat) (hn : n ≤ wbuf.length) (hm : n ≤ m) :
    (List.range m).map (data_byte wbuf n) = wbuf.take n ++ List.replicate (m - n) 0 := by
  apply List.ext_getElem
  · rw [List.length_map, List.length_range, List.length_append, List.length_take,
      List.length_replicate]
    omega
  · intro k h1 h2
    rw [List.getElem_map, List.getElem_range]
    rw [List.length_map, List.length_range] at h1
    by_cases hk : k < n
    · rw [List.getElem_append_left (by rw [List.length_take]; omega), List.getElem_take]
      simp only [data_byte, hk, if_true]
      rw [List.getD_eq_getElem _ _ (by omega)]
    · rw [List.getElem_append_right (by rw [List.length_take]; omega),
        List.getElem_replicate]
      simp only [data_byte, hk, if_false]

/-- The bytes of the tag from 0x10 on, after the chunks of a message have been
written: the message, then zeros up to the next multiple of 4. -/
theorem tag_bytes_after_chunks (address : Nat) (wbuf : List Nat) (n : Nat) (hn : n ≤ 160)
    (hw : n ≤ wbuf.length) (dev : i2c_nfc_device (Nat → Nat)) :
    mem_bytes (run_transfers tag_ioctl (chunk_transfers address wbuf n) dev).bus 0x10
        (4 * ((n + 3) / 4))
      = wbuf.take n ++ List.replicate (4 * ((n + 3) / 4) - n) 0 := by
  rw [← map_data_byte wbuf n (4 * ((n + 3) / 4)) hw (by omega)]
  simp only [chunk_transfers, tag_after_chunks address wbuf n hn dev _ (le_refl _), mem_bytes]
  apply List.map_congr_left
  intro k hk
  have hk2 := List.mem_range.mp hk
  have e : 0x10 + k - 0x10 = k := by omega
  rw [if_pos (by omega), e]

theorem tag_after_cycle (address : Nat) (wbuf : List Nat) (n : Nat)
    (dev : i2c_nfc_device (Nat → Nat)) :
    (run_transfers tag_ioctl (cycle_transfers address wbuf n) dev).bus
      = (run_transfers tag_ioctl (chunk_transfers address wbuf n) dev).bus := by
  rw [cycle_transfers, run_transfers_append, run_transfers_singleton]
  exact (tag_ioctl_read _ _ _).1

/-- On the ideal tag a write-verify cycle submits its chunks and one read, and
the read-back matches the message. -/
theorem tag_cycle_matches (wbuf rbuf : List Nat) (n : Nat) (dev : i2c_nfc_device (Nat → Nat))
    (h1 : 1 ≤ n) (h2 : n ≤ 160) (hr : 160 ≤ rbuf.length) (hw : n ≤ wbuf.length)
    (hb : ∀ b ∈ wbuf.take n, b < 256) :
    ∃ rb, write_verify_cycle tag_ioctl wbuf n dev rbuf
      = (.ok true, run_transfers tag_ioctl (cycle_transfers dev.address wbuf n) dev, rb) := by
  obtain ⟨ha0, ha4, ham, hna⟩ := aligned_read_size_facts n h1 h2
  have hae := aligned_read_size_eq n h1 h2
  have hwc := write_chunks_all_ok tag_ioctl wbuf n tag_ioctl_ret n 0 dev (by omega)
  simp only [Nat.mul_zero, Nat.sub_zero, ← List.range_eq_range'] at hwc
  have hw' : write_chunks tag_ioctl wbuf n n 0 dev
      = (.ok (), run_transfers tag_ioctl (chunk_transfers dev.address wbuf n) dev) := hwc
  have hml : aligned_read_size n ≤ (memset rbuf 0 n).length := by
    rw [memset_length]; omega
  have hok : (attempt tag_ioctl (read_rdwr
      (run_transfers tag_ioctl (chunk_transfers dev.address wbuf n) dev).address
      (aligned_read_size n)) 0
      (run_transfers tag_ioctl (chunk_transfers dev.address wbuf n) dev).bus).ret = 2 := by
    simp [attempt, bus_after, tag_ioctl_ret, read_rdwr]
  have hrd := read_retries_ok tag_ioctl (aligned_read_size n) 20 ha0 ha4 ham 0 21 0
    (run_transfers tag_ioctl (chunk_transfers dev.address wbuf n) dev) (memset rbuf 0 n) hml
    (by omega) (by omega) (fun j hj => absurd hj (by omega)) hok
  rw [run_transfers_address] at hrd
  have hc := cycle_of_read_ok tag_ioctl wbuf rbuf _ n dev _ _ hw' hrd
  rw [take_read_back _ _ _ _ hna, hae] at hc
  have hdata : (attempt tag_ioctl (read_rdwr dev.address (4 * ((n + 3) / 4))) 0
      (run_transfers tag_ioctl (chunk_transfers dev.address wbuf n) dev).bus).rdata
      = wbuf.take n ++ List.replicate (4 * ((n + 3) / 4) - n) 0 := by
    rw [← tag_bytes_after_chunks dev.address wbuf n h2 hw dev]
    exact (tag_ioctl_read _ _ _).2
  have hlen : (wbuf.take n).length = n := by rw [List.length_take]; omega
  have heq : wbuf.take n = (read_back (4 * ((n + 3) / 4))
      (attempt tag_ioctl (read_rdwr dev.address (4 * ((n + 3) / 4))) 0
        (run_transfers tag_ioctl (chunk_transfers dev.address wbuf n) dev).bus).rdata).take
        n := by
    rw [hdata, read_back]
    have e1 : (wbuf.take n ++ List.replicate (4 * ((n + 3) / 4) - n) 0).take
        (4 * ((n + 3) / 4)) = wbuf.take n ++ List.replicate (4 * ((n + 3) / 4) - n) 0 := by
      apply List.take_of_length_le
      rw [List.length_append, List.length_replicate, hlen]; omega
    rw [e1, List.map_append, map_mod_bytes _ hb, List.append_assoc,
      List.take_append_of_le_length hlen.symm.le, List.take_of_length_le hlen.le]
  rw [decide_eq_true heq] at hc
  refine ⟨read_back (4 * ((n + 3) / 4))
      (attempt tag_ioctl (read_rdwr dev.address (4 * ((n + 3) / 4))) 0
        (run_transfers tag_ioctl (chunk_transfers dev.address wbuf n) dev).bus).rdata
    ++ List.drop (4 * ((n + 3) / 4)) (memset rbuf 0 n), ?_⟩
  rw [hc]
  simp only [cycle_transfers, run_transfers_append, run_transfers_cons]
  rfl


/-- The message in the buffer after a successful call of the encoder: the
stored values, each truncated to 8 bits. -/
theorem make_wsc_ndef_take (ssid pass : List Nat) (crypt : wifi_crypt) (auth : wifi_auth)
    (buf : List Nat) (max_size : Nat) (hfit : 69 + ssid.length + pass.length ≤ max_size)
    (hbuf : max_size ≤ buf.length) :
    (make_wsc_ndef ssid pass crypt auth buf max_size).2.take (68 + ssid.length + pass.length)
      = (wsc_stores ssid pass crypt auth).map (· % 256) := by
  have hl := wsc_stores_length ssid pass crypt auth
  rw [make_wsc_ndef_eq_stores, if_neg (by omega), put_all_fst _ _ _ (by omega)]
  simp only [List.take_zero, List.nil_append, Nat.zero_add]
  rw [List.take_append_of_le_length (by rw [List.length_map]; omega),
    List.take_of_length_le (by rw [List.length_map]; omega)]

/-- On the ideal tag the write-verify part of a run ends with the success
code after one cycle. -/
theorem tag_apply_config_loop (wbuf rbuf : List Nat) (n : Nat)
    (dev : i2c_nfc_device (Nat → Nat))
    (h1 : 1 ≤ n) (h2 : n ≤ 160) (hr : 160 ≤ rbuf.length) (hw : n ≤ wbuf.length)
    (hb : ∀ b ∈ wbuf.take n, b < 256) :
    apply_config_loop tag_ioctl wbuf n dev rbuf
      = ⟨.ok 0, run_transfers tag_ioctl (cycle_transfers dev.address wbuf n) dev⟩ := by
  obtain ⟨rb, hc⟩ := tag_cycle_matches wbuf rbuf n dev h1 h2 hr hw hb
  have hl := loop_of_cycle_match tag_ioctl wbuf rbuf rb n 4 0 dev _ (by omega) hc
  simp only [apply_config_loop, hl]
  rfl

/-- C24: end-to-end correctness on an ideal tag. The tag is a byte memory in
which each 6-byte write frame stores its 4 data bytes at the frame's 16-bit
address and a read returns the memory from the address written in the read's
first frame; no transfer fails. For every valid credential (SSID of 2..28
bytes, passphrase of 8..63 bytes), with the setup and the backup succeeding,
`apply_config` returns 0 after the backup read and exactly one write-verify
cycle (each chunk written once, one read-back), and afterwards the tag memory
from address 0x10 holds the encoded message byte for byte, followed by zero
bytes up to the next multiple of 4; the memory elsewhere is as it was. The
part of `apply_config` from the call of the encoder on does so on every opened
device, whatever came before it. -/
theorem apply_config_ideal_tag (os : os_env) (mem : Nat → Nat) (i2caddr : Int)
    (ssid pass : List Nat) (crypt : wifi_crypt) (auth : wifi_auth) (rbuf wbuf : List Nat)
    (hs : setup_ok os) (hf : backup_file_ok os)
    (hssid : wifi_lenghts.ssid_min ≤ ssid.length ∧ ssid.length ≤ wifi_lenghts.ssid_max)
    (hpass : wifi_lenghts.pass_min ≤ pass.length ∧ pass.length ≤ wifi_lenghts.pass_max)
    (hr : rbuf.length = 160) (hw : wbuf.length = 160) :
    (apply_config os tag_ioctl mem i2caddr ssid pass crypt auth rbuf wbuf).outcome = .ok 0 ∧
      (apply_config os tag_ioctl mem i2caddr ssid pass crypt auth rbuf wbuf).dev.log
        = read_rdwr (i2caddr % 65536).toNat 160 ::
          cycle_transfers (i2caddr % 65536).toNat
            (make_wsc_ndef ssid pass crypt auth wbuf 160).2
            (68 + ssid.length + pass.length) ∧
      (encode_output ssid pass crypt auth wbuf 160).length = 68 + ssid.length + pass.length ∧
      mem_bytes (apply_config os tag_ioctl mem i2caddr ssid pass crypt auth rbuf wbuf).dev.bus
          0x10 (4 * ((68 + ssid.length + pass.length + 3) / 4))
        = encode_output ssid pass crypt auth wbuf 160
          ++ List.replicate (4 * ((68 + ssid.length + pass.length + 3) / 4)
              - (68 + ssid.length + pass.length)) 0 ∧
      (∀ a, (a < 0x10 ∨ 0x10 + 4 * ((68 + ssid.length + pass.length + 3) / 4) ≤ a) →
        (apply_config os tag_ioctl mem i2caddr ssid pass crypt auth rbuf wbuf).dev.bus a
          = mem a) ∧
      ∀ (dev : i2c_nfc_device (Nat → Nat)) (rb : List Nat), rb.length = 160 →
        build_and_write tag_ioctl ssid pass crypt auth dev rb wbuf
          = ⟨.ok 0, run_transfers tag_ioctl (cycle_transfers dev.address
                (make_wsc_ndef ssid pass crypt auth wbuf 160).2
                (68 + ssid.length + pass.length)) dev⟩ := by
  simp only [wifi_lenghts.ssid_min, wifi_lenghts.ssid_max, wifi_lenghts.pass_min,
    wifi_lenghts.pass_max] at hssid hpass
  have hfit : 69 + ssid.length + pass.length ≤ 160 := by omega
  have hn := make_wsc_ndef_fst ssid pass crypt auth wbuf 160 hfit
  have hwl : (make_wsc_ndef ssid pass crypt auth wbuf 160).2.length = 160 := by
    rw [make_wsc_ndef_stores ssid pass crypt auth wbuf 160 hfit, foldl_set_length, hw]
  have htake := make_wsc_ndef_take ssid pass crypt auth wbuf 160 hfit (by omega)
  have hb : ∀ b ∈ (make_wsc_ndef ssid pass crypt auth wbuf 160).2.take
      (68 + ssid.length + pass.length), b < 256 := by
    intro b hb
    rw [htake] at hb
    obtain ⟨x, _, rfl⟩ := List.mem_map.mp hb
    exact Nat.mod_lt _ (by omega)
  have hret : (tag_ioctl mem (read_rdwr (i2caddr % 65536).toNat 160)).ret = 2 := rfl
  have hlen : 160 ≤ (read_back 160 (tag_ioctl mem (read_rdwr (i2caddr % 65536).toNat 160)).rdata
      ++ rbuf.drop 160).length := by
    rw [List.length_append, read_back_length]; omega
  have hbwg : ∀ (dev : i2c_nfc_device (Nat → Nat)) (rb : List Nat), 160 ≤ rb.length →
      build_and_write tag_ioctl ssid pass crypt auth dev rb wbuf
        = ⟨.ok 0, run_transfers tag_ioctl (cycle_transfers dev.address
              (make_wsc_ndef ssid pass crypt auth wbuf 160).2
              (68 + ssid.length + pass.length)) dev⟩ := by
    intro dev rb hrb
    have hloop := tag_apply_config_loop (make_wsc_ndef ssid pass crypt auth wbuf 160).2 rb
      (68 + ssid.length + pass.length) dev (by omega) (by omega) hrb (by omega) hb
    simp only [build_and_write, max_ndef_buf_size, hn, hloop]
  have hbw := hbwg
    (dev_after tag_ioctl (read_rdwr (i2caddr % 65536).toNat 160) 1 (opened_device mem i2caddr))
    (read_back 160 (tag_ioctl mem (read_rdwr (i2caddr % 65536).toNat 160)).rdata
      ++ rbuf.drop 160) hlen
  have haddr : (dev_after tag_ioctl (read_rdwr (i2caddr % 65536).toNat 160) 1
      (opened_device mem i2caddr)).address = (i2caddr % 65536).toNat := rfl
  rw [haddr] at hbw
  have hmain : apply_config os tag_ioctl mem i2caddr ssid pass crypt auth rbuf wbuf
      = ⟨.ok 0, run_transfers tag_ioctl (cycle_transfers (i2caddr % 65536).toNat
            (make_wsc_ndef ssid pass crypt auth wbuf 160).2
            (68 + ssid.length + pass.length))
          (dev_after tag_ioctl (read_rdwr (i2caddr % 65536).toNat 160) 1
            (opened_device mem i2caddr))⟩ := by
    rw [apply_config_setup_ok os tag_ioctl mem i2caddr ssid pass crypt auth rbuf wbuf hs
      (by omega)]
    simp only [hret, ne_eq, not_true_eq_false, if_false, hbw]
    rcases hf with ⟨h1, h2⟩ | ⟨h1, h2⟩
    · simp only [h1, if_true, h2, not_true_eq_false, if_false]
    · simp only [not_lt.mpr h1, if_false, h2, not_true_eq_false]
  have hbus0 : (dev_after tag_ioctl (read_rdwr (i2caddr % 65536).toNat 160) 1
      (opened_device mem i2caddr)).bus = mem := by
    simp only [dev_after, bus_after, opened_device]
    exact (tag_ioctl_read mem _ 160).1
  have henc : encode_output ssid pass crypt auth wbuf 160
      = (make_wsc_ndef ssid pass crypt auth wbuf 160).2.take
          (68 + ssid.length + pass.length) := by
    simp only [encode_output, hn]
  rw [hmain]
  refine ⟨rfl, ?_, ?_, ?_, ?_, fun dev rb hrb => hbwg dev rb (by omega)⟩
  · simp only [run_transfers_log, dev_after_log, opened_device, List.nil_append,
      List.replicate_one, List.singleton_append]
  · rw [henc, List.length_take, hwl]; omega
  · simp only [tag_after_cycle]
    rw [henc]
    exact tag_bytes_after_chunks _ _ _ (by omega) (by omega) _
  · intro a ha
    simp only [tag_after_cycle, chunk_transfers]
    rw [tag_after_chunks _ _ _ (by omega) _ _ (le_refl _)]
    simp only
    rw [if_neg (by omega), hbus0]

/-- Witness of C24: "MyNet" / "password1" on a tag whose memory holds 0xAA
everywhere. -/
theorem apply_config_ideal_tag_witness :
    (apply_config os_ok tag_ioctl mem_aa 0x57 ssid_MyNet pass_password1
        wifi_crypt.wifi_crypt_none wifi_auth.wifi_auth_open buf160 buf160).outcome = .ok 0 :=
  (apply_config_ideal_tag os_ok mem_aa 0x57 ssid_MyNet pass_password1
    wifi_crypt.wifi_crypt_none wifi_auth.wifi_auth_open buf160 buf160 (by decide) (by decide)
    (by decide) (by decide) (by decide) (by decide)).1


/-! ## Encoder failure and the validation of `main`: claim C16 -/

/-- A run of `main` that calls `apply_config` has passed the five checks. -/
theorem main_run_checks {σ : Type} (os : os_env) (ioctl : ioctl_fn σ) (bus : σ)
    (prog i2cbus i2caddr_s ssid pass mode : List Nat) (crypt : wifi_crypt) (auth : wifi_auth)
    (rbuf wbuf : List Nat)
    (hr : (main os ioctl bus [prog, i2cbus, i2caddr_s, ssid, pass, mode] crypt auth rbuf
      wbuf).run ≠ none) :
    i2cbus.length = 1 ∧ 0 < parse_i2c_address i2caddr_s ∧
      (2 ≤ ssid.length ∧ ssid.length ≤ 28) ∧ (8 ≤ pass.length ∧ pass.length ≤ 63) ∧
      (select_encryption_mode mode crypt auth).1 = true := by
  obtain ⟨e1, e2, e3, e4, e5⟩ :=
    main_exits os ioctl bus prog i2cbus i2caddr_s ssid pass mode crypt auth rbuf wbuf
  by_cases hb : i2cbus.length = 1
  · by_cases ha : 0 < parse_i2c_address i2caddr_s
    · by_cases hs : 2 ≤ ssid.length ∧ ssid.length ≤ 28
      · by_cases hp : 8 ≤ pass.length ∧ pass.length ≤ 63
        · by_cases hm : (select_encryption_mode mode crypt auth).1 = true
          · exact ⟨hb, ha, hs, hp, hm⟩
          · rw [e5 hb ha hs hp (by simpa using hm)] at hr; exact absurd rfl hr
        · rw [e4 hb ha hs hp] at hr; exact absurd rfl hr
      · rw [e3 hb ha hs] at hr; exact absurd rfl hr
    · rw [e2 hb (by omega)] at hr; exact absurd rfl hr
  · rw [e1 hb] at hr; exact absurd rfl hr

/-- C16, amended: encoder failure is excluded by the validation of `main`,
not checked in `apply_config`. On every command line of 5 arguments for which
`main` calls `apply_config` (the SSID has 2..28 bytes, the passphrase 8..63),
`make_wsc_ndef` returns inside `apply_config` the non-zero length 68 + s + p:
the encoder does not fail in a run of the program. `apply_config` itself does
not test the returned length: called with a credential for which
`make_wsc_ndef` returns 0, after a secured backup, it submits no further
transfer and returns the success code 0. -/
theorem encoder_failure_excluded_by_main {σ : Type} (os : os_env) (ioctl : ioctl_fn σ)
    (bus : σ) (prog i2cbus i2caddr_s ssid pass mode : List Nat) (crypt : wifi_crypt)
    (auth : wifi_auth) (rbuf wbuf : List Nat) :
    ((main os ioctl bus [prog, i2cbus, i2caddr_s, ssid, pass, mode] crypt auth rbuf wbuf).run
          ≠ none →
        (main os ioctl bus [prog, i2cbus, i2caddr_s, ssid, pass, mode] crypt auth rbuf
            wbuf).run
          = some (apply_config os ioctl bus (parse_i2c_address i2caddr_s) ssid pass
              (select_encryption_mode mode crypt auth).2.1
              (select_encryption_mode mode crypt auth).2.2 rbuf wbuf) ∧
        (make_wsc_ndef ssid pass (select_encryption_mode mode crypt auth).2.1
            (select_encryption_mode mode crypt auth).2.2 wbuf max_ndef_buf_size).1
          = 68 + ssid.length + pass.length ∧
        (make_wsc_ndef ssid pass (select_encryption_mode mode crypt auth).2.1
            (select_encryption_mode mode crypt auth).2.2 wbuf max_ndef_buf_size).1 ≠ 0) ∧
      (∀ (i2caddr : Int) (c : wifi_crypt) (a : wifi_auth),
        backup_secured os ioctl bus i2caddr → rbuf.length = 160 →
        (make_wsc_ndef ssid pass c a wbuf max_ndef_buf_size).1 = 0 →
        (apply_config os ioctl bus i2caddr ssid pass c a rbuf wbuf).outcome = .ok 0 ∧
          (apply_config os ioctl bus i2caddr ssid pass c a rbuf wbuf).dev.log
            = [read_rdwr (i2caddr % 65536).toNat 160]) := by
  refine ⟨fun hrun => ?_, fun i2caddr c a hsec hr hz => ?_⟩
  · obtain ⟨hb, ha, hs, hp, hm⟩ := main_run_checks os ioctl bus prog i2cbus i2caddr_s ssid
      pass mode crypt auth rbuf wbuf hrun
    have hn := make_wsc_ndef_fst ssid pass (select_encryption_mode mode crypt auth).2.1
      (select_encryption_mode mode crypt auth).2.2 wbuf 160 (by omega)
    refine ⟨main_passes os ioctl bus prog i2cbus i2caddr_s ssid pass mode crypt auth rbuf
      wbuf hb ha hs hp hm, ?_, ?_⟩
    · simpa only [max_ndef_buf_size] using hn
    · simp only [max_ndef_buf_size, hn]; omega
  · rw [apply_config_encoder_zero os ioctl bus i2caddr ssid pass c a rbuf wbuf hsec
      (by omega) (by simpa only [max_ndef_buf_size] using hz)]
    exact ⟨rfl, rfl⟩

/-- Witness of C16, amended: the command line `xinfcw 1 0x57 MyNet password1
none` passes the checks of `main`, and the encoder does not fail. -/
theorem encoder_failure_excluded_by_main_witness :
    (make_wsc_ndef ssid_MyNet pass_password1
        (select_encryption_mode (str_bytes "none") wifi_crypt.wifi_crypt_aes
          wifi_auth.wifi_auth_shared).2.1
        (select_encryption_mode (str_bytes "none") wifi_crypt.wifi_crypt_aes
          wifi_auth.wifi_auth_shared).2.2 buf160 max_ndef_buf_size).1 ≠ 0 :=
  ((encoder_failure_excluded_by_main os_ok (ideal_ioctl []) () (str_bytes "xinfcw")
    (str_bytes "1") (str_bytes "0x57") ssid_MyNet pass_password1 (str_bytes "none")
    wifi_crypt.wifi_crypt_aes wifi_auth.wifi_auth_shared buf160 buf160).1
    (by
      rw [main_passes os_ok (ideal_ioctl []) () (str_bytes "xinfcw") (str_bytes "1")
        (str_bytes "0x57") ssid_MyNet pass_password1 (str_bytes "none")
        wifi_crypt.wifi_crypt_aes wifi_auth.wifi_auth_shared buf160 buf160
        (by decide) (by decide) (by decide) (by decide) (by decide)]
      exact Option.some_ne_none _)).2.2

end xinfc
